import Mathlib

/-!
# nargv: shell style argument vectors

A shallow embedding of `nargv.c` (`nargv_ifs`, `nargv_field_seperator`,
`nargv_parse`) and a verification of its tokenizer.

Representation choices.

* A `char` is a `Nat`; only equality tests are made on bytes.  The named bytes
  are `34` (double quote), `39` (single quote), `92` (back slash), `0` (NUL),
  and `32`, `9`, `10` (space, tab, newline).
* A C string is the list of its bytes before the terminating NUL, so a list
  that stands for a C string holds no `0`.  `nargv_parse` scans the string
  together with its terminator: the scan position `input + index` is the list
  of the bytes from `input[index]` up to and including the terminator.  A read
  at a position past the terminator has no defined value; the embedding makes
  it a fault (`Pass1.fault`, or `none` from `pass2` and `nargv_parse`).
* What the code does once it has read past the terminator depends on the bytes
  that lie behind it.  `pass1_mem`, `pass2_mem` and `nargv_parse_mem` are the same
  functions over the whole array the pointer points into; they agree with
  `pass1`, `pass2` and `nargv_parse` wherever these return a result
  (`nargv_parse_mem_inside`).
* The process wide variable `NARGV_IFS` is passed explicitly.
* `calloc` is assumed to succeed.  A buffer is a list, a pointer into `data`
  is an offset, a stored pointer is `some offset` and `NULL` is `none`.  A
  write outside a buffer is a fault.
* Counters are natural numbers.  The counters of a result never exceed the
  input length plus one (`counters_bounded`), so for inputs shorter than `2^31`
  bytes no C counter wraps.
-/

namespace Nargv

/-! ## Separator configuration -/

/-- The built in separator set `" \t\n"`. -/
def NARGV_DEFAULT_IFS : List Nat := [32, 9, 10]

/-- The function `nargv_ifs`: the new value of `NARGV_IFS`.  The source compares
the pointers `NARGV_IFS` and `nifs`; equal pointers hold equal strings and
`strdup` copies the bytes, so on contents the new value is `nifs` either way. -/
def nargv_ifs (cur : List Nat) (nifs : Option (List Nat)) : List Nat :=
  match nifs with
  | none => NARGV_DEFAULT_IFS
  | some s => if cur = s then cur else s

/-- The loop `while ( *list) { if ( *list++ == seperator) return 1; } return 0;`. -/
def ifs_scan : List Nat → Nat → Bool
  | [], _ => false
  | c :: list, seperator => if c = seperator then true else ifs_scan list seperator

/-- The function `nargv_field_seperator`: NUL is always a field separator. -/
def nargv_field_seperator (ifs : List Nat) (seperator : Nat) : Bool :=
  if seperator ≠ 0 then ifs_scan ifs seperator else true

/-! ## The result structure -/

/-- The struct `NARGV`. `argv` and `data` are `none` while they are `NULL`. -/
structure NARGV where
  argv : Option (List (Option Nat))
  data : Option (List Nat)
  error_message : Option String
  argc : Nat
  data_length : Nat
  error_index : Nat
  error_code : Nat
deriving DecidableEq, Repr

/-- The zeroed structure returned by `calloc(1, sizeof(NARGV))`. -/
def NARGV.zero : NARGV :=
  { argv := none, data := none, error_message := none, argc := 0, data_length := 0,
    error_index := 0, error_code := 0 }

/-! ## First pass -/

/-- How the first pass ends. -/
inductive Pass1 where
  /-- a byte past the terminator was read -/
  | fault : Pass1
  /-- the statement `return nvp` inside the loop was reached -/
  | returned : NARGV → Pass1
  /-- the loop condition `index <= input_length` became false -/
  | completed : Bool → NARGV → Pass1
deriving DecidableEq, Repr

mutual

/-- The first `for` loop of `nargv_parse`, from the top of one iteration.
Arguments: the bytes from `input[index]` on (terminator included), `index`,
`composing_argument`, and the structure being filled. -/
def pass1 (ifs : List Nat) : List Nat → Nat → Bool → NARGV → Pass1
  | [], _, composing_argument, nvp => Pass1.completed composing_argument nvp
  | c :: rest, index, composing_argument, nvp =>
    if nargv_field_seperator ifs c then
      if composing_argument then
        pass1 ifs rest (index + 1) false { nvp with data_length := nvp.data_length + 1 }
      else
        pass1 ifs rest (index + 1) composing_argument nvp
    else
      let nvp := if !composing_argument then { nvp with argc := nvp.argc + 1 } else nvp
      if c = 92 then
        match rest with
        | [] => Pass1.fault
        | look_ahead :: rest2 =>
          if look_ahead = 34 ∨ look_ahead = 39 ∨ nargv_field_seperator ifs look_ahead then
            pass1 ifs rest2 (index + 2) true { nvp with data_length := nvp.data_length + 1 }
          else
            pass1 ifs rest2 (index + 2) true { nvp with data_length := nvp.data_length + 1 + 1 }
      else if c = 34 then
        pass1_dquote ifs rest index (index + 1) nvp
      else if c = 39 then
        pass1_squote ifs rest index (index + 1) nvp
      else
        pass1 ifs rest (index + 1) true { nvp with data_length := nvp.data_length + 1 }

/-- The loop `while (input[++index] != 34)` of the first pass. Arguments: the
bytes from `input[index]` on, after the increment; `quote`; `index`. -/
def pass1_dquote (ifs : List Nat) : List Nat → Nat → Nat → NARGV → Pass1
  | [], _, _, _ => Pass1.fault
  | c :: rest, quote, index, nvp =>
    if c = 34 then
      pass1 ifs rest (index + 1) true nvp
    else if c = 0 then
      Pass1.returned { nvp with error_index := quote + 1, error_code := 3,
                                error_message := some "unterminated double quote" }
    else if c = 92 then
      match rest with
      | [] => Pass1.fault
      | look_ahead :: rest2 =>
        if look_ahead = 34 then
          pass1_dquote ifs rest2 quote (index + 2)
            { nvp with data_length := nvp.data_length + 1 }
        else
          pass1_dquote ifs rest2 quote (index + 2)
            { nvp with data_length := nvp.data_length + 1 + 1 }
    else
      pass1_dquote ifs rest quote (index + 1) { nvp with data_length := nvp.data_length + 1 }

/-- The loop `while (input[++index] != 39)` of the first pass. -/
def pass1_squote (ifs : List Nat) : List Nat → Nat → Nat → NARGV → Pass1
  | [], _, _, _ => Pass1.fault
  | c :: rest, quote, index, nvp =>
    if c = 39 then
      pass1 ifs rest (index + 1) true nvp
    else if c = 0 then
      Pass1.returned { nvp with error_index := quote + 1, error_code := 4,
                                error_message := some "unterminated single quote" }
    else
      pass1_squote ifs rest quote (index + 1) { nvp with data_length := nvp.data_length + 1 }

end

/-! ## Second pass -/

/-- The locals and buffers of the second pass. -/
structure Pass2 where
  argv : List (Option Nat)
  data : List Nat
  data_index : Nat
  arg_index : Nat
deriving DecidableEq, Repr

/-- The statement `nvp->data[data_index++] = c`. -/
def Pass2.put (st : Pass2) (c : Nat) : Option Pass2 :=
  if st.data_index < st.data.length then
    some { st with data := st.data.set st.data_index c, data_index := st.data_index + 1 }
  else none

/-- The statement `nvp->argv[arg_index++] = (nvp->data + data_index)`. -/
def Pass2.mark (st : Pass2) : Option Pass2 :=
  if st.arg_index < st.argv.length then
    some { st with argv := st.argv.set st.arg_index (some st.data_index),
                   arg_index := st.arg_index + 1 }
  else none

mutual

/-- The second `for` loop of `nargv_parse`, from the top of one iteration. -/
def pass2 (ifs : List Nat) : List Nat → Bool → Pass2 → Option Pass2
  | [], _, st => some st
  | c :: rest, composing_argument, st =>
    if nargv_field_seperator ifs c then
      if composing_argument then
        (st.put 0).bind fun st => pass2 ifs rest false st
      else
        pass2 ifs rest composing_argument st
    else
      (if !composing_argument then st.mark else some st).bind fun st =>
      if c = 92 then
        match rest with
        | [] => none
        | look_ahead :: rest2 =>
          if look_ahead = 34 ∨ look_ahead = 39 ∨ nargv_field_seperator ifs look_ahead then
            (st.put look_ahead).bind fun st => pass2 ifs rest2 true st
          else
            (st.put c).bind fun st => (st.put look_ahead).bind fun st => pass2 ifs rest2 true st
      else if c = 34 then
        pass2_dquote ifs rest st
      else if c = 39 then
        pass2_squote ifs rest st
      else
        (st.put c).bind fun st => pass2 ifs rest true st

/-- The loop `while (input[++index] != 34)` of the second pass. -/
def pass2_dquote (ifs : List Nat) : List Nat → Pass2 → Option Pass2
  | [], _ => none
  | c :: rest, st =>
    if c = 34 then
      pass2 ifs rest true st
    else if c = 92 then
      match rest with
      | [] => none
      | look_ahead :: rest2 =>
        if look_ahead = 34 then
          (st.put look_ahead).bind fun st => pass2_dquote ifs rest2 st
        else
          (st.put c).bind fun st => (st.put look_ahead).bind fun st => pass2_dquote ifs rest2 st
    else
      (st.put c).bind fun st => pass2_dquote ifs rest st

/-- The loop `while (input[++index] != 39)` of the second pass. -/
def pass2_squote (ifs : List Nat) : List Nat → Pass2 → Option Pass2
  | [], _ => none
  | c :: rest, st =>
    if c = 39 then
      pass2 ifs rest true st
    else
      (st.put c).bind fun st => pass2_squote ifs rest st

end

/-! ## The parser -/

/-- The function `nargv_parse`.  `input` is `none` for a `NULL` pointer; the
result is `none` when the scan reads or writes out of bounds. -/
def nargv_parse (ifs : List Nat) (input : Option (List Nat)) : Option NARGV :=
  let nvp := NARGV.zero
  match input with
  | none =>
    some { nvp with error_code := 1, error_message := some "cannot parse null pointer" }
  | some s =>
    let input_length := s.length
    if input_length = 0 then
      some { nvp with error_code := 2, error_message := some "cannot parse empty input" }
    else
      match pass1 ifs (s ++ [0]) 0 false nvp with
      | Pass1.fault => none
      | Pass1.returned nvp => some nvp
      | Pass1.completed _ nvp =>
        let argv := List.replicate (nvp.argc + 1) (none : Option Nat)
        let data := List.replicate nvp.data_length 0
        (pass2 ifs (s ++ [0]) false
            { argv := argv, data := data, data_index := 0, arg_index := 0 }).map
          fun st => { nvp with argv := some st.argv, data := some st.data }

/-! ## Reading the result -/

/-- The C string that starts at the head of a buffer: the bytes before the first
NUL, or `none` when the buffer ends before a NUL is met. -/
def c_string : List Nat → Option (List Nat)
  | [] => none
  | c :: buf => if c = 0 then some [] else (c_string buf).map fun a => c :: a

/-- The strings a list of `argv` slots points at; `none` if a slot is `NULL` or
a string is not terminated inside `data`. -/
def read_argv (data : List Nat) : List (Option Nat) → Option (List (List Nat))
  | [] => some []
  | none :: _ => none
  | some off :: slots =>
    (c_string (data.drop off)).bind fun a => (read_argv data slots).map fun as => a :: as

/-- The arguments `argv[0] .. argv[argc - 1]` of a result, each read as a C
string, the way the test driver prints them; `none` if `argv` or `data` is
`NULL`, `argv` has fewer than `argc` slots, or a slot cannot be read. -/
def NARGV.arguments (r : NARGV) : Option (List (List Nat)) :=
  match r.argv, r.data with
  | some argv, some data =>
    if r.argc ≤ argv.length then read_argv data (argv.take r.argc) else none
  | _, _ => none

/-! ## An automaton view of the scan (used in the proofs)

The two passes make the same decisions.  The automaton below takes one byte
per step and keeps the arguments closed so far (`toks`) and the bytes of the
argument being composed (`cur`); the theorems `pass1_run` and `pass2_run`
relate both passes to it. -/

/-- Where the scan stands between two bytes. -/
inductive Mode where
  | idle | word | esc | dq | dqesc | sq | err3 | err4
deriving DecidableEq, Repr

/-- The automaton state. -/
structure Lex where
  mode : Mode
  pos : Nat
  quote : Nat
  toks : List (List Nat)
  cur : List Nat
deriving DecidableEq, Repr

/-- The state before the first byte. -/
def Lex.init : Lex := { mode := Mode.idle, pos := 0, quote := 0, toks := [], cur := [] }

/-- One byte of input. -/
def Lex.step (ifs : List Nat) (a : Lex) (c : Nat) : Lex :=
  match a.mode with
  | Mode.idle =>
    if nargv_field_seperator ifs c then { a with pos := a.pos + 1 }
    else if c = 92 then { a with mode := Mode.esc, pos := a.pos + 1 }
    else if c = 34 then { a with mode := Mode.dq, quote := a.pos, pos := a.pos + 1 }
    else if c = 39 then { a with mode := Mode.sq, quote := a.pos, pos := a.pos + 1 }
    else { a with mode := Mode.word, cur := a.cur ++ [c], pos := a.pos + 1 }
  | Mode.word =>
    if nargv_field_seperator ifs c then
      { a with mode := Mode.idle, toks := a.toks ++ [a.cur], cur := [], pos := a.pos + 1 }
    else if c = 92 then { a with mode := Mode.esc, pos := a.pos + 1 }
    else if c = 34 then { a with mode := Mode.dq, quote := a.pos, pos := a.pos + 1 }
    else if c = 39 then { a with mode := Mode.sq, quote := a.pos, pos := a.pos + 1 }
    else { a with cur := a.cur ++ [c], pos := a.pos + 1 }
  | Mode.esc =>
    if c = 34 ∨ c = 39 ∨ nargv_field_seperator ifs c then
      { a with mode := Mode.word, cur := a.cur ++ [c], pos := a.pos + 1 }
    else
      { a with mode := Mode.word, cur := a.cur ++ [92, c], pos := a.pos + 1 }
  | Mode.dq =>
    if c = 34 then { a with mode := Mode.word, pos := a.pos + 1 }
    else if c = 0 then { a with mode := Mode.err3 }
    else if c = 92 then { a with mode := Mode.dqesc, pos := a.pos + 1 }
    else { a with cur := a.cur ++ [c], pos := a.pos + 1 }
  | Mode.dqesc =>
    if c = 34 then { a with mode := Mode.dq, cur := a.cur ++ [c], pos := a.pos + 1 }
    else { a with mode := Mode.dq, cur := a.cur ++ [92, c], pos := a.pos + 1 }
  | Mode.sq =>
    if c = 39 then { a with mode := Mode.word, pos := a.pos + 1 }
    else if c = 0 then { a with mode := Mode.err4 }
    else { a with cur := a.cur ++ [c], pos := a.pos + 1 }
  | Mode.err3 => a
  | Mode.err4 => a

/-- The automaton run over a list of bytes. -/
def Lex.run (ifs : List Nat) (a : Lex) (bs : List Nat) : Lex := bs.foldl (Lex.step ifs) a

/-- The data bytes of closed arguments: each followed by its terminator. -/
def layout (toks : List (List Nat)) : List Nat := (toks.map fun t => t ++ [0]).flatten

/-- The offsets at which the arguments of a layout start, from a base offset. -/
def starts : Nat → List (List Nat) → List Nat
  | _, [] => []
  | base, t :: ts => base :: starts (base + t.length + 1) ts

/-- The bytes written to `data` when the scan is in state `a`. -/
def Lex.written (a : Lex) : List Nat := layout a.toks ++ a.cur

/-- The arguments begun when the scan is in state `a`. -/
def Lex.nargs (a : Lex) : Nat := a.toks.length + (if a.mode = Mode.idle then 0 else 1)

/-- The argument start offsets stored when the scan is in state `a`. -/
def Lex.marks (a : Lex) : List Nat :=
  starts 0 a.toks ++ (if a.mode = Mode.idle then [] else [(layout a.toks).length])

/-- The counters of the first pass in state `a`. -/
def Lex.counted (a : Lex) (nvp : NARGV) : NARGV :=
  { nvp with argc := a.nargs, data_length := a.written.length }

/-- The end of the first pass when the input is exhausted in state `a`. -/
def Lex.outcome (a : Lex) (nvp : NARGV) : Pass1 :=
  match a.mode with
  | Mode.idle => Pass1.completed false (a.counted nvp)
  | Mode.word => Pass1.completed true (a.counted nvp)
  | Mode.err3 =>
    Pass1.returned { a.counted nvp with error_index := a.quote + 1, error_code := 3,
                                        error_message := some "unterminated double quote" }
  | Mode.err4 =>
    Pass1.returned { a.counted nvp with error_index := a.quote + 1, error_code := 4,
                                        error_message := some "unterminated single quote" }
  | _ => Pass1.fault

/-- The buffers of the second pass, `n` argument slots and `m` data bytes, once
the offsets `marks` are stored and the bytes `written` are written. -/
def fill (marks written : List Nat) (n m : Nat) : Pass2 :=
  { argv := marks.map some ++ List.replicate (n - marks.length) none,
    data := written ++ List.replicate (m - written.length) 0,
    data_index := written.length,
    arg_index := marks.length }

/-- The buffers of the second pass in state `a`. -/
def Lex.filled (a : Lex) (n m : Nat) : Pass2 := fill a.marks a.written n m

/-- The result of a successful parse that found the arguments `args`. -/
def success (args : List (List Nat)) : NARGV :=
  { argv := some ((starts 0 args).map some ++ [none]),
    data := some (layout args),
    error_message := none,
    argc := args.length,
    data_length := (layout args).length,
    error_index := 0,
    error_code := 0 }

/-- The result returned for an unterminated quote opened at index `quote`, with
the counters as they stand at the return. -/
def failure (code : Nat) (message : String) (quote argc data_length : Nat) : NARGV :=
  { argv := none, data := none, error_message := some message, argc := argc,
    data_length := data_length, error_index := quote + 1, error_code := code }

/-- What `nargv_parse` returns when the bytes of the input, terminator excluded,
leave the automaton in state `a` (theorem `nargv_parse_finish`). -/
def Lex.finish (a : Lex) : Option NARGV :=
  match a.mode with
  | Mode.idle => some (success a.toks)
  | Mode.word => some (success (a.toks ++ [a.cur]))
  | Mode.esc => some (success (a.toks ++ [a.cur]))
  | Mode.dq =>
    some (failure 3 "unterminated double quote" a.quote (a.toks.length + 1) a.written.length)
  | Mode.sq =>
    some (failure 4 "unterminated single quote" a.quote (a.toks.length + 1) a.written.length)
  | _ => none

/-- The invariant of the automaton on NUL free input. -/
def Lex.ok (a : Lex) : Prop :=
  (a.mode = Mode.idle → a.cur = []) ∧ a.mode ≠ Mode.err3 ∧ a.mode ≠ Mode.err4 ∧
  (∀ t ∈ a.toks, 0 ∉ t) ∧ 0 ∉ a.cur

/-! ## Notions used to state the properties -/

/-- The non-empty fields of an input split at the bytes of the separator set.
Dropping the empty fields makes a run of separators count as one split. -/
def fields (ifs : List Nat) (s : List Nat) : List (List Nat) :=
  (s.splitOnP fun c => decide (c ∈ ifs)).filter fun f => !f.isEmpty

/-- A string with each double quote replaced by back slash, double quote. -/
def dq_escape (s : List Nat) : List Nat :=
  s.flatMap fun c => if c = 34 then [92, 34] else [c]

/-- The text between an opening double quote and a point of the span where no
escape is pending: ordinary bytes and back slash pairs. -/
inductive DqBody : List Nat → Prop where
  | nil : DqBody []
  | byte (b : List Nat) (c : Nat) : DqBody b → c ≠ 34 → c ≠ 92 → DqBody (b ++ [c])
  | escape (b : List Nat) (c : Nat) : DqBody b → DqBody (b ++ [92, c])

/-- The texts after which the scan is outside any quote with no escape pending:
sequences of separator bytes, ordinary bytes, back slash pairs, and closed
double and single quoted spans. -/
inductive Outside (ifs : List Nat) : List Nat → Prop where
  | nil : Outside ifs []
  | sep (p : List Nat) (c : Nat) :
      Outside ifs p → nargv_field_seperator ifs c = true → Outside ifs (p ++ [c])
  | byte (p : List Nat) (c : Nat) :
      Outside ifs p → nargv_field_seperator ifs c = false → c ≠ 92 → c ≠ 34 → c ≠ 39 →
      Outside ifs (p ++ [c])
  | escape (p : List Nat) (c : Nat) :
      Outside ifs p → nargv_field_seperator ifs 92 = false → Outside ifs (p ++ [92, c])
  | dquoted (p body : List Nat) :
      Outside ifs p → nargv_field_seperator ifs 34 = false → DqBody body →
      Outside ifs (p ++ 34 :: (body ++ [34]))
  | squoted (p body : List Nat) :
      Outside ifs p → nargv_field_seperator ifs 39 = false → 39 ∉ body →
      Outside ifs (p ++ 39 :: (body ++ [39]))

/-! ## The passes with the positions they read

The functions below are the two passes again, each returning, next to its
result, the list of the positions `i` at which it evaluates `input[i]` in a loop
test or as a look-ahead, in order.  (When the second pass copies a byte it reads
again the position it has just tested or looked ahead at.)  The theorems
`pass1_traced_fst` and `pass2_traced_fst` show that the results are those of
`pass1` and `pass2`. -/

/-- Record the read of position `index` in front of what follows. -/
def visit {α : Type} (index : Nat) (r : α × List Nat) : α × List Nat := (r.1, index :: r.2)

mutual

/-- The first `for` loop with the positions read. -/
def pass1_traced (ifs : List Nat) : List Nat → Nat → Bool → NARGV → Pass1 × List Nat
  | [], _, composing_argument, nvp => (Pass1.completed composing_argument nvp, [])
  | c :: rest, index, composing_argument, nvp =>
    visit index (
      if nargv_field_seperator ifs c then
        if composing_argument then
          pass1_traced ifs rest (index + 1) false { nvp with data_length := nvp.data_length + 1 }
        else
          pass1_traced ifs rest (index + 1) composing_argument nvp
      else
        let nvp := if !composing_argument then { nvp with argc := nvp.argc + 1 } else nvp
        if c = 92 then
          visit (index + 1) (
            match rest with
            | [] => (Pass1.fault, [])
            | look_ahead :: rest2 =>
              if look_ahead = 34 ∨ look_ahead = 39 ∨ nargv_field_seperator ifs look_ahead then
                pass1_traced ifs rest2 (index + 2) true
                  { nvp with data_length := nvp.data_length + 1 }
              else
                pass1_traced ifs rest2 (index + 2) true
                  { nvp with data_length := nvp.data_length + 1 + 1 })
        else if c = 34 then
          pass1_dquote_traced ifs rest index (index + 1) nvp
        else if c = 39 then
          pass1_squote_traced ifs rest index (index + 1) nvp
        else
          pass1_traced ifs rest (index + 1) true { nvp with data_length := nvp.data_length + 1 })

/-- The double quote loop of the first pass with the positions read. -/
def pass1_dquote_traced (ifs : List Nat) : List Nat → Nat → Nat → NARGV → Pass1 × List Nat
  | [], _, index, _ => (Pass1.fault, [index])
  | c :: rest, quote, index, nvp =>
    visit index (
      if c = 34 then
        pass1_traced ifs rest (index + 1) true nvp
      else if c = 0 then
        (Pass1.returned { nvp with error_index := quote + 1, error_code := 3,
                                   error_message := some "unterminated double quote" }, [])
      else if c = 92 then
        visit (index + 1) (
          match rest with
          | [] => (Pass1.fault, [])
          | look_ahead :: rest2 =>
            if look_ahead = 34 then
              pass1_dquote_traced ifs rest2 quote (index + 2)
                { nvp with data_length := nvp.data_length + 1 }
            else
              pass1_dquote_traced ifs rest2 quote (index + 2)
                { nvp with data_length := nvp.data_length + 1 + 1 })
      else
        pass1_dquote_traced ifs rest quote (index + 1)
          { nvp with data_length := nvp.data_length + 1 })

/-- The single quote loop of the first pass with the positions read. -/
def pass1_squote_traced (ifs : List Nat) : List Nat → Nat → Nat → NARGV → Pass1 × List Nat
  | [], _, index, _ => (Pass1.fault, [index])
  | c :: rest, quote, index, nvp =>
    visit index (
      if c = 39 then
        pass1_traced ifs rest (index + 1) true nvp
      else if c = 0 then
        (Pass1.returned { nvp with error_index := quote + 1, error_code := 4,
                                   error_message := some "unterminated single quote" }, [])
      else
        pass1_squote_traced ifs rest quote (index + 1)
          { nvp with data_length := nvp.data_length + 1 })

end

/-- Continue with `f` after a write of the second pass, or stop at a fault. -/
def after_write (w : Option Pass2) (f : Pass2 → Option Pass2 × List Nat) :
    Option Pass2 × List Nat :=
  match w with
  | none => (none, [])
  | some st => f st

mutual

/-- The second `for` loop with the positions read. -/
def pass2_traced (ifs : List Nat) : List Nat → Nat → Bool → Pass2 → Option Pass2 × List Nat
  | [], _, _, st => (some st, [])
  | c :: rest, index, composing_argument, st =>
    visit index (
      if nargv_field_seperator ifs c then
        if composing_argument then
          after_write (st.put 0) fun st => pass2_traced ifs rest (index + 1) false st
        else
          pass2_traced ifs rest (index + 1) composing_argument st
      else
        after_write (if !composing_argument then st.mark else some st) fun st =>
        if c = 92 then
          visit (index + 1) (
            match rest with
            | [] => (none, [])
            | look_ahead :: rest2 =>
              if look_ahead = 34 ∨ look_ahead = 39 ∨ nargv_field_seperator ifs look_ahead then
                after_write (st.put look_ahead) fun st =>
                  pass2_traced ifs rest2 (index + 2) true st
              else
                after_write (st.put c) fun st =>
                  after_write (st.put look_ahead) fun st =>
                    pass2_traced ifs rest2 (index + 2) true st)
        else if c = 34 then
          pass2_dquote_traced ifs rest (index + 1) st
        else if c = 39 then
          pass2_squote_traced ifs rest (index + 1) st
        else
          after_write (st.put c) fun st => pass2_traced ifs rest (index + 1) true st)

/-- The double quote loop of the second pass with the positions read. -/
def pass2_dquote_traced (ifs : List Nat) : List Nat → Nat → Pass2 → Option Pass2 × List Nat
  | [], index, _ => (none, [index])
  | c :: rest, index, st =>
    visit index (
      if c = 34 then
        pass2_traced ifs rest (index + 1) true st
      else if c = 92 then
        visit (index + 1) (
          match rest with
          | [] => (none, [])
          | look_ahead :: rest2 =>
            if look_ahead = 34 then
              after_write (st.put look_ahead) fun st =>
                pass2_dquote_traced ifs rest2 (index + 2) st
            else
              after_write (st.put c) fun st =>
                after_write (st.put look_ahead) fun st =>
                  pass2_dquote_traced ifs rest2 (index + 2) st)
      else
        after_write (st.put c) fun st => pass2_dquote_traced ifs rest (index + 1) st)

/-- The single quote loop of the second pass with the positions read. -/
def pass2_squote_traced (ifs : List Nat) : List Nat → Nat → Pass2 → Option Pass2 × List Nat
  | [], index, _ => (none, [index])
  | c :: rest, index, st =>
    visit index (
      if c = 39 then
        pass2_traced ifs rest (index + 1) true st
      else
        after_write (st.put c) fun st => pass2_squote_traced ifs rest (index + 1) st)

end

/-! ## The scan over the array that holds the input

`nargv_parse` receives a pointer into an array of bytes, and the array may go on
behind the terminator of the string (the test driver parses one line after the
other out of the same `line_in`).  The functions below are the two passes and
the parser once more, over the bytes of that array from `input[0]` to its end:
`input_length` is what `strlen` finds, the `for` loops test
`index <= input_length` before each iteration, the quote loops make no such
test, and only a read behind the end of the array is a fault.  Where the scan
stays inside the string they return what `pass1`, `pass2` and `nargv_parse`
return (`pass1_mem_inside`, `pass2_mem_inside`, `nargv_parse_mem_inside`). -/

/-- The function `strlen`: the number of bytes before the first NUL of the
array, `none` when the array holds no NUL. -/
def strlen : List Nat → Option Nat
  | [] => none
  | c :: mem => if c = 0 then some 0 else (strlen mem).map fun n => n + 1

mutual

/-- The first `for` loop over the array, from its test `index <= input_length`.
Arguments: `input_length`; the bytes of the array from `input[index]` on;
`index`; `composing_argument`; the structure being filled. -/
def pass1_mem (ifs : List Nat) (input_length : Nat) :
    List Nat → Nat → Bool → NARGV → Pass1
  | [], index, composing_argument, nvp =>
    if index ≤ input_length then Pass1.fault else Pass1.completed composing_argument nvp
  | c :: rest, index, composing_argument, nvp =>
    if index ≤ input_length then
      if nargv_field_seperator ifs c then
        if composing_argument then
          pass1_mem ifs input_length rest (index + 1) false
            { nvp with data_length := nvp.data_length + 1 }
        else
          pass1_mem ifs input_length rest (index + 1) composing_argument nvp
      else
        let nvp := if !composing_argument then { nvp with argc := nvp.argc + 1 } else nvp
        if c = 92 then
          match rest with
          | [] => Pass1.fault
          | look_ahead :: rest2 =>
            if look_ahead = 34 ∨ look_ahead = 39 ∨ nargv_field_seperator ifs look_ahead then
              pass1_mem ifs input_length rest2 (index + 2) true
                { nvp with data_length := nvp.data_length + 1 }
            else
              pass1_mem ifs input_length rest2 (index + 2) true
                { nvp with data_length := nvp.data_length + 1 + 1 }
        else if c = 34 then
          pass1_dquote_mem ifs input_length rest index (index + 1) nvp
        else if c = 39 then
          pass1_squote_mem ifs input_length rest index (index + 1) nvp
        else
          pass1_mem ifs input_length rest (index + 1) true
            { nvp with data_length := nvp.data_length + 1 }
    else Pass1.completed composing_argument nvp

/-- The loop `while (input[++index] != 34)` of the first pass over the array. -/
def pass1_dquote_mem (ifs : List Nat) (input_length : Nat) :
    List Nat → Nat → Nat → NARGV → Pass1
  | [], _, _, _ => Pass1.fault
  | c :: rest, quote, index, nvp =>
    if c = 34 then
      pass1_mem ifs input_length rest (index + 1) true nvp
    else if c = 0 then
      Pass1.returned { nvp with error_index := quote + 1, error_code := 3,
                                error_message := some "unterminated double quote" }
    else if c = 92 then
      match rest with
      | [] => Pass1.fault
      | look_ahead :: rest2 =>
        if look_ahead = 34 then
          pass1_dquote_mem ifs input_length rest2 quote (index + 2)
            { nvp with data_length := nvp.data_length + 1 }
        else
          pass1_dquote_mem ifs input_length rest2 quote (index + 2)
            { nvp with data_length := nvp.data_length + 1 + 1 }
    else
      pass1_dquote_mem ifs input_length rest quote (index + 1)
        { nvp with data_length := nvp.data_length + 1 }

/-- The loop `while (input[++index] != 39)` of the first pass over the array. -/
def pass1_squote_mem (ifs : List Nat) (input_length : Nat) :
    List Nat → Nat → Nat → NARGV → Pass1
  | [], _, _, _ => Pass1.fault
  | c :: rest, quote, index, nvp =>
    if c = 39 then
      pass1_mem ifs input_length rest (index + 1) true nvp
    else if c = 0 then
      Pass1.returned { nvp with error_index := quote + 1, error_code := 4,
                                error_message := some "unterminated single quote" }
    else
      pass1_squote_mem ifs input_length rest quote (index + 1)
        { nvp with data_length := nvp.data_length + 1 }

end

mutual

/-- The second `for` loop over the array, from its test `index <= input_length`. -/
def pass2_mem (ifs : List Nat) (input_length : Nat) :
    List Nat → Nat → Bool → Pass2 → Option Pass2
  | [], index, _, st => if index ≤ input_length then none else some st
  | c :: rest, index, composing_argument, st =>
    if index ≤ input_length then
      if nargv_field_seperator ifs c then
        if composing_argument then
          (st.put 0).bind fun st => pass2_mem ifs input_length rest (index + 1) false st
        else
          pass2_mem ifs input_length rest (index + 1) composing_argument st
      else
        (if !composing_argument then st.mark else some st).bind fun st =>
        if c = 92 then
          match rest with
          | [] => none
          | look_ahead :: rest2 =>
            if look_ahead = 34 ∨ look_ahead = 39 ∨ nargv_field_seperator ifs look_ahead then
              (st.put look_ahead).bind fun st =>
                pass2_mem ifs input_length rest2 (index + 2) true st
            else
              (st.put c).bind fun st => (st.put look_ahead).bind fun st =>
                pass2_mem ifs input_length rest2 (index + 2) true st
        else if c = 34 then
          pass2_dquote_mem ifs input_length rest (index + 1) st
        else if c = 39 then
          pass2_squote_mem ifs input_length rest (index + 1) st
        else
          (st.put c).bind fun st => pass2_mem ifs input_length rest (index + 1) true st
    else some st

/-- The loop `while (input[++index] != 34)` of the second pass over the array. -/
def pass2_dquote_mem (ifs : List Nat) (input_length : Nat) :
    List Nat → Nat → Pass2 → Option Pass2
  | [], _, _ => none
  | c :: rest, index, st =>
    if c = 34 then
      pass2_mem ifs input_length rest (index + 1) true st
    else if c = 92 then
      match rest with
      | [] => none
      | look_ahead :: rest2 =>
        if look_ahead = 34 then
          (st.put look_ahead).bind fun st =>
            pass2_dquote_mem ifs input_length rest2 (index + 2) st
        else
          (st.put c).bind fun st => (st.put look_ahead).bind fun st =>
            pass2_dquote_mem ifs input_length rest2 (index + 2) st
    else
      (st.put c).bind fun st => pass2_dquote_mem ifs input_length rest (index + 1) st

/-- The loop `while (input[++index] != 39)` of the second pass over the array. -/
def pass2_squote_mem (ifs : List Nat) (input_length : Nat) :
    List Nat → Nat → Pass2 → Option Pass2
  | [], _, _ => none
  | c :: rest, index, st =>
    if c = 39 then
      pass2_mem ifs input_length rest (index + 1) true st
    else
      (st.put c).bind fun st => pass2_squote_mem ifs input_length rest (index + 1) st

end

/-- The function `nargv_parse` over the array that holds the input: `input` is
`none` for a `NULL` pointer and otherwise the bytes of the array from `input[0]`
to its end; the result is `none` when a read goes behind the end of the array
or a write goes out of a buffer. -/
def nargv_parse_mem (ifs : List Nat) (input : Option (List Nat)) : Option NARGV :=
  let nvp := NARGV.zero
  match input with
  | none =>
    some { nvp with error_code := 1, error_message := some "cannot parse null pointer" }
  | some mem =>
    match strlen mem with
    | none => none
    | some input_length =>
      if input_length = 0 then
        some { nvp with error_code := 2, error_message := some "cannot parse empty input" }
      else
        match pass1_mem ifs input_length mem 0 false nvp with
        | Pass1.fault => none
        | Pass1.returned nvp => some nvp
        | Pass1.completed _ nvp =>
          let argv := List.replicate (nvp.argc + 1) (none : Option Nat)
          let data := List.replicate nvp.data_length 0
          (pass2_mem ifs input_length mem 0 false
              { argv := argv, data := data, data_index := 0, arg_index := 0 }).map
            fun st => { nvp with argv := some st.argv, data := some st.data }

end Nargv

/-! # Theorems -/

namespace Nargv

theorem ifs_scan_iff (ifs : List Nat) (c : Nat) : ifs_scan ifs c = true ↔ c ∈ ifs := by
  induction ifs with
  | nil => simp [ifs_scan]
  | cons d l ih =>
    simp only [ifs_scan, List.mem_cons]
    by_cases h : d = c
    · simp [h]
    · simp [h, ih, Ne.symm h]

theorem run_nil (ifs : List Nat) (a : Lex) : a.run ifs [] = a := rfl

theorem run_cons (ifs : List Nat) (a : Lex) (c : Nat) (bs : List Nat) :
    a.run ifs (c :: bs) = (a.step ifs c).run ifs bs := rfl

theorem run_append (ifs : List Nat) (a : Lex) (xs ys : List Nat) :
    a.run ifs (xs ++ ys) = (a.run ifs xs).run ifs ys := by
  simp [Lex.run, List.foldl_append]

/-! ## Unfolding the loops -/

theorem pass1_nil (ifs : List Nat) (index : Nat) (composing_argument : Bool) (nvp : NARGV) :
    pass1 ifs [] index composing_argument nvp = Pass1.completed composing_argument nvp := rfl

theorem pass1_cons (ifs : List Nat) (c : Nat) (rest : List Nat) (index : Nat)
    (composing_argument : Bool) (nvp : NARGV) :
    pass1 ifs (c :: rest) index composing_argument nvp =
      if nargv_field_seperator ifs c then
        if composing_argument then
          pass1 ifs rest (index + 1) false { nvp with data_length := nvp.data_length + 1 }
        else
          pass1 ifs rest (index + 1) composing_argument nvp
      else
        let nvp := if !composing_argument then { nvp with argc := nvp.argc + 1 } else nvp
        if c = 92 then
          match rest with
          | [] => Pass1.fault
          | look_ahead :: rest2 =>
            if look_ahead = 34 ∨ look_ahead = 39 ∨ nargv_field_seperator ifs look_ahead then
              pass1 ifs rest2 (index + 2) true { nvp with data_length := nvp.data_length + 1 }
            else
              pass1 ifs rest2 (index + 2) true { nvp with data_length := nvp.data_length + 1 + 1 }
        else if c = 34 then
          pass1_dquote ifs rest index (index + 1) nvp
        else if c = 39 then
          pass1_squote ifs rest index (index + 1) nvp
        else
          pass1 ifs rest (index + 1) true { nvp with data_length := nvp.data_length + 1 } := by
  cases rest <;> rfl

theorem pass1_dquote_nil (ifs : List Nat) (quote index : Nat) (nvp : NARGV) :
    pass1_dquote ifs [] quote index nvp = Pass1.fault := rfl

theorem pass1_dquote_cons (ifs : List Nat) (c : Nat) (rest : List Nat) (quote index : Nat)
    (nvp : NARGV) :
    pass1_dquote ifs (c :: rest) quote index nvp =
      if c = 34 then
        pass1 ifs rest (index + 1) true nvp
      else if c = 0 then
        Pass1.returned { nvp with error_index := quote + 1, error_code := 3,
                                  error_message := some "unterminated double quote" }
      else if c = 92 then
        match rest with
        | [] => Pass1.fault
        | look_ahead :: rest2 =>
          if look_ahead = 34 then
            pass1_dquote ifs rest2 quote (index + 2)
              { nvp with data_length := nvp.data_length + 1 }
          else
            pass1_dquote ifs rest2 quote (index + 2)
              { nvp with data_length := nvp.data_length + 1 + 1 }
      else
        pass1_dquote ifs rest quote (index + 1)
          { nvp with data_length := nvp.data_length + 1 } := by
  cases rest <;> rfl

theorem pass1_squote_nil (ifs : List Nat) (quote index : Nat) (nvp : NARGV) :
    pass1_squote ifs [] quote index nvp = Pass1.fault := rfl

theorem pass1_squote_cons (ifs : List Nat) (c : Nat) (rest : List Nat) (quote index : Nat)
    (nvp : NARGV) :
    pass1_squote ifs (c :: rest) quote index nvp =
      if c = 39 then
        pass1 ifs rest (index + 1) true nvp
      else if c = 0 then
        Pass1.returned { nvp with error_index := quote + 1, error_code := 4,
                                  error_message := some "unterminated single quote" }
      else
        pass1_squote ifs rest quote (index + 1)
          { nvp with data_length := nvp.data_length + 1 } := by
  cases rest <;> rfl

theorem pass2_nil (ifs : List Nat) (composing_argument : Bool) (st : Pass2) :
    pass2 ifs [] composing_argument st = some st := rfl

theorem pass2_cons (ifs : List Nat) (c : Nat) (rest : List Nat) (composing_argument : Bool)
    (st : Pass2) :
    pass2 ifs (c :: rest) composing_argument st =
      if nargv_field_seperator ifs c then
        if composing_argument then
          (st.put 0).bind fun st => pass2 ifs rest false st
        else
          pass2 ifs rest composing_argument st
      else
        (if !composing_argument then st.mark else some st).bind fun st =>
        if c = 92 then
          match rest with
          | [] => none
          | look_ahead :: rest2 =>
            if look_ahead = 34 ∨ look_ahead = 39 ∨ nargv_field_seperator ifs look_ahead then
              (st.put look_ahead).bind fun st => pass2 ifs rest2 true st
            else
              (st.put c).bind fun st =>
                (st.put look_ahead).bind fun st => pass2 ifs rest2 true st
        else if c = 34 then
          pass2_dquote ifs rest st
        else if c = 39 then
          pass2_squote ifs rest st
        else
          (st.put c).bind fun st => pass2 ifs rest true st := by
  cases rest <;> rfl

theorem pass2_dquote_nil (ifs : List Nat) (st : Pass2) : pass2_dquote ifs [] st = none := rfl

theorem pass2_dquote_cons (ifs : List Nat) (c : Nat) (rest : List Nat) (st : Pass2) :
    pass2_dquote ifs (c :: rest) st =
      if c = 34 then
        pass2 ifs rest true st
      else if c = 92 then
        match rest with
        | [] => none
        | look_ahead :: rest2 =>
          if look_ahead = 34 then
            (st.put look_ahead).bind fun st => pass2_dquote ifs rest2 st
          else
            (st.put c).bind fun st =>
              (st.put look_ahead).bind fun st => pass2_dquote ifs rest2 st
      else
        (st.put c).bind fun st => pass2_dquote ifs rest st := by
  cases rest <;> rfl

theorem pass2_squote_nil (ifs : List Nat) (st : Pass2) : pass2_squote ifs [] st = none := rfl

theorem pass2_squote_cons (ifs : List Nat) (c : Nat) (rest : List Nat) (st : Pass2) :
    pass2_squote ifs (c :: rest) st =
      if c = 39 then
        pass2 ifs rest true st
      else
        (st.put c).bind fun st => pass2_squote ifs rest st := by
  cases rest <;> rfl

/-! ## Layout of the data buffer -/

theorem layout_nil : layout [] = [] := rfl

theorem layout_cons (t : List Nat) (toks : List (List Nat)) :
    layout (t :: toks) = t ++ 0 :: layout toks := by
  simp [layout]

theorem layout_snoc (toks : List (List Nat)) (t : List Nat) :
    layout (toks ++ [t]) = layout toks ++ (t ++ [0]) := by
  simp [layout]

theorem run_err3 (ifs : List Nat) (bs : List Nat) :
    ∀ a : Lex, a.mode = Mode.err3 → a.run ifs bs = a := by
  induction bs with
  | nil => intro a _; rfl
  | cons c bs ih =>
    intro a h
    have hs : a.step ifs c = a := by simp [Lex.step, h]
    rw [run_cons, hs]
    exact ih a h

theorem run_err4 (ifs : List Nat) (bs : List Nat) :
    ∀ a : Lex, a.mode = Mode.err4 → a.run ifs bs = a := by
  induction bs with
  | nil => intro a _; rfl
  | cons c bs ih =>
    intro a h
    have hs : a.step ifs c = a := by simp [Lex.step, h]
    rw [run_cons, hs]
    exact ih a h

/-! ## The first pass and the automaton -/

theorem pass1_run (ifs : List Nat) (n : Nat) :
    ∀ rest : List Nat, rest.length ≤ n → ∀ (a : Lex) (nvp : NARGV),
    (a.mode = Mode.idle → a.cur = [] →
      pass1 ifs rest a.pos false (a.counted nvp) = (a.run ifs rest).outcome nvp) ∧
    (a.mode = Mode.word →
      pass1 ifs rest a.pos true (a.counted nvp) = (a.run ifs rest).outcome nvp) ∧
    (a.mode = Mode.dq →
      pass1_dquote ifs rest a.quote a.pos (a.counted nvp) = (a.run ifs rest).outcome nvp) ∧
    (a.mode = Mode.sq →
      pass1_squote ifs rest a.quote a.pos (a.counted nvp) = (a.run ifs rest).outcome nvp) := by
  induction n with
  | zero =>
    intro rest hlen a nvp
    have : rest = [] := List.length_eq_zero.mp (Nat.le_zero.mp hlen)
    subst this
    refine ⟨?_, ?_, ?_, ?_⟩ <;> intros <;>
      simp [pass1_nil, pass1_dquote_nil, pass1_squote_nil, run_nil, Lex.outcome, *]
  | succ n ih =>
    intro rest hlen a nvp
    cases rest with
    | nil =>
      refine ⟨?_, ?_, ?_, ?_⟩ <;> intros <;>
        simp [pass1_nil, pass1_dquote_nil, pass1_squote_nil, run_nil, Lex.outcome, *]
    | cons c rest =>
      have hlen1 : rest.length ≤ n := by simpa using hlen
      refine ⟨?_, ?_, ?_, ?_⟩
      · intro hm hcur
        rw [pass1_cons, run_cons]
        by_cases hsep : nargv_field_seperator ifs c = true
        · have h1 := (ih rest hlen1 (a.step ifs c) nvp).1
            (by simp [Lex.step, hm, hsep]) (by simp [Lex.step, hm, hsep, hcur])
          rw [← h1]
          simp [hsep, Lex.step, hm, Lex.counted, Lex.nargs, Lex.written, layout_snoc, Nat.add_assoc]
        · by_cases h92 : c = 92
          · subst h92
            cases rest with
            | nil => simp [hsep, run_nil, Lex.step, hm, Lex.outcome]
            | cons la rest2 =>
              have hlen2 : rest2.length ≤ n := by
                simp only [List.length_cons] at hlen1; omega
              rw [run_cons]
              by_cases hla : la = 34 ∨ la = 39 ∨ nargv_field_seperator ifs la = true
              · have h1 := (ih rest2 hlen2 ((a.step ifs 92).step ifs la) nvp).2.1
                  (by simp [Lex.step, hm, hsep, hla])
                rw [← h1]
                simp [hsep, hla, Lex.step, hm, Lex.counted, Lex.nargs, Lex.written, layout_snoc,
                  Nat.add_assoc]
              · have h1 := (ih rest2 hlen2 ((a.step ifs 92).step ifs la) nvp).2.1
                  (by simp [Lex.step, hm, hsep, hla])
                rw [← h1]
                simp [hsep, hla, Lex.step, hm, Lex.counted, Lex.nargs, Lex.written, layout_snoc,
                  Nat.add_assoc]
          · by_cases h34 : c = 34
            · subst h34
              have h1 := (ih rest hlen1 (a.step ifs 34) nvp).2.2.1
                (by simp [Lex.step, hm, hsep])
              rw [← h1]
              simp [hsep, Lex.step, hm, Lex.counted, Lex.nargs, Lex.written, layout_snoc, Nat.add_assoc]
            · by_cases h39 : c = 39
              · subst h39
                have h1 := (ih rest hlen1 (a.step ifs 39) nvp).2.2.2
                  (by simp [Lex.step, hm, hsep])
                rw [← h1]
                simp [hsep, Lex.step, hm, Lex.counted, Lex.nargs, Lex.written, layout_snoc,
                  Nat.add_assoc]
              · have h1 := (ih rest hlen1 (a.step ifs c) nvp).2.1
                  (by simp [Lex.step, hm, hsep, h92, h34, h39])
                rw [← h1]
                simp [hsep, h92, h34, h39, Lex.step, hm, Lex.counted, Lex.nargs, Lex.written,
                  layout_snoc, Nat.add_assoc]
      · intro hm
        rw [pass1_cons, run_cons]
        by_cases hsep : nargv_field_seperator ifs c = true
        · have h1 := (ih rest hlen1 (a.step ifs c) nvp).1
            (by simp [Lex.step, hm, hsep]) (by simp [Lex.step, hm, hsep])
          rw [← h1]
          simp [hsep, Lex.step, hm, Lex.counted, Lex.nargs, Lex.written, layout_snoc, Nat.add_assoc]
        · by_cases h92 : c = 92
          · subst h92
            cases rest with
            | nil => simp [hsep, run_nil, Lex.step, hm, Lex.outcome]
            | cons la rest2 =>
              have hlen2 : rest2.length ≤ n := by
                simp only [List.length_cons] at hlen1; omega
              rw [run_cons]
              by_cases hla : la = 34 ∨ la = 39 ∨ nargv_field_seperator ifs la = true
              · have h1 := (ih rest2 hlen2 ((a.step ifs 92).step ifs la) nvp).2.1
                  (by simp [Lex.step, hm, hsep, hla])
                rw [← h1]
                simp [hsep, hla, Lex.step, hm, Lex.counted, Lex.nargs, Lex.written, layout_snoc,
                  Nat.add_assoc]
              · have h1 := (ih rest2 hlen2 ((a.step ifs 92).step ifs la) nvp).2.1
                  (by simp [Lex.step, hm, hsep, hla])
                rw [← h1]
                simp [hsep, hla, Lex.step, hm, Lex.counted, Lex.nargs, Lex.written, layout_snoc,
                  Nat.add_assoc]
          · by_cases h34 : c = 34
            · subst h34
              have h1 := (ih rest hlen1 (a.step ifs 34) nvp).2.2.1
                (by simp [Lex.step, hm, hsep])
              rw [← h1]
              simp [hsep, Lex.step, hm, Lex.counted, Lex.nargs, Lex.written, layout_snoc, Nat.add_assoc]
            · by_cases h39 : c = 39
              · subst h39
                have h1 := (ih rest hlen1 (a.step ifs 39) nvp).2.2.2
                  (by simp [Lex.step, hm, hsep])
                rw [← h1]
                simp [hsep, Lex.step, hm, Lex.counted, Lex.nargs, Lex.written, layout_snoc,
                  Nat.add_assoc]
              · have h1 := (ih rest hlen1 (a.step ifs c) nvp).2.1
                  (by simp [Lex.step, hm, hsep, h92, h34, h39])
                rw [← h1]
                simp [hsep, h92, h34, h39, Lex.step, hm, Lex.counted, Lex.nargs, Lex.written,
                  layout_snoc, Nat.add_assoc]
      · intro hm
        rw [pass1_dquote_cons, run_cons]
        by_cases h34 : c = 34
        · subst h34
          have h1 := (ih rest hlen1 (a.step ifs 34) nvp).2.1 (by simp [Lex.step, hm])
          rw [← h1]
          simp [Lex.step, hm, Lex.counted, Lex.nargs, Lex.written, layout_snoc, Nat.add_assoc]
        · by_cases h0 : c = 0
          · subst h0
            rw [run_err3 ifs rest _ (by simp [Lex.step, hm])]
            simp [Lex.step, hm, Lex.outcome, Lex.counted, Lex.nargs, Lex.written]
          · by_cases h92 : c = 92
            · subst h92
              cases rest with
              | nil => simp [run_nil, Lex.step, hm, Lex.outcome]
              | cons la rest2 =>
                have hlen2 : rest2.length ≤ n := by
                  simp only [List.length_cons] at hlen1; omega
                rw [run_cons]
                by_cases hla : la = 34
                · subst hla
                  have h1 := (ih rest2 hlen2 ((a.step ifs 92).step ifs 34) nvp).2.2.1
                    (by simp [Lex.step, hm])
                  rw [← h1]
                  simp [Lex.step, hm, Lex.counted, Lex.nargs, Lex.written, layout_snoc, Nat.add_assoc]
                · have h1 := (ih rest2 hlen2 ((a.step ifs 92).step ifs la) nvp).2.2.1
                    (by simp [Lex.step, hm, hla])
                  rw [← h1]
                  simp [hla, Lex.step, hm, Lex.counted, Lex.nargs, Lex.written, layout_snoc,
                    Nat.add_assoc]
            · have h1 := (ih rest hlen1 (a.step ifs c) nvp).2.2.1
                (by simp [Lex.step, hm, h34, h0, h92])
              rw [← h1]
              simp [h34, h0, h92, Lex.step, hm, Lex.counted, Lex.nargs, Lex.written, layout_snoc,
                Nat.add_assoc]
      · intro hm
        rw [pass1_squote_cons, run_cons]
        by_cases h39 : c = 39
        · subst h39
          have h1 := (ih rest hlen1 (a.step ifs 39) nvp).2.1 (by simp [Lex.step, hm])
          rw [← h1]
          simp [Lex.step, hm, Lex.counted, Lex.nargs, Lex.written, layout_snoc, Nat.add_assoc]
        · by_cases h0 : c = 0
          · subst h0
            rw [run_err4 ifs rest _ (by simp [Lex.step, hm])]
            simp [Lex.step, hm, Lex.outcome, Lex.counted, Lex.nargs, Lex.written]
          · have h1 := (ih rest hlen1 (a.step ifs c) nvp).2.2.2
              (by simp [Lex.step, hm, h39, h0])
            rw [← h1]
            simp [h39, h0, Lex.step, hm, Lex.counted, Lex.nargs, Lex.written, layout_snoc,
              Nat.add_assoc]

/-! ## The second pass and the automaton -/

theorem set_append_replicate {α : Type} (w : List α) (k : Nat) (z c : α) :
    (w ++ List.replicate (k + 1) z).set w.length c = (w ++ [c]) ++ List.replicate k z := by
  induction w with
  | nil => simp [List.replicate_succ]
  | cons x w ih => simpa using ih

theorem fill_put (marks written : List Nat) (n m c : Nat) (h : written.length < m) :
    (fill marks written n m).put c = some (fill marks (written ++ [c]) n m) := by
  obtain ⟨k, hk⟩ : ∃ k, m - written.length = k + 1 := ⟨m - written.length - 1, by omega⟩
  have hk2 : m - (written.length + 1) = k := by omega
  simp only [Pass2.put, fill, hk, List.length_append, List.length_replicate, List.length_singleton,
    hk2]
  rw [if_pos (by omega), set_append_replicate]

theorem fill_mark (marks written : List Nat) (n m : Nat) (h : marks.length < n) :
    (fill marks written n m).mark = some (fill (marks ++ [written.length]) written n m) := by
  obtain ⟨k, hk⟩ : ∃ k, n - marks.length = k + 1 := ⟨n - marks.length - 1, by omega⟩
  have hk2 : n - (marks.length + 1) = k := by omega
  simp only [Pass2.mark, fill, hk, List.length_append, List.length_replicate, List.length_singleton,
    hk2, List.length_map, List.map_append, List.map_cons, List.map_nil]
  rw [if_pos (by omega)]
  have := set_append_replicate (marks.map some) k none (some written.length)
  rw [List.length_map] at this
  rw [this]

theorem starts_length (toks : List (List Nat)) : ∀ base, (starts base toks).length = toks.length := by
  induction toks with
  | nil => intro; rfl
  | cons t ts ih => intro base; simp [starts, ih]

theorem starts_snoc (toks : List (List Nat)) (t : List Nat) :
    ∀ base, starts base (toks ++ [t]) = starts base toks ++ [base + (layout toks).length] := by
  induction toks with
  | nil => intro base; simp [starts, layout]
  | cons x xs ih =>
    intro base
    simp [starts, ih, layout_cons]
    omega

theorem marks_length (a : Lex) : a.marks.length = a.nargs := by
  unfold Lex.marks Lex.nargs
  by_cases h : a.mode = Mode.idle <;> simp [h, starts_length]

theorem step_nargs_le (ifs : List Nat) (a : Lex) (c : Nat) : a.nargs ≤ (a.step ifs c).nargs := by
  cases hm : a.mode <;> simp only [Lex.step, Lex.nargs, hm] <;> (try split_ifs) <;>
    simp_all

theorem step_written_le (ifs : List Nat) (a : Lex) (c : Nat) :
    a.written.length ≤ (a.step ifs c).written.length := by
  cases hm : a.mode <;> simp only [Lex.step, Lex.written, hm] <;> (try split_ifs) <;>
    simp [layout_snoc]

theorem run_nargs_le (ifs : List Nat) (bs : List Nat) : ∀ a : Lex, a.nargs ≤ (a.run ifs bs).nargs := by
  induction bs with
  | nil => intro a; exact Nat.le_refl _
  | cons c bs ih => intro a; exact Nat.le_trans (step_nargs_le ifs a c) (ih _)

theorem run_written_le (ifs : List Nat) (bs : List Nat) :
    ∀ a : Lex, a.written.length ≤ (a.run ifs bs).written.length := by
  induction bs with
  | nil => intro a; exact Nat.le_refl _
  | cons c bs ih => intro a; exact Nat.le_trans (step_written_le ifs a c) (ih _)

theorem pass2_run (ifs : List Nat) (n m k : Nat) :
    ∀ rest : List Nat, rest.length ≤ k → ∀ a : Lex,
    ((a.run ifs rest).mode = Mode.idle ∨ (a.run ifs rest).mode = Mode.word) →
    (a.run ifs rest).nargs ≤ n → (a.run ifs rest).written.length ≤ m →
    (a.mode = Mode.idle → a.cur = [] →
      pass2 ifs rest false (a.filled n m) = some ((a.run ifs rest).filled n m)) ∧
    (a.mode = Mode.word →
      pass2 ifs rest true (a.filled n m) = some ((a.run ifs rest).filled n m)) ∧
    (a.mode = Mode.dq →
      pass2_dquote ifs rest (a.filled n m) = some ((a.run ifs rest).filled n m)) ∧
    (a.mode = Mode.sq →
      pass2_squote ifs rest (a.filled n m) = some ((a.run ifs rest).filled n m)) := by
  induction k with
  | zero =>
    intro rest hlen a hfin _ _
    have : rest = [] := List.length_eq_zero.mp (Nat.le_zero.mp hlen)
    subst this
    rw [run_nil] at hfin
    refine ⟨?_, ?_, ?_, ?_⟩ <;> intros <;> simp_all [pass2_nil, run_nil]
  | succ k ih =>
    intro rest hlen a hfin hn hm'
    cases rest with
    | nil =>
      rw [run_nil] at hfin
      refine ⟨?_, ?_, ?_, ?_⟩ <;> intros <;> simp_all [pass2_nil, run_nil]
    | cons c rest =>
      have hlen1 : rest.length ≤ k := by simpa using hlen
      rw [run_cons] at hfin hn hm' ⊢
      have ih1 := ih rest hlen1 (a.step ifs c) hfin hn hm'
      have hn1 : (a.step ifs c).marks.length ≤ n := by
        rw [marks_length]; exact Nat.le_trans (run_nargs_le ifs rest _) hn
      have hm1 : (a.step ifs c).written.length ≤ m := Nat.le_trans (run_written_le ifs rest _) hm'
      refine ⟨?_, ?_, ?_, ?_⟩
      · intro hm hcur
        rw [pass2_cons]
        by_cases hsep : nargv_field_seperator ifs c = true
        · have h1 := ih1.1 (by simp [Lex.step, hm, hsep]) (by simp [Lex.step, hm, hsep, hcur])
          rw [← h1]
          simp [hsep, Lex.step, hm, Lex.filled, Lex.marks, Lex.written]
        · by_cases h92 : c = 92
          · subst h92
            cases rest with
            | nil => simp [run_nil, Lex.step, hm, hsep] at hfin
            | cons la rest2 =>
              have hlen2 : rest2.length ≤ k := by
                simp only [List.length_cons] at hlen1; omega
              rw [run_cons] at hfin hn hm'
              have ih2 := ih rest2 hlen2 ((a.step ifs 92).step ifs la) hfin hn hm'
              have hn2 : ((a.step ifs 92).step ifs la).marks.length ≤ n := by
                rw [marks_length]; exact Nat.le_trans (run_nargs_le ifs rest2 _) hn
              have hm2 : ((a.step ifs 92).step ifs la).written.length ≤ m :=
                Nat.le_trans (run_written_le ifs rest2 _) hm'
              rw [run_cons]
              by_cases hla : la = 34 ∨ la = 39 ∨ nargv_field_seperator ifs la = true
              · simp only [hsep, if_pos hla]
                have h1 := ih2.2.1 (by simp [Lex.step, hm, hsep, hla, hcur])
                have hk : ((a.step ifs 92).step ifs la).marks = a.marks ++ [a.written.length] := by
                  simp [Lex.step, Lex.marks, Lex.written, hm, hsep, hla, hcur]
                have hw : ((a.step ifs 92).step ifs la).written = a.written ++ [la] := by
                  simp [Lex.step, Lex.written, hm, hsep, hla, hcur]
                rw [hk] at hn2
                rw [hw] at hm2
                try simp only [List.length_append, List.length_singleton, List.length_cons,
                  List.length_nil] at hn2
                try simp only [List.length_append, List.length_singleton, List.length_cons,
                  List.length_nil] at hm2
                rw [← h1]
                simp only [Lex.filled, hk, hw, Bool.not_false, Bool.not_true, if_true, if_false,
                  Bool.false_eq_true, Option.some_bind, reduceCtorEq, OfNat.ofNat_ne_zero,
                  Nat.reduceEqDiff, or_false, false_or, or_true, true_or, or_self]
                rw [fill_mark _ _ _ _ (by omega), Option.some_bind, fill_put _ _ _ _ _ (by omega),
                  Option.some_bind]
              · simp only [hsep, if_neg hla]
                have h1 := ih2.2.1 (by simp [Lex.step, hm, hsep, hla, hcur])
                have hk : ((a.step ifs 92).step ifs la).marks = a.marks ++ [a.written.length] := by
                  simp [Lex.step, Lex.marks, Lex.written, hm, hsep, hla, hcur]
                have hw : ((a.step ifs 92).step ifs la).written = a.written ++ [92, la] := by
                  simp [Lex.step, Lex.written, hm, hsep, hla, hcur]
                rw [hk] at hn2
                rw [hw] at hm2
                try simp only [List.length_append, List.length_singleton, List.length_cons,
                  List.length_nil] at hn2
                try simp only [List.length_append, List.length_singleton, List.length_cons,
                  List.length_nil] at hm2
                rw [← h1]
                simp only [Lex.filled, hk, hw, Bool.not_false, Bool.not_true, if_true, if_false,
                  Bool.false_eq_true, Option.some_bind, reduceCtorEq, OfNat.ofNat_ne_zero,
                  Nat.reduceEqDiff, or_false, false_or, or_true, true_or, or_self]
                rw [fill_mark _ _ _ _ (by omega), Option.some_bind, fill_put _ _ _ _ _ (by omega),
                  Option.some_bind,
                  fill_put _ _ _ _ _ (by simp only [List.length_append, List.length_singleton]; omega), Option.some_bind]
                simp only [List.append_assoc, List.singleton_append]
          · by_cases h34 : c = 34
            · subst h34
              have h1 := ih1.2.2.1 (by simp [Lex.step, hm, hsep, hcur])
              have hk : (a.step ifs 34).marks = a.marks ++ [a.written.length] := by
                simp [Lex.step, Lex.marks, Lex.written, hm, hsep, hcur]
              have hw : (a.step ifs 34).written = a.written := by
                simp [Lex.step, Lex.written, hm, hsep, hcur]
              rw [hk] at hn1
              rw [hw] at hm1
              try simp only [List.length_append, List.length_singleton, List.length_cons,
                List.length_nil] at hn1
              try simp only [List.length_append, List.length_singleton, List.length_cons,
                List.length_nil] at hm1
              rw [← h1]
              simp only [hsep, Lex.filled, hk, hw, Bool.not_false, Bool.not_true, if_true, if_false,
                Bool.false_eq_true, Option.some_bind, reduceCtorEq, OfNat.ofNat_ne_zero,
                Nat.reduceEqDiff, or_false, false_or, or_true, true_or, or_self]
              rw [fill_mark _ _ _ _ (by omega), Option.some_bind]
            · by_cases h39 : c = 39
              · subst h39
                have h1 := ih1.2.2.2 (by simp [Lex.step, hm, hsep, hcur])
                have hk : (a.step ifs 39).marks = a.marks ++ [a.written.length] := by
                  simp [Lex.step, Lex.marks, Lex.written, hm, hsep, hcur]
                have hw : (a.step ifs 39).written = a.written := by
                  simp [Lex.step, Lex.written, hm, hsep, hcur]
                rw [hk] at hn1
                rw [hw] at hm1
                try simp only [List.length_append, List.length_singleton, List.length_cons,
                  List.length_nil] at hn1
                try simp only [List.length_append, List.length_singleton, List.length_cons,
                  List.length_nil] at hm1
                rw [← h1]
                simp only [hsep, Lex.filled, hk, hw, Bool.not_false, Bool.not_true, if_true,
                  if_false, Bool.false_eq_true, Option.some_bind, reduceCtorEq, OfNat.ofNat_ne_zero,
                  Nat.reduceEqDiff, or_false, false_or, or_true, true_or, or_self]
                rw [fill_mark _ _ _ _ (by omega), Option.some_bind]
              · 
                have h1 := ih1.2.1 (by simp [Lex.step, hm, hsep, h92, h34, h39, hcur])
                have hk : (a.step ifs c).marks = a.marks ++ [a.written.length] := by
                  simp [Lex.step, Lex.marks, Lex.written, hm, hsep, h92, h34, h39, hcur]
                have hw : (a.step ifs c).written = a.written ++ [c] := by
                  simp [Lex.step, Lex.written, hm, hsep, h92, h34, h39, hcur]
                rw [hk] at hn1
                rw [hw] at hm1
                try simp only [List.length_append, List.length_singleton, List.length_cons,
                  List.length_nil] at hn1
                try simp only [List.length_append, List.length_singleton, List.length_cons,
                  List.length_nil] at hm1
                rw [← h1]
                simp only [hsep, h92, h34, h39, Lex.filled, hk, hw, Bool.not_false, Bool.not_true,
                  if_true, if_false, Bool.false_eq_true, Option.some_bind, reduceCtorEq,
                  OfNat.ofNat_ne_zero, Nat.reduceEqDiff, or_false, false_or, or_true, true_or,
                  or_self]
                rw [fill_mark _ _ _ _ (by omega), Option.some_bind, fill_put _ _ _ _ _ (by omega),
                  Option.some_bind]
      · intro hm
        rw [pass2_cons]
        by_cases hsep : nargv_field_seperator ifs c = true
        · have h1 := ih1.1 (by simp [Lex.step, hm, hsep]) (by simp [Lex.step, hm, hsep])
          have hk : (a.step ifs c).marks = a.marks := by
            simp [Lex.step, Lex.marks, Lex.written, hm, hsep, starts_snoc]
          have hw : (a.step ifs c).written = a.written ++ [0] := by
            simp [Lex.step, Lex.written, hm, hsep, layout_snoc]
          rw [hw] at hm1
          simp only [List.length_append, List.length_singleton] at hm1
          rw [← h1]
          simp only [hsep, Lex.filled, hk, hw, if_true]
          rw [fill_put _ _ _ _ _ (by omega), Option.some_bind]
        · by_cases h92 : c = 92
          · subst h92
            cases rest with
            | nil => simp [run_nil, Lex.step, hm, hsep] at hfin
            | cons la rest2 =>
              have hlen2 : rest2.length ≤ k := by
                simp only [List.length_cons] at hlen1; omega
              rw [run_cons] at hfin hn hm'
              have ih2 := ih rest2 hlen2 ((a.step ifs 92).step ifs la) hfin hn hm'
              have hn2 : ((a.step ifs 92).step ifs la).marks.length ≤ n := by
                rw [marks_length]; exact Nat.le_trans (run_nargs_le ifs rest2 _) hn
              have hm2 : ((a.step ifs 92).step ifs la).written.length ≤ m :=
                Nat.le_trans (run_written_le ifs rest2 _) hm'
              rw [run_cons]
              by_cases hla : la = 34 ∨ la = 39 ∨ nargv_field_seperator ifs la = true
              · simp only [hsep, if_pos hla]
                have h1 := ih2.2.1 (by simp [Lex.step, hm, hsep, hla])
                have hk : ((a.step ifs 92).step ifs la).marks = a.marks := by
                  simp [Lex.step, Lex.marks, Lex.written, hm, hsep, hla]
                have hw : ((a.step ifs 92).step ifs la).written = a.written ++ [la] := by
                  simp [Lex.step, Lex.written, hm, hsep, hla]
                rw [hk] at hn2
                rw [hw] at hm2
                try simp only [List.length_append, List.length_singleton, List.length_cons,
                  List.length_nil] at hn2
                try simp only [List.length_append, List.length_singleton, List.length_cons,
                  List.length_nil] at hm2
                rw [← h1]
                simp only [Lex.filled, hk, hw, Bool.not_false, Bool.not_true, if_true, if_false,
                  Bool.false_eq_true, Option.some_bind, reduceCtorEq, OfNat.ofNat_ne_zero,
                  Nat.reduceEqDiff, or_false, false_or, or_true, true_or, or_self]
                rw [fill_put _ _ _ _ _ (by omega), Option.some_bind]
              · simp only [hsep, if_neg hla]
                have h1 := ih2.2.1 (by simp [Lex.step, hm, hsep, hla])
                have hk : ((a.step ifs 92).step ifs la).marks = a.marks := by
                  simp [Lex.step, Lex.marks, Lex.written, hm, hsep, hla]
                have hw : ((a.step ifs 92).step ifs la).written = a.written ++ [92, la] := by
                  simp [Lex.step, Lex.written, hm, hsep, hla]
                rw [hk] at hn2
                rw [hw] at hm2
                try simp only [List.length_append, List.length_singleton, List.length_cons,
                  List.length_nil] at hn2
                try simp only [List.length_append, List.length_singleton, List.length_cons,
                  List.length_nil] at hm2
                rw [← h1]
                simp only [Lex.filled, hk, hw, Bool.not_false, Bool.not_true, if_true, if_false,
                  Bool.false_eq_true, Option.some_bind, reduceCtorEq, OfNat.ofNat_ne_zero,
                  Nat.reduceEqDiff, or_false, false_or, or_true, true_or, or_self]
                rw [fill_put _ _ _ _ _ (by omega), Option.some_bind,
                  fill_put _ _ _ _ _ (by simp only [List.length_append, List.length_singleton]; omega), Option.some_bind]
                simp only [List.append_assoc, List.singleton_append]
          · by_cases h34 : c = 34
            · subst h34
              have h1 := ih1.2.2.1 (by simp [Lex.step, hm, hsep])
              have hk : (a.step ifs 34).marks = a.marks := by
                simp [Lex.step, Lex.marks, Lex.written, hm, hsep]
              have hw : (a.step ifs 34).written = a.written := by
                simp [Lex.step, Lex.written, hm, hsep]
              rw [hk] at hn1
              rw [hw] at hm1
              try simp only [List.length_append, List.length_singleton, List.length_cons,
                List.length_nil] at hn1
              try simp only [List.length_append, List.length_singleton, List.length_cons,
                List.length_nil] at hm1
              rw [← h1]
              simp only [hsep, Lex.filled, hk, hw, Bool.not_false, Bool.not_true, if_true, if_false,
                Bool.false_eq_true, Option.some_bind, reduceCtorEq, OfNat.ofNat_ne_zero,
                Nat.reduceEqDiff, or_false, false_or, or_true, true_or, or_self]
            · by_cases h39 : c = 39
              · subst h39
                have h1 := ih1.2.2.2 (by simp [Lex.step, hm, hsep])
                have hk : (a.step ifs 39).marks = a.marks := by
                  simp [Lex.step, Lex.marks, Lex.written, hm, hsep]
                have hw : (a.step ifs 39).written = a.written := by
                  simp [Lex.step, Lex.written, hm, hsep]
                rw [hk] at hn1
                rw [hw] at hm1
                try simp only [List.length_append, List.length_singleton, List.length_cons,
                  List.length_nil] at hn1
                try simp only [List.length_append, List.length_singleton, List.length_cons,
                  List.length_nil] at hm1
                rw [← h1]
                simp only [hsep, Lex.filled, hk, hw, Bool.not_false, Bool.not_true, if_true,
                  if_false, Bool.false_eq_true, Option.some_bind, reduceCtorEq, OfNat.ofNat_ne_zero,
                  Nat.reduceEqDiff, or_false, false_or, or_true, true_or, or_self]
              · 
                have h1 := ih1.2.1 (by simp [Lex.step, hm, hsep, h92, h34, h39])
                have hk : (a.step ifs c).marks = a.marks := by
                  simp [Lex.step, Lex.marks, Lex.written, hm, hsep, h92, h34, h39]
                have hw : (a.step ifs c).written = a.written ++ [c] := by
                  simp [Lex.step, Lex.written, hm, hsep, h92, h34, h39]
                rw [hk] at hn1
                rw [hw] at hm1
                try simp only [List.length_append, List.length_singleton, List.length_cons,
                  List.length_nil] at hn1
                try simp only [List.length_append, List.length_singleton, List.length_cons,
                  List.length_nil] at hm1
                rw [← h1]
                simp only [hsep, h92, h34, h39, Lex.filled, hk, hw, Bool.not_false, Bool.not_true,
                  if_true, if_false, Bool.false_eq_true, Option.some_bind, reduceCtorEq,
                  OfNat.ofNat_ne_zero, Nat.reduceEqDiff, or_false, false_or, or_true, true_or,
                  or_self]
                rw [fill_put _ _ _ _ _ (by omega), Option.some_bind]
      · intro hm
        rw [pass2_dquote_cons]
        by_cases h34 : c = 34
        · subst h34
          have h1 := ih1.2.1 (by simp [Lex.step, hm])
          have hk : (a.step ifs 34).marks = a.marks := by
            simp [Lex.step, Lex.marks, Lex.written, hm]
          have hw : (a.step ifs 34).written = a.written := by
            simp [Lex.step, Lex.written, hm]
          rw [hk] at hn1
          rw [hw] at hm1
          try simp only [List.length_append, List.length_singleton, List.length_cons,
            List.length_nil] at hn1
          try simp only [List.length_append, List.length_singleton, List.length_cons,
            List.length_nil] at hm1
          rw [← h1]
          simp only [Lex.filled, hk, hw, Bool.not_false, Bool.not_true, if_true, if_false,
            Bool.false_eq_true, Option.some_bind, reduceCtorEq, OfNat.ofNat_ne_zero,
            Nat.reduceEqDiff, or_false, false_or, or_true, true_or, or_self]
        · by_cases h0 : c = 0
          · subst h0
            rw [run_err3 ifs rest _ (by simp [Lex.step, hm])] at hfin
            simp [Lex.step, hm] at hfin
          · by_cases h92 : c = 92
            · subst h92
              cases rest with
              | nil => simp [run_nil, Lex.step, hm] at hfin
              | cons la rest2 =>
                have hlen2 : rest2.length ≤ k := by
                  simp only [List.length_cons] at hlen1; omega
                rw [run_cons] at hfin hn hm'
                have ih2 := ih rest2 hlen2 ((a.step ifs 92).step ifs la) hfin hn hm'
                have hn2 : ((a.step ifs 92).step ifs la).marks.length ≤ n := by
                  rw [marks_length]; exact Nat.le_trans (run_nargs_le ifs rest2 _) hn
                have hm2 : ((a.step ifs 92).step ifs la).written.length ≤ m :=
                  Nat.le_trans (run_written_le ifs rest2 _) hm'
                rw [run_cons]
                by_cases hla : la = 34
                · subst hla
                  have h1 := ih2.2.2.1 (by simp [Lex.step, hm])
                  have hk : ((a.step ifs 92).step ifs 34).marks = a.marks := by
                    simp [Lex.step, Lex.marks, Lex.written, hm]
                  have hw : ((a.step ifs 92).step ifs 34).written = a.written ++ [34] := by
                    simp [Lex.step, Lex.written, hm]
                  rw [hk] at hn2
                  rw [hw] at hm2
                  try simp only [List.length_append, List.length_singleton, List.length_cons,
                    List.length_nil] at hn2
                  try simp only [List.length_append, List.length_singleton, List.length_cons,
                    List.length_nil] at hm2
                  rw [← h1]
                  simp only [Lex.filled, hk, hw, Bool.not_false, Bool.not_true, if_true, if_false,
                    Bool.false_eq_true, Option.some_bind, reduceCtorEq, OfNat.ofNat_ne_zero,
                    Nat.reduceEqDiff, or_false, false_or, or_true, true_or, or_self]
                  rw [fill_put _ _ _ _ _ (by omega), Option.some_bind]
                · simp only [if_neg hla]
                  have h1 := ih2.2.2.1 (by simp [Lex.step, hm, hla])
                  have hk : ((a.step ifs 92).step ifs la).marks = a.marks := by
                    simp [Lex.step, Lex.marks, Lex.written, hm, hla]
                  have hw : ((a.step ifs 92).step ifs la).written = a.written ++ [92, la] := by
                    simp [Lex.step, Lex.written, hm, hla]
                  rw [hk] at hn2
                  rw [hw] at hm2
                  try simp only [List.length_append, List.length_singleton, List.length_cons,
                    List.length_nil] at hn2
                  try simp only [List.length_append, List.length_singleton, List.length_cons,
                    List.length_nil] at hm2
                  rw [← h1]
                  simp only [Lex.filled, hk, hw, Bool.not_false, Bool.not_true, if_true, if_false,
                    Bool.false_eq_true, Option.some_bind, reduceCtorEq, OfNat.ofNat_ne_zero,
                    Nat.reduceEqDiff, or_false, false_or, or_true, true_or, or_self]
                  rw [fill_put _ _ _ _ _ (by omega), Option.some_bind,
                    fill_put _ _ _ _ _ (by simp only [List.length_append, List.length_singleton]; omega), Option.some_bind]
                  simp only [List.append_assoc, List.singleton_append]
            · 
              have h1 := ih1.2.2.1 (by simp [Lex.step, hm, h34, h0, h92])
              have hk : (a.step ifs c).marks = a.marks := by
                simp [Lex.step, Lex.marks, Lex.written, hm, h34, h0, h92]
              have hw : (a.step ifs c).written = a.written ++ [c] := by
                simp [Lex.step, Lex.written, hm, h34, h0, h92]
              rw [hk] at hn1
              rw [hw] at hm1
              try simp only [List.length_append, List.length_singleton, List.length_cons,
                List.length_nil] at hn1
              try simp only [List.length_append, List.length_singleton, List.length_cons,
                List.length_nil] at hm1
              rw [← h1]
              simp only [h34, h92, Lex.filled, hk, hw, Bool.not_false, Bool.not_true, if_true,
                if_false, Bool.false_eq_true, Option.some_bind, reduceCtorEq, OfNat.ofNat_ne_zero,
                Nat.reduceEqDiff, or_false, false_or, or_true, true_or, or_self]
              rw [fill_put _ _ _ _ _ (by omega), Option.some_bind]
      · intro hm
        rw [pass2_squote_cons]
        by_cases h39 : c = 39
        · subst h39
          have h1 := ih1.2.1 (by simp [Lex.step, hm])
          have hk : (a.step ifs 39).marks = a.marks := by
            simp [Lex.step, Lex.marks, Lex.written, hm]
          have hw : (a.step ifs 39).written = a.written := by
            simp [Lex.step, Lex.written, hm]
          rw [hk] at hn1
          rw [hw] at hm1
          try simp only [List.length_append, List.length_singleton, List.length_cons,
            List.length_nil] at hn1
          try simp only [List.length_append, List.length_singleton, List.length_cons,
            List.length_nil] at hm1
          rw [← h1]
          simp only [Lex.filled, hk, hw, Bool.not_false, Bool.not_true, if_true, if_false,
            Bool.false_eq_true, Option.some_bind, reduceCtorEq, OfNat.ofNat_ne_zero,
            Nat.reduceEqDiff, or_false, false_or, or_true, true_or, or_self]
        · by_cases h0 : c = 0
          · subst h0
            rw [run_err4 ifs rest _ (by simp [Lex.step, hm])] at hfin
            simp [Lex.step, hm] at hfin
          · 
            have h1 := ih1.2.2.2 (by simp [Lex.step, hm, h39, h0])
            have hk : (a.step ifs c).marks = a.marks := by
              simp [Lex.step, Lex.marks, Lex.written, hm, h39, h0]
            have hw : (a.step ifs c).written = a.written ++ [c] := by
              simp [Lex.step, Lex.written, hm, h39, h0]
            rw [hk] at hn1
            rw [hw] at hm1
            try simp only [List.length_append, List.length_singleton, List.length_cons,
              List.length_nil] at hn1
            try simp only [List.length_append, List.length_singleton, List.length_cons,
              List.length_nil] at hm1
            rw [← h1]
            simp only [h39, Lex.filled, hk, hw, Bool.not_false, Bool.not_true, if_true, if_false,
              Bool.false_eq_true, Option.some_bind, reduceCtorEq, OfNat.ofNat_ne_zero,
              Nat.reduceEqDiff, or_false, false_or, or_true, true_or, or_self]
            rw [fill_put _ _ _ _ _ (by omega), Option.some_bind]

/-! ## The parser and the automaton -/

theorem init_ok : Lex.init.ok := by
  simp [Lex.ok, Lex.init]

theorem step_ok (ifs : List Nat) (a : Lex) (c : Nat) (hc : c ≠ 0) (h : a.ok) :
    (a.step ifs c).ok := by
  obtain ⟨h1, h2, h3, h4, h5⟩ := h
  have hc' : ¬ (0 = c) := fun e => hc e.symm
  cases hm : a.mode <;> simp only [Lex.step, Lex.ok, hm] <;> (try split_ifs) <;>
    simp_all [List.mem_append]
  intro t ht
  rcases ht with ht | ht
  · exact h4 t ht
  · subst ht; exact h5

theorem run_ok (ifs : List Nat) (s : List Nat) :
    ∀ a : Lex, (∀ c ∈ s, c ≠ 0) → a.ok → (a.run ifs s).ok := by
  induction s with
  | nil => intro a _ h; exact h
  | cons c s ih =>
    intro a hz h
    rw [run_cons]
    exact ih _ (fun d hd => hz d (List.mem_cons_of_mem _ hd))
      (step_ok ifs a c (hz c (List.mem_cons_self _ _)) h)

theorem sep_zero (ifs : List Nat) : nargv_field_seperator ifs 0 = true := by
  simp [nargv_field_seperator]

theorem pass1_input (ifs s : List Nat) :
    pass1 ifs (s ++ [0]) 0 false NARGV.zero
      = ((Lex.init.run ifs s).step ifs 0).outcome NARGV.zero := by
  have h := (pass1_run ifs _ (s ++ [0]) (Nat.le_refl _) Lex.init NARGV.zero).1 rfl rfl
  rw [run_append, run_cons, run_nil] at h
  exact h

theorem pass2_input (ifs s : List Nat) (b : Lex) (hb : (Lex.init.run ifs s).step ifs 0 = b)
    (hmode : b.mode = Mode.idle ∨ b.mode = Mode.word) :
    pass2 ifs (s ++ [0]) false
        { argv := List.replicate (b.nargs + 1) none, data := List.replicate b.written.length 0,
          data_index := 0, arg_index := 0 }
      = some { argv := b.marks.map some ++ [none], data := b.written,
               data_index := b.written.length, arg_index := b.nargs } := by
  have hrun : Lex.init.run ifs (s ++ [0]) = b := by rw [run_append, run_cons, run_nil, hb]
  have h := (pass2_run ifs (b.nargs + 1) b.written.length _ (s ++ [0]) (Nat.le_refl _) Lex.init
    (by rw [hrun]; exact hmode) (by rw [hrun]; omega) (by rw [hrun])).1 rfl rfl
  rw [hrun] at h
  have e1 : Lex.init.filled (b.nargs + 1) b.written.length =
      { argv := List.replicate (b.nargs + 1) none, data := List.replicate b.written.length 0,
        data_index := 0, arg_index := 0 } := by
    simp [Lex.filled, fill, Lex.init, Lex.marks, Lex.written, starts, layout]
  have e2 : b.filled (b.nargs + 1) b.written.length =
      { argv := b.marks.map some ++ [none], data := b.written,
        data_index := b.written.length, arg_index := b.nargs } := by
    simp [Lex.filled, fill, marks_length]
  rw [e1, e2] at h
  exact h

theorem parse_completed (ifs s : List Nat) (hs : s ≠ []) (b : Lex)
    (hb : (Lex.init.run ifs s).step ifs 0 = b)
    (hmode : b.mode = Mode.idle ∨ b.mode = Mode.word) :
    nargv_parse ifs (some s) =
      some { argv := some (b.marks.map some ++ [none]), data := some b.written,
             error_message := none, argc := b.nargs, data_length := b.written.length,
             error_index := 0, error_code := 0 } := by
  have hlen : s.length ≠ 0 := fun h => hs (List.length_eq_zero.mp h)
  simp only [nargv_parse, hlen, if_false, pass1_input, hb]
  rcases hmode with h | h
  · simp only [Lex.outcome, h, Lex.counted]
    rw [pass2_input ifs s b hb (Or.inl h)]
    rfl
  · simp only [Lex.outcome, h, Lex.counted]
    rw [pass2_input ifs s b hb (Or.inr h)]
    rfl

theorem parse_other (ifs s : List Nat) (hs : s ≠ []) (b : Lex)
    (hb : (Lex.init.run ifs s).step ifs 0 = b)
    (hmode : b.mode ≠ Mode.idle ∧ b.mode ≠ Mode.word) :
    nargv_parse ifs (some s) =
      match b.outcome NARGV.zero with
      | Pass1.returned nvp => some nvp
      | _ => none := by
  have hlen : s.length ≠ 0 := fun h => hs (List.length_eq_zero.mp h)
  simp only [nargv_parse, hlen, if_false, pass1_input, hb]
  cases hm : b.mode <;> simp_all [Lex.outcome]

theorem nargv_parse_finish (ifs s : List Nat) (hs : s ≠ []) (hz : ∀ c ∈ s, c ≠ 0) :
    nargv_parse ifs (some s) = (Lex.init.run ifs s).finish := by
  have hok : (Lex.init.run ifs s).ok := run_ok ifs s _ hz init_ok
  have hc := parse_completed ifs s hs
  have ho := parse_other ifs s hs
  generalize Lex.init.run ifs s = a at hok hc ho ⊢
  obtain ⟨h1, h2, h3, h4, h5⟩ := hok
  cases hm : a.mode
  · rw [hc { a with pos := a.pos + 1 } (by simp [Lex.step, hm, sep_zero]) (Or.inl hm)]
    simp [Lex.finish, hm, success, Lex.marks, Lex.written, Lex.nargs, h1 hm]
  · rw [hc { a with mode := Mode.idle, toks := a.toks ++ [a.cur], cur := [], pos := a.pos + 1 }
      (by simp [Lex.step, hm, sep_zero]) (Or.inl rfl)]
    simp [Lex.finish, hm, success, Lex.marks, Lex.written, Lex.nargs]
  · rw [hc { a with mode := Mode.word, cur := a.cur ++ [0], pos := a.pos + 1 }
      (by simp [Lex.step, hm, sep_zero]) (Or.inr rfl)]
    simp [Lex.finish, hm, success, Lex.marks, Lex.written, Lex.nargs, layout_snoc, starts_snoc]
  · rw [ho { a with mode := Mode.err3 } (by simp [Lex.step, hm]) (by simp)]
    simp [Lex.finish, hm, failure, Lex.outcome, Lex.counted, Lex.nargs, NARGV.zero, Lex.written]
  · rw [ho { a with mode := Mode.dq, cur := a.cur ++ [92, 0], pos := a.pos + 1 }
      (by simp [Lex.step, hm]) (by simp)]
    simp [Lex.finish, hm, Lex.outcome]
  · rw [ho { a with mode := Mode.err4 } (by simp [Lex.step, hm]) (by simp)]
    simp [Lex.finish, hm, failure, Lex.outcome, Lex.counted, Lex.nargs, NARGV.zero, Lex.written]
  · exact absurd hm h2
  · exact absurd hm h3

/-! ## Reading the arguments back -/

theorem c_string_terminated (t rest : List Nat) (h : 0 ∉ t) :
    c_string (t ++ 0 :: rest) = some t := by
  induction t with
  | nil => simp [c_string]
  | cons c t ih =>
    have hc : c ≠ 0 := fun e => h (by simp [e])
    have ht : 0 ∉ t := fun e => h (List.mem_cons_of_mem _ e)
    simp [c_string, hc, ih ht]

theorem read_argv_layout (args : List (List Nat)) :
    (∀ t ∈ args, 0 ∉ t) → ∀ pre : List Nat,
      read_argv (pre ++ layout args) ((starts pre.length args).map some) = some args := by
  induction args with
  | nil => intro _ pre; simp [starts, read_argv]
  | cons t ts ih =>
    intro h pre
    have ht : 0 ∉ t := h t (List.mem_cons_self _ _)
    have hts : ∀ u ∈ ts, 0 ∉ u := fun u hu => h u (List.mem_cons_of_mem _ hu)
    have e : pre ++ layout (t :: ts) = (pre ++ (t ++ [0])) ++ layout ts := by
      simp [layout_cons]
    have hl : (pre ++ (t ++ [0])).length = pre.length + t.length + 1 := by
      simp; omega
    have h2 := ih hts (pre ++ (t ++ [0]))
    rw [hl, ← e] at h2
    simp only [starts, List.map_cons, read_argv, h2]
    simp [layout_cons, c_string_terminated t _ ht]

theorem arguments_success (args : List (List Nat)) (h : ∀ t ∈ args, 0 ∉ t) :
    (success args).arguments = some args := by
  have h1 := read_argv_layout args h []
  simp only [List.nil_append, List.length_nil] at h1
  simp only [NARGV.arguments, success]
  rw [if_pos (by simp [starts_length]), List.take_left' (by simp [starts_length])]
  exact h1

theorem layout_length (args : List (List Nat)) :
    (layout args).length = (args.map fun t => t.length + 1).sum := by
  induction args with
  | nil => rfl
  | cons t ts ih => simp [layout_cons, ih]; omega

/-! ## Inputs without quotes and back slashes -/

theorem sep_eq_true_iff (ifs : List Nat) (c : Nat) :
    nargv_field_seperator ifs c = true ↔ c = 0 ∨ c ∈ ifs := by
  unfold nargv_field_seperator
  by_cases h : c = 0
  · simp [h]
  · simp [h, ifs_scan_iff]

theorem modifyHead_self (l : List (List Nat)) : (l.modifyHead fun f => f) = l := by
  cases l <;> simp

theorem mem_of_mem_splitOnP (p : Nat → Bool) (s : List Nat) :
    ∀ t ∈ s.splitOnP p, ∀ x ∈ t, x ∈ s := by
  induction s with
  | nil => intro t ht x hx; simp [List.splitOnP_nil] at ht; subst ht; exact hx
  | cons c s ih =>
    intro t ht x hx
    rw [List.splitOnP_cons] at ht
    by_cases hc : p c = true
    · simp only [hc, if_true, List.mem_cons] at ht
      rcases ht with ht | ht
      · subst ht; cases hx
      · exact List.mem_cons_of_mem _ (ih t ht x hx)
    · simp only [hc, Bool.false_eq_true, if_false] at ht
      cases hsp : s.splitOnP p with
      | nil => exact absurd hsp (List.splitOnP_ne_nil p s)
      | cons f fs =>
        rw [hsp] at ht ih
        simp only [List.modifyHead_cons, List.mem_cons] at ht
        rcases ht with ht | ht
        · subst ht
          rcases List.mem_cons.mp hx with hx | hx
          · subst hx; exact List.mem_cons_self _ _
          · exact List.mem_cons_of_mem _ (ih f (List.mem_cons_self _ _) x hx)
        · exact List.mem_cons_of_mem _ (ih t (List.mem_cons_of_mem _ ht) x hx)

theorem plain_finish (ifs : List Nat) (s : List Nat) :
    (∀ c ∈ s, c ≠ 34 ∧ c ≠ 39 ∧ c ≠ 92) → ∀ a : Lex,
    ((a.mode = Mode.idle ∧ a.cur = []) ∨ (a.mode = Mode.word ∧ a.cur ≠ [])) →
    (a.run ifs s).finish = some (success (a.toks ++
      ((s.splitOnP (nargv_field_seperator ifs)).modifyHead fun f => a.cur ++ f).filter
        fun f => !f.isEmpty)) := by
  induction s with
  | nil =>
    intro _ a h
    rcases h with ⟨hm, hc⟩ | ⟨hm, hc⟩
    · simp [run_nil, Lex.finish, hm, hc, List.splitOnP_nil]
    · simp [run_nil, Lex.finish, hm, hc, List.splitOnP_nil]
  | cons c s ih =>
    intro hp a h
    have hs : ∀ d ∈ s, d ≠ 34 ∧ d ≠ 39 ∧ d ≠ 92 := fun d hd => hp d (List.mem_cons_of_mem _ hd)
    obtain ⟨h34, h39, h92⟩ := hp c (List.mem_cons_self _ _)
    rw [run_cons, List.splitOnP_cons]
    by_cases hsep : nargv_field_seperator ifs c = true
    · rcases h with ⟨hm, hc⟩ | ⟨hm, hc⟩
      · rw [ih hs _ (Or.inl ⟨by simp [Lex.step, hm, hsep], by simp [Lex.step, hm, hsep, hc]⟩)]
        simp [Lex.step, hm, hsep, hc, modifyHead_self]
      · rw [ih hs _ (Or.inl ⟨by simp [Lex.step, hm, hsep], by simp [Lex.step, hm, hsep]⟩)]
        simp [Lex.step, hm, hsep, hc, modifyHead_self]
    · have hstep : (a.step ifs c).mode = Mode.word ∧ (a.step ifs c).cur = a.cur ++ [c] ∧
          (a.step ifs c).toks = a.toks := by
        rcases h with ⟨hm, hc⟩ | ⟨hm, hc⟩ <;> simp [Lex.step, hm, hsep, h34, h39, h92]
      rw [ih hs _ (Or.inr ⟨hstep.1, by simp [hstep.2.1]⟩), hstep.2.1, hstep.2.2]
      simp [hsep, List.modifyHead_modifyHead, Function.comp_def]

theorem splitOnP_congr (p q : Nat → Bool) (s : List Nat) (h : ∀ x ∈ s, p x = q x) :
    s.splitOnP p = s.splitOnP q := by
  induction s with
  | nil => simp [List.splitOnP_nil]
  | cons c s ih =>
    rw [List.splitOnP_cons, List.splitOnP_cons, h c (List.mem_cons_self _ _),
      ih fun x hx => h x (List.mem_cons_of_mem _ hx)]

theorem fields_eq (ifs s : List Nat) (hz : ∀ c ∈ s, c ≠ 0) :
    fields ifs s = (s.splitOnP (nargv_field_seperator ifs)).filter fun f => !f.isEmpty := by
  unfold fields
  rw [splitOnP_congr (fun c => decide (c ∈ ifs)) (nargv_field_seperator ifs) s]
  intro x hx
  have hx0 : x ≠ 0 := hz x hx
  by_cases hm : x ∈ ifs
  · simp [hm, (sep_eq_true_iff ifs x).mpr (Or.inr hm)]
  · have : ¬ nargv_field_seperator ifs x = true := fun e =>
      ((sep_eq_true_iff ifs x).mp e).elim hx0 hm
    simp [hm, this]

/-- C1: a non-empty, NUL free input without double quote, single quote and
back slash parses with error code 0, and its arguments are, in order, the
non-empty fields of the input split at its separator bytes. -/
theorem split_on_separators (ifs s : List Nat) (hne : s ≠ []) (hz : ∀ c ∈ s, c ≠ 0)
    (hp : ∀ c ∈ s, c ≠ 34 ∧ c ≠ 39 ∧ c ≠ 92) :
    ∃ r, nargv_parse ifs (some s) = some r ∧ r.error_code = 0 ∧
      r.arguments = some (fields ifs s) := by
  have hf := plain_finish ifs s hp Lex.init (Or.inl ⟨rfl, rfl⟩)
  have e : (Lex.init.toks ++ ((s.splitOnP (nargv_field_seperator ifs)).modifyHead
      fun f => Lex.init.cur ++ f).filter fun f => !f.isEmpty) = fields ifs s := by
    simp [Lex.init, fields_eq ifs s hz, modifyHead_self]
  rw [e] at hf
  refine ⟨success (fields ifs s), ?_, rfl, ?_⟩
  · rw [nargv_parse_finish ifs s hne hz, hf]
  · apply arguments_success
    intro t ht h0
    have ht2 : t ∈ s.splitOnP fun c => decide (c ∈ ifs) := (List.mem_filter.mp ht).1
    exact hz 0 (mem_of_mem_splitOnP _ s t ht2 0 h0) rfl

theorem split_on_separators_witness :
    ([97, 32, 32, 98] : List Nat) ≠ [] ∧
    ∃ r, nargv_parse NARGV_DEFAULT_IFS (some [97, 32, 32, 98]) = some r ∧ r.error_code = 0 ∧
      r.arguments = some [[97], [98]] :=
  ⟨by decide, split_on_separators NARGV_DEFAULT_IFS [97, 32, 32, 98] (by decide) (by decide)
    (by decide)⟩

/-! ## Counts of a successful parse -/

theorem success_counts (args : List (List Nat)) (h : ∀ t ∈ args, 0 ∉ t) :
    ∃ as argv, (success args).arguments = some as ∧ as.length = (success args).argc ∧
      (as.map fun a => a.length + 1).sum = (success args).data_length ∧
      (success args).argv = some argv ∧ argv.length = (success args).argc + 1 ∧
      argv[(success args).argc]? = some none := by
  refine ⟨args, (starts 0 args).map some ++ [none], arguments_success args h, rfl, ?_, rfl, ?_, ?_⟩
  · simp [success, layout_length]
  · simp [success, starts_length]
  · simp [success, starts_length, List.getElem?_append_right]

/-- Where the scan stays inside the string: when `nargv_parse` over a NUL free
string alone returns a result with error code 0, the `argc` slots
`argv[0 .. argc)` all hold arguments, the lengths of the arguments plus one
terminator each add up to `data_length`, and `argv` has `argc + 1` slots of
which the last is `NULL`. -/
theorem counts_and_sentinel (ifs : List Nat) (input : Option (List Nat)) (r : NARGV)
    (hz : ∀ s, input = some s → ∀ c ∈ s, c ≠ 0)
    (h : nargv_parse ifs input = some r) (he : r.error_code = 0) :
    ∃ args argv, r.arguments = some args ∧ args.length = r.argc ∧
      (args.map fun a => a.length + 1).sum = r.data_length ∧
      r.argv = some argv ∧ argv.length = r.argc + 1 ∧ argv[r.argc]? = some none := by
  cases input with
  | none =>
    simp [nargv_parse, NARGV.zero] at h
    subst h
    simp at he
  | some s =>
    by_cases hs : s = []
    · subst hs
      simp [nargv_parse, NARGV.zero] at h
      subst h
      simp at he
    · have hz' := hz s rfl
      rw [nargv_parse_finish ifs s hs hz'] at h
      obtain ⟨h1, h2, h3, h4, h5⟩ := run_ok ifs s Lex.init hz' init_ok
      have h45 : ∀ t ∈ (Lex.init.run ifs s).toks ++ [(Lex.init.run ifs s).cur], 0 ∉ t := by
        intro t ht
        rcases List.mem_append.mp ht with ht | ht
        · exact h4 t ht
        · rw [List.mem_singleton.mp ht]; exact h5
      cases hm : (Lex.init.run ifs s).mode <;> simp only [Lex.finish, hm] at h
      · cases h; exact success_counts _ h4
      · cases h; exact success_counts _ h45
      · cases h; exact success_counts _ h45
      · cases h; simp [failure] at he
      · cases h
      · cases h; simp [failure] at he
      · cases h
      · cases h

theorem counts_and_sentinel_witness :
    ∃ r, nargv_parse NARGV_DEFAULT_IFS (some [97, 32, 39, 98, 32, 99, 39]) = some r ∧
      r.error_code = 0 ∧
      ∃ args argv, r.arguments = some args ∧ args.length = r.argc ∧
        (args.map fun a => a.length + 1).sum = r.data_length ∧
        r.argv = some argv ∧ argv.length = r.argc + 1 ∧ argv[r.argc]? = some none :=
  have hp : nargv_parse NARGV_DEFAULT_IFS (some [97, 32, 39, 98, 32, 99, 39]) =
      some (success [[97], [98, 32, 99]]) := by
    rw [nargv_parse_finish _ _ (by decide) (by decide)]; rfl
  ⟨success [[97], [98, 32, 99]], hp, rfl,
    counts_and_sentinel NARGV_DEFAULT_IFS (some [97, 32, 39, 98, 32, 99, 39]) _
      (by intro s hs; cases hs; decide) hp rfl⟩

/-! ## The automaton on structured input -/

theorem sep_eq_false_iff (ifs : List Nat) (c : Nat) :
    nargv_field_seperator ifs c = false ↔ c ≠ 0 ∧ c ∉ ifs := by
  rw [← Bool.not_eq_true, sep_eq_true_iff]
  simp [not_or]

theorem squote_run (ifs : List Nat) (s : List Nat) :
    (∀ c ∈ s, c ≠ 39 ∧ c ≠ 0) → ∀ a : Lex, a.mode = Mode.sq →
    a.run ifs s = { a with cur := a.cur ++ s, pos := a.pos + s.length } := by
  induction s with
  | nil => intro _ a _; simp [run_nil]
  | cons c s ih =>
    intro h a hm
    obtain ⟨h39, h0⟩ := h c (List.mem_cons_self _ _)
    have hs : a.step ifs c = { a with cur := a.cur ++ [c], pos := a.pos + 1 } := by
      simp [Lex.step, hm, h39, h0]
    rw [run_cons, hs, ih (fun d hd => h d (List.mem_cons_of_mem _ hd))
      { a with cur := a.cur ++ [c], pos := a.pos + 1 } hm]
    simp [Nat.add_assoc, Nat.add_comm 1]

theorem dq_escape_run (ifs : List Nat) (s : List Nat) :
    (∀ c ∈ s, c ≠ 92 ∧ c ≠ 0) → ∀ a : Lex, a.mode = Mode.dq →
    a.run ifs (dq_escape s) =
      { a with cur := a.cur ++ s, pos := a.pos + (dq_escape s).length } := by
  induction s with
  | nil => intro _ a _; simp [dq_escape, run_nil]
  | cons c s ih =>
    intro h a hm
    obtain ⟨h92, h0⟩ := h c (List.mem_cons_self _ _)
    have hrest := ih (fun d hd => h d (List.mem_cons_of_mem _ hd))
    have e : dq_escape (c :: s) = (if c = 34 then [92, 34] else [c]) ++ dq_escape s := by
      simp [dq_escape]
    rw [e]
    by_cases h34 : c = 34
    · subst h34
      have hs : (a.step ifs 92).step ifs 34 = { a with cur := a.cur ++ [34], pos := a.pos + 2 } := by
        simp [Lex.step, hm]
      simp only [if_true, List.cons_append, List.nil_append, run_cons, hs]
      rw [hrest { a with cur := a.cur ++ [34], pos := a.pos + 2 } hm]
      simp [Nat.add_assoc, Nat.add_comm 2]
    · have hs : a.step ifs c = { a with cur := a.cur ++ [c], pos := a.pos + 1 } := by
        simp [Lex.step, hm, h34, h92, h0]
      simp only [h34, if_false, List.cons_append, List.nil_append, run_cons, hs]
      rw [hrest { a with cur := a.cur ++ [c], pos := a.pos + 1 } hm]
      simp [Nat.add_assoc, Nat.add_comm 1]

theorem word_run (ifs : List Nat) (u : List Nat) :
    (∀ b ∈ u, b ≠ 0 ∧ b ∉ ifs ∧ b ≠ 34 ∧ b ≠ 39 ∧ b ≠ 92) → ∀ a : Lex, a.mode = Mode.word →
    a.run ifs u = { a with cur := a.cur ++ u, pos := a.pos + u.length } := by
  induction u with
  | nil => intro _ a _; simp [run_nil]
  | cons c u ih =>
    intro h a hm
    obtain ⟨h0, hi, h34, h39, h92⟩ := h c (List.mem_cons_self _ _)
    have hsep : nargv_field_seperator ifs c = false := (sep_eq_false_iff ifs c).mpr ⟨h0, hi⟩
    have hs : a.step ifs c = { a with cur := a.cur ++ [c], pos := a.pos + 1 } := by
      simp [Lex.step, hm, hsep, h34, h39, h92]
    rw [run_cons, hs, ih (fun d hd => h d (List.mem_cons_of_mem _ hd))
      { a with cur := a.cur ++ [c], pos := a.pos + 1 } hm]
    simp [Nat.add_assoc, Nat.add_comm 1]

theorem word_run_begin (ifs : List Nat) (u : List Nat)
    (h : ∀ b ∈ u, b ≠ 0 ∧ b ∉ ifs ∧ b ≠ 34 ∧ b ≠ 39 ∧ b ≠ 92) (a : Lex)
    (hm : a.mode = Mode.idle ∨ a.mode = Mode.word) :
    ∃ m, (m = Mode.idle ∨ m = Mode.word) ∧ (u ≠ [] → m = Mode.word) ∧
      a.run ifs u = { a with mode := m, cur := a.cur ++ u, pos := a.pos + u.length } := by
  cases u with
  | nil => exact ⟨a.mode, hm, fun e => absurd rfl e, by simp [run_nil]⟩
  | cons c u =>
    obtain ⟨h0, hi, h34, h39, h92⟩ := h c (List.mem_cons_self _ _)
    have hsep : nargv_field_seperator ifs c = false := (sep_eq_false_iff ifs c).mpr ⟨h0, hi⟩
    have hs : a.step ifs c = { a with mode := Mode.word, cur := a.cur ++ [c], pos := a.pos + 1 } := by
      rcases hm with hm | hm <;> simp [Lex.step, hm, hsep, h34, h39, h92]
    refine ⟨Mode.word, Or.inr rfl, fun _ => rfl, ?_⟩
    rw [run_cons, hs, word_run ifs u (fun d hd => h d (List.mem_cons_of_mem _ hd)) _ rfl]
    simp [Nat.add_assoc, Nat.add_comm 1]

/-! ## Errors on absent and empty input -/

/-- C5: a `NULL` input gives error code 1 with the message "cannot parse null
pointer", the empty string gives error code 2 with the message "cannot parse
empty input"; the error index is 0 in both cases, for every separator set. -/
theorem null_and_empty_input (ifs : List Nat) :
    (∃ r, nargv_parse ifs none = some r ∧ r.error_code = 1 ∧
      r.error_message = some "cannot parse null pointer" ∧ r.error_index = 0) ∧
    (∃ r, nargv_parse ifs (some []) = some r ∧ r.error_code = 2 ∧
      r.error_message = some "cannot parse empty input" ∧ r.error_index = 0) :=
  ⟨⟨_, rfl, rfl, rfl, rfl⟩, ⟨_, rfl, rfl, rfl, rfl⟩⟩

/-! ## Quoted spans -/

theorem squote_finish (ifs s : List Nat) (h39 : 39 ∉ ifs) (hs : ∀ c ∈ s, c ≠ 39 ∧ c ≠ 0) :
    nargv_parse ifs (some (39 :: (s ++ [39]))) = some (success [s]) := by
  have hz : ∀ c ∈ 39 :: (s ++ [39]), c ≠ 0 := by
    intro c hc
    rcases List.mem_cons.mp hc with hc | hc
    · omega
    · rcases List.mem_append.mp hc with hc | hc
      · exact (hs c hc).2
      · rw [List.mem_singleton.mp hc]; omega
  have hsep : nargv_field_seperator ifs 39 = false := (sep_eq_false_iff ifs 39).mpr ⟨by omega, h39⟩
  rw [nargv_parse_finish ifs _ (by simp) hz, run_cons, run_append]
  have h1 : Lex.init.step ifs 39 = { Lex.init with mode := Mode.sq, pos := 1 } := by
    simp [Lex.step, Lex.init, hsep]
  rw [h1, squote_run ifs s hs _ rfl]
  simp [run_cons, run_nil, Lex.step, Lex.finish, Lex.init]

/-- C7: for a separator set without the single quote and a NUL free string `s`
without single quote, the input single quote, `s`, single quote parses with
error code 0, `argc = 1`, `data_length = len(s) + 1` and the one argument `s`. -/
theorem squote_literal (ifs s : List Nat) (h39 : 39 ∉ ifs) (hs : ∀ c ∈ s, c ≠ 39 ∧ c ≠ 0) :
    ∃ r, nargv_parse ifs (some (39 :: (s ++ [39]))) = some r ∧ r.error_code = 0 ∧
      r.argc = 1 ∧ r.data_length = s.length + 1 ∧ r.arguments = some [s] := by
  refine ⟨success [s], squote_finish ifs s h39 hs, rfl, rfl, ?_, ?_⟩
  · simp [success, layout]
  · apply arguments_success
    intro t ht h0
    rw [List.mem_singleton.mp ht] at h0
    exact (hs 0 h0).2 rfl

theorem squote_literal_witness :
    (39 ∉ NARGV_DEFAULT_IFS) ∧
    ∃ r, nargv_parse NARGV_DEFAULT_IFS (some [39, 97, 92, 98, 39]) = some r ∧
      r.error_code = 0 ∧ r.argc = 1 ∧ r.data_length = 4 ∧ r.arguments = some [[97, 92, 98]] :=
  ⟨by decide, squote_literal NARGV_DEFAULT_IFS [97, 92, 98] (by decide) (by decide)⟩

theorem dquote_finish (ifs s : List Nat) (h34 : 34 ∉ ifs) (hs : ∀ c ∈ s, c ≠ 92 ∧ c ≠ 0) :
    nargv_parse ifs (some (34 :: (dq_escape s ++ [34]))) = some (success [s]) := by
  have hz : ∀ c ∈ 34 :: (dq_escape s ++ [34]), c ≠ 0 := by
    intro c hc
    rcases List.mem_cons.mp hc with hc | hc
    · omega
    · rcases List.mem_append.mp hc with hc | hc
      · simp only [dq_escape, List.mem_flatMap] at hc
        obtain ⟨d, hd, hcd⟩ := hc
        by_cases e : d = 34
        · simp [e] at hcd; omega
        · simp [e] at hcd; rw [hcd]; exact (hs d hd).2
      · rw [List.mem_singleton.mp hc]; omega
  have hsep : nargv_field_seperator ifs 34 = false := (sep_eq_false_iff ifs 34).mpr ⟨by omega, h34⟩
  rw [nargv_parse_finish ifs _ (by simp) hz, run_cons, run_append]
  have h1 : Lex.init.step ifs 34 = { Lex.init with mode := Mode.dq, pos := 1 } := by
    simp [Lex.step, Lex.init, hsep]
  rw [h1, dq_escape_run ifs s hs _ rfl]
  simp [run_cons, run_nil, Lex.step, Lex.finish, Lex.init]

/-- C6: for a separator set without the double quote and a NUL free string `s`
without back slash, the input double quote, `s` with each double quote escaped
by a back slash, double quote parses with error code 0 to the one argument `s`.
Under the default separators `a "b c" d` gives `a`, `b c`, `d`, and
`say "she said \"hi\""` gives `say`, `she said "hi"`. -/
theorem dquote_round_trip :
    (∀ ifs s : List Nat, 34 ∉ ifs → (∀ c ∈ s, c ≠ 92 ∧ c ≠ 0) →
      ∃ r, nargv_parse ifs (some (34 :: (dq_escape s ++ [34]))) = some r ∧
        r.error_code = 0 ∧ r.arguments = some [s]) ∧
    (∃ r, nargv_parse NARGV_DEFAULT_IFS (some [97, 32, 34, 98, 32, 99, 34, 32, 100]) = some r ∧
      r.error_code = 0 ∧ r.arguments = some [[97], [98, 32, 99], [100]]) ∧
    (∃ r, nargv_parse NARGV_DEFAULT_IFS
        (some [115, 97, 121, 32, 34, 115, 104, 101, 32, 115, 97, 105, 100, 32, 92, 34, 104,
          105, 92, 34, 34]) = some r ∧
      r.error_code = 0 ∧
      r.arguments = some [[115, 97, 121],
        [115, 104, 101, 32, 115, 97, 105, 100, 32, 34, 104, 105, 34]]) := by
  refine ⟨?_, ?_, ?_⟩
  · intro ifs s h34 hs
    refine ⟨success [s], dquote_finish ifs s h34 hs, rfl, ?_⟩
    apply arguments_success
    intro t ht h0
    rw [List.mem_singleton.mp ht] at h0
    exact (hs 0 h0).2 rfl
  · refine ⟨success [[97], [98, 32, 99], [100]], ?_, rfl, arguments_success _ (by decide)⟩
    rw [nargv_parse_finish _ _ (by decide) (by decide)]; rfl
  · refine ⟨success [[115, 97, 121],
      [115, 104, 101, 32, 115, 97, 105, 100, 32, 34, 104, 105, 34]], ?_, rfl,
      arguments_success _ (by decide)⟩
    rw [nargv_parse_finish _ _ (by decide) (by decide)]; rfl

theorem dquote_round_trip_witness :
    ∃ r, nargv_parse NARGV_DEFAULT_IFS (some (34 :: (dq_escape [97, 34, 32, 39] ++ [34]))) = some r ∧
      r.error_code = 0 ∧ r.arguments = some [[97, 34, 32, 39]] :=
  dquote_round_trip.1 NARGV_DEFAULT_IFS [97, 34, 32, 39] (by decide) (by decide)

/-! ## Unterminated quotes -/

theorem dq_body_run (ifs : List Nat) (a : Lex) (hm : a.mode = Mode.dq) (body : List Nat)
    (hb : DqBody body) :
    (∀ c ∈ body, c ≠ 0) →
    ∃ cur, a.run ifs body = { a with cur := cur, pos := a.pos + body.length } := by
  induction hb with
  | nil => intro _; exact ⟨a.cur, by simp [run_nil]⟩
  | byte b c _ h34 h92 ih =>
    intro hz
    obtain ⟨cur, hcur⟩ := ih fun d hd => hz d (List.mem_append_left _ hd)
    have h0 : c ≠ 0 := hz c (by simp)
    refine ⟨cur ++ [c], ?_⟩
    rw [run_append, hcur, run_cons, run_nil]
    simp [Lex.step, hm, h34, h92, h0, Nat.add_assoc]
  | escape b c _ ih =>
    intro hz
    obtain ⟨cur, hcur⟩ := ih fun d hd => hz d (List.mem_append_left _ hd)
    rw [run_append, hcur, run_cons, run_cons, run_nil]
    by_cases h34 : c = 34
    · exact ⟨cur ++ [c], by simp [Lex.step, hm, h34, Nat.add_assoc]⟩
    · exact ⟨cur ++ [92, c], by simp [Lex.step, hm, h34, Nat.add_assoc]⟩

theorem outside_run (ifs : List Nat) (a : Lex) (hm : a.mode = Mode.idle ∨ a.mode = Mode.word)
    (p : List Nat) (hp : Outside ifs p) :
    (∀ c ∈ p, c ≠ 0) →
    ((a.run ifs p).mode = Mode.idle ∨ (a.run ifs p).mode = Mode.word) ∧
      (a.run ifs p).pos = a.pos + p.length := by
  induction hp with
  | nil => intro _; exact ⟨hm, rfl⟩
  | sep p c _ hsep ih =>
    intro hz
    obtain ⟨h1, h2⟩ := ih fun d hd => hz d (List.mem_append_left _ hd)
    rw [run_append, run_cons, run_nil]
    rcases h1 with h1 | h1 <;> simp [Lex.step, h1, hsep, h2, Nat.add_assoc]
  | byte p c _ hsep h92 h34 h39 ih =>
    intro hz
    obtain ⟨h1, h2⟩ := ih fun d hd => hz d (List.mem_append_left _ hd)
    rw [run_append, run_cons, run_nil]
    rcases h1 with h1 | h1 <;> simp [Lex.step, h1, hsep, h92, h34, h39, h2, Nat.add_assoc]
  | escape p c _ hsep ih =>
    intro hz
    obtain ⟨h1, h2⟩ := ih fun d hd => hz d (List.mem_append_left _ hd)
    rw [run_append, run_cons, run_cons, run_nil]
    by_cases hc : c = 34 ∨ c = 39 ∨ nargv_field_seperator ifs c = true
    · rcases h1 with h1 | h1 <;> simp [Lex.step, h1, hsep, hc, h2, Nat.add_assoc]
    · rcases h1 with h1 | h1 <;> simp [Lex.step, h1, hsep, hc, h2, Nat.add_assoc]
  | dquoted p body _ hsep hbody ih =>
    intro hz
    obtain ⟨h1, h2⟩ := ih fun d hd => hz d (List.mem_append_left _ hd)
    have hzb : ∀ c ∈ body, c ≠ 0 := fun d hd =>
      hz d (List.mem_append_right _ (List.mem_cons_of_mem _ (List.mem_append_left _ hd)))
    have hs : ∃ b : Lex, b.mode = Mode.dq ∧ b.pos = (a.run ifs p).pos + 1 ∧
        (a.run ifs p).step ifs 34 = b := by
      rcases h1 with h1 | h1 <;> exact ⟨_, by simp [Lex.step, h1, hsep], by simp [Lex.step, h1,
        hsep], rfl⟩
    obtain ⟨b, hbm, hbp, hb⟩ := hs
    obtain ⟨cur, hcur⟩ := dq_body_run ifs b hbm body hbody hzb
    rw [run_append, run_cons, hb, run_append, hcur, run_cons, run_nil]
    simp [Lex.step, hbm, hbp, h2]
    omega
  | squoted p body _ hsep hbody ih =>
    intro hz
    obtain ⟨h1, h2⟩ := ih fun d hd => hz d (List.mem_append_left _ hd)
    have hzb : ∀ c ∈ body, c ≠ 39 ∧ c ≠ 0 := fun d hd =>
      ⟨fun e => hbody (e ▸ hd),
        hz d (List.mem_append_right _ (List.mem_cons_of_mem _ (List.mem_append_left _ hd)))⟩
    have hs : ∃ b : Lex, b.mode = Mode.sq ∧ b.pos = (a.run ifs p).pos + 1 ∧
        (a.run ifs p).step ifs 39 = b := by
      rcases h1 with h1 | h1 <;> exact ⟨_, by simp [Lex.step, h1, hsep], by simp [Lex.step, h1,
        hsep], rfl⟩
    obtain ⟨b, hbm, hbp, hb⟩ := hs
    rw [run_append, run_cons, hb, run_append, squote_run ifs body hzb b hbm, run_cons, run_nil]
    simp [Lex.step, hbm, hbp, h2]
    omega

theorem finish_squote_unterminated (ifs pre body : List Nat) (hpre : Outside ifs pre)
    (h39 : 39 ∉ ifs) (hbody : 39 ∉ body) (hz : ∀ c ∈ pre ++ 39 :: body, c ≠ 0) :
    ∃ argc data_length, nargv_parse ifs (some (pre ++ 39 :: body)) =
      some (failure 4 "unterminated single quote" pre.length argc data_length) := by
  have hsep : nargv_field_seperator ifs 39 = false := (sep_eq_false_iff ifs 39).mpr ⟨by omega, h39⟩
  obtain ⟨h1, h2⟩ := outside_run ifs Lex.init (Or.inl rfl) pre hpre
    fun d hd => hz d (List.mem_append_left _ hd)
  have hzb : ∀ c ∈ body, c ≠ 39 ∧ c ≠ 0 := fun d hd =>
    ⟨fun e => hbody (e ▸ hd), hz d (List.mem_append_right _ (List.mem_cons_of_mem _ hd))⟩
  have h2' : (Lex.init.run ifs pre).pos = pre.length := by rw [h2]; exact Nat.zero_add _
  have hs : ∃ b : Lex, b.mode = Mode.sq ∧ b.quote = pre.length ∧
      (Lex.init.run ifs pre).step ifs 39 = b := by
    rcases h1 with h1 | h1 <;>
      exact ⟨_, by simp [Lex.step, h1, hsep], by simp [Lex.step, h1, hsep, h2'], rfl⟩
  obtain ⟨b, hbm, hbq, hb⟩ := hs
  rw [nargv_parse_finish ifs _ (by simp) hz, run_append, run_cons, hb,
    squote_run ifs body hzb b hbm]
  refine ⟨b.toks.length + 1, (layout b.toks ++ (b.cur ++ body)).length, ?_⟩
  simp [Lex.finish, hbm, hbq, Lex.written]

/-- C4: when a single quote that is not a separator is met outside any quote,
not consumed by an escape, and no further single quote follows before the end
of the NUL free input, `nargv_parse` returns error code 4 with the message
"unterminated single quote" and the 1-based column of that quote as index. -/
theorem squote_unterminated (ifs pre body : List Nat) (hpre : Outside ifs pre)
    (h39 : 39 ∉ ifs) (hbody : 39 ∉ body) (hz : ∀ c ∈ pre ++ 39 :: body, c ≠ 0) :
    ∃ r, nargv_parse ifs (some (pre ++ 39 :: body)) = some r ∧ r.error_code = 4 ∧
      r.error_message = some "unterminated single quote" ∧ r.error_index = pre.length + 1 := by
  obtain ⟨argc, dl, h⟩ := finish_squote_unterminated ifs pre body hpre h39 hbody hz
  exact ⟨_, h, rfl, rfl, rfl⟩

theorem squote_unterminated_witness :
    Outside NARGV_DEFAULT_IFS [105, 32] ∧
    ∃ r, nargv_parse NARGV_DEFAULT_IFS (some [105, 32, 39, 97, 34, 92]) = some r ∧
      r.error_code = 4 ∧ r.error_message = some "unterminated single quote" ∧
      r.error_index = 3 :=
  have hp : Outside NARGV_DEFAULT_IFS [105, 32] :=
    Outside.sep [105] 32 (Outside.byte [] 105 Outside.nil (by decide) (by decide) (by decide)
      (by decide)) (by decide)
  ⟨hp, squote_unterminated NARGV_DEFAULT_IFS [105, 32] [97, 34, 92] hp (by decide) (by decide)
    (by decide)⟩

theorem dquote_unterminated (ifs pre body : List Nat) (hpre : Outside ifs pre)
    (h34 : 34 ∉ ifs) (hbody : DqBody body) (hz : ∀ c ∈ pre ++ 34 :: body, c ≠ 0) :
    ∃ r, nargv_parse ifs (some (pre ++ 34 :: body)) = some r ∧ r.error_code = 3 ∧
      r.error_message = some "unterminated double quote" ∧ r.error_index = pre.length + 1 := by
  have hsep : nargv_field_seperator ifs 34 = false := (sep_eq_false_iff ifs 34).mpr ⟨by omega, h34⟩
  obtain ⟨h1, h2⟩ := outside_run ifs Lex.init (Or.inl rfl) pre hpre
    fun d hd => hz d (List.mem_append_left _ hd)
  have hzb : ∀ c ∈ body, c ≠ 0 := fun d hd =>
    hz d (List.mem_append_right _ (List.mem_cons_of_mem _ hd))
  have h2' : (Lex.init.run ifs pre).pos = pre.length := by rw [h2]; exact Nat.zero_add _
  have hs : ∃ b : Lex, b.mode = Mode.dq ∧ b.quote = pre.length ∧
      (Lex.init.run ifs pre).step ifs 34 = b := by
    rcases h1 with h1 | h1 <;>
      exact ⟨_, by simp [Lex.step, h1, hsep], by simp [Lex.step, h1, hsep, h2'], rfl⟩
  obtain ⟨b, hbm, hbq, hb⟩ := hs
  obtain ⟨cur, hcur⟩ := dq_body_run ifs b hbm body hbody hzb
  rw [nargv_parse_finish ifs _ (by simp) hz, run_append, run_cons, hb, hcur]
  refine ⟨failure 3 "unterminated double quote" pre.length (b.toks.length + 1)
    (layout b.toks ++ cur).length, ?_, rfl, rfl, rfl⟩
  simp [Lex.finish, hbm, hbq, Lex.written]

theorem dquote_backslash_fault (ifs pre body : List Nat) (hpre : Outside ifs pre)
    (h34 : 34 ∉ ifs) (hbody : DqBody body) (hz : ∀ c ∈ pre ++ 34 :: body, c ≠ 0) :
    nargv_parse ifs (some (pre ++ 34 :: (body ++ [92]))) = none := by
  have hsep : nargv_field_seperator ifs 34 = false := (sep_eq_false_iff ifs 34).mpr ⟨by omega, h34⟩
  obtain ⟨h1, h2⟩ := outside_run ifs Lex.init (Or.inl rfl) pre hpre
    fun d hd => hz d (List.mem_append_left _ hd)
  have hzb : ∀ c ∈ body, c ≠ 0 := fun d hd =>
    hz d (List.mem_append_right _ (List.mem_cons_of_mem _ hd))
  have hz2 : ∀ c ∈ pre ++ 34 :: (body ++ [92]), c ≠ 0 := by
    intro c hc
    rcases List.mem_append.mp hc with hc | hc
    · exact hz c (List.mem_append_left _ hc)
    · rcases List.mem_cons.mp hc with hc | hc
      · omega
      · rcases List.mem_append.mp hc with hc | hc
        · exact hzb c hc
        · rw [List.mem_singleton.mp hc]; omega
  have hs : ∃ b : Lex, b.mode = Mode.dq ∧ (Lex.init.run ifs pre).step ifs 34 = b := by
    rcases h1 with h1 | h1 <;> exact ⟨_, by simp [Lex.step, h1, hsep], rfl⟩
  obtain ⟨b, hbm, hb⟩ := hs
  obtain ⟨cur, hcur⟩ := dq_body_run ifs b hbm body hbody hzb
  rw [nargv_parse_finish ifs _ (by simp) hz2, run_append, run_cons, hb, run_append, hcur,
    run_cons, run_nil]
  simp [Lex.step, Lex.finish, hbm]

/-- C3 (defect in the code): on the two byte input double quote, back slash the
first pass takes the terminator as the escaped byte and then reads the byte
after the terminator, so no error code 3 is returned; the parse is a fault. The
example `echo "abc` of the specification does give code 3 at column 6. -/
theorem dquote_backslash_reads_past_end :
    nargv_parse NARGV_DEFAULT_IFS (some [34, 92]) = none ∧
    pass1 NARGV_DEFAULT_IFS [34, 92, 0] 0 false NARGV.zero = Pass1.fault ∧
    ∃ r, nargv_parse NARGV_DEFAULT_IFS (some [101, 99, 104, 111, 32, 34, 97, 98, 99]) = some r ∧
      r.error_code = 3 ∧ r.error_message = some "unterminated double quote" ∧
      r.error_index = 6 := by
  refine ⟨by rfl, by rfl, failure 3 "unterminated double quote" 5 2 8, ?_, rfl, rfl, rfl⟩
  rw [nargv_parse_finish _ _ (by decide) (by decide)]
  rfl

/-! ## Escapes outside quotes -/

theorem backslash_step (ifs : List Nat) (a : Lex)
    (hm : a.mode = Mode.idle ∨ a.mode = Mode.word)
    (hsep : nargv_field_seperator ifs 92 = false) :
    a.step ifs 92 = { a with mode := Mode.esc, pos := a.pos + 1 } := by
  rcases hm with hm | hm <;> simp [Lex.step, hm, hsep]

theorem esc_step_special (ifs : List Nat) (a : Lex) (c : Nat) (hm : a.mode = Mode.esc)
    (hc : c = 34 ∨ c = 39 ∨ nargv_field_seperator ifs c = true) :
    a.step ifs c = { a with mode := Mode.word, cur := a.cur ++ [c], pos := a.pos + 1 } := by
  simp only [Lex.step, hm, if_pos hc]

theorem finish_escape_special (ifs u v : List Nat) (c : Nat) (h92 : 92 ∉ ifs)
    (hu : ∀ b ∈ u, b ≠ 0 ∧ b ∉ ifs ∧ b ≠ 34 ∧ b ≠ 39 ∧ b ≠ 92)
    (hv : ∀ b ∈ v, b ≠ 0 ∧ b ∉ ifs ∧ b ≠ 34 ∧ b ≠ 39 ∧ b ≠ 92)
    (hc : c = 34 ∨ c = 39 ∨ c ∈ ifs) (hc0 : c ≠ 0) :
    nargv_parse ifs (some (u ++ 92 :: c :: v)) = some (success [u ++ c :: v]) := by
  have hz : ∀ b ∈ u ++ 92 :: c :: v, b ≠ 0 := by
    intro b hb
    rcases List.mem_append.mp hb with hb | hb
    · exact (hu b hb).1
    · rcases List.mem_cons.mp hb with hb | hb
      · omega
      · rcases List.mem_cons.mp hb with hb | hb
        · rw [hb]; exact hc0
        · exact (hv b hb).1
  have hsep : nargv_field_seperator ifs 92 = false := (sep_eq_false_iff ifs 92).mpr ⟨by omega, h92⟩
  have hcs : c = 34 ∨ c = 39 ∨ nargv_field_seperator ifs c = true := by
    rcases hc with hc | hc | hc
    · exact Or.inl hc
    · exact Or.inr (Or.inl hc)
    · exact Or.inr (Or.inr ((sep_eq_true_iff ifs c).mpr (Or.inr hc)))
  obtain ⟨m, hm, _, hrun⟩ := word_run_begin ifs u hu Lex.init (Or.inl rfl)
  have hmode : (Lex.init.run ifs u).mode = Mode.idle ∨ (Lex.init.run ifs u).mode = Mode.word := by
    rw [hrun]; exact hm
  rw [nargv_parse_finish ifs _ (by simp) hz, run_append, run_cons, run_cons,
    backslash_step ifs _ hmode hsep, esc_step_special ifs _ c rfl hcs,
    word_run ifs v hv _ rfl, hrun]
  simp [Lex.finish, Lex.init]

/-- C8: for a separator set without the back slash, words `u` and `v` without
separator, quote and back slash bytes, and a byte `c` that is a double quote, a
single quote or a separator, the input `u`, back slash, `c`, `v` parses with
error code 0 to the one argument `u`, `c`, `v`. -/
theorem escape_special (ifs u v : List Nat) (c : Nat) (h92 : 92 ∉ ifs)
    (hu : ∀ b ∈ u, b ≠ 0 ∧ b ∉ ifs ∧ b ≠ 34 ∧ b ≠ 39 ∧ b ≠ 92)
    (hv : ∀ b ∈ v, b ≠ 0 ∧ b ∉ ifs ∧ b ≠ 34 ∧ b ≠ 39 ∧ b ≠ 92)
    (hc : c = 34 ∨ c = 39 ∨ c ∈ ifs) (hc0 : c ≠ 0) :
    ∃ r, nargv_parse ifs (some (u ++ 92 :: c :: v)) = some r ∧ r.error_code = 0 ∧
      r.arguments = some [u ++ c :: v] := by
  refine ⟨_, finish_escape_special ifs u v c h92 hu hv hc hc0, rfl, ?_⟩
  apply arguments_success
  intro t ht h0
  rw [List.mem_singleton.mp ht] at h0
  rcases List.mem_append.mp h0 with h0 | h0
  · exact (hu 0 h0).1 rfl
  · rcases List.mem_cons.mp h0 with h0 | h0
    · exact hc0 h0.symm
    · exact (hv 0 h0).1 rfl

theorem escape_special_witness :
    (92 ∉ NARGV_DEFAULT_IFS) ∧ ((32 : Nat) = 34 ∨ (32 : Nat) = 39 ∨ 32 ∈ NARGV_DEFAULT_IFS) ∧
    ∃ r, nargv_parse NARGV_DEFAULT_IFS (some [97, 92, 32, 98]) = some r ∧ r.error_code = 0 ∧
      r.arguments = some [[97, 32, 98]] :=
  ⟨by decide, by decide,
    escape_special NARGV_DEFAULT_IFS [97] [98] 32 (by decide) (by decide) (by decide) (by decide)
      (by decide)⟩

theorem idle_step (ifs : List Nat) (a : Lex) (c : Nat) (hm : a.mode = Mode.idle)
    (hsep : nargv_field_seperator ifs c = false) :
    a.step ifs c = ({ a with mode := Mode.word } : Lex).step ifs c := by
  simp [Lex.step, hm, hsep]

theorem escaped_word_run (ifs : List Nat) (n : Nat) :
    ∀ w : List Nat, w.length ≤ n →
    (∀ b ∈ w, b ≠ 0 ∧ b ∉ ifs ∧ b ≠ 34 ∧ b ≠ 39) →
    (∀ i, w[i]? = some 92 → ∃ c, w[i + 1]? = some c ∧ c ≠ 34 ∧ c ≠ 39 ∧ c ∉ ifs) →
    ∀ a : Lex, a.mode = Mode.word →
    a.run ifs w = { a with cur := a.cur ++ w, pos := a.pos + w.length } := by
  induction n with
  | zero =>
    intro w hlen _ _ a _
    have : w = [] := List.length_eq_zero.mp (Nat.le_zero.mp hlen)
    subst this
    simp [run_nil]
  | succ n ih =>
    intro w hlen hw hesc a hm
    cases w with
    | nil => simp [run_nil]
    | cons c w =>
      have hlen1 : w.length ≤ n := by simpa using hlen
      obtain ⟨h0, hi, h34, h39⟩ := hw c (List.mem_cons_self _ _)
      have hsep : nargv_field_seperator ifs c = false := (sep_eq_false_iff ifs c).mpr ⟨h0, hi⟩
      have hw1 : ∀ b ∈ w, b ≠ 0 ∧ b ∉ ifs ∧ b ≠ 34 ∧ b ≠ 39 :=
        fun b hb => hw b (List.mem_cons_of_mem _ hb)
      by_cases h92 : c = 92
      · subst h92
        obtain ⟨d, hd, hd34, hd39, hdi⟩ := hesc 0 (by simp)
        cases w with
        | nil => simp at hd
        | cons d' w2 =>
          have hdd : d' = d := by simpa using hd
          subst hdd
          have hlen2 : w2.length ≤ n := by simp only [List.length_cons] at hlen1; omega
          have hd0 : d' ≠ 0 := (hw1 d' (List.mem_cons_self _ _)).1
          have hdsep : ¬ (d' = 34 ∨ d' = 39 ∨ nargv_field_seperator ifs d' = true) := by
            rw [(sep_eq_false_iff ifs d').mpr ⟨hd0, hdi⟩]
            simp [hd34, hd39]
          have hs : (a.step ifs 92).step ifs d' =
              { a with cur := a.cur ++ [92, d'], pos := a.pos + 2 } := by
            simp [Lex.step, hm, hsep, hdsep, Nat.add_assoc]
          rw [run_cons, run_cons, hs,
            ih w2 hlen2 (fun b hb => hw1 b (List.mem_cons_of_mem _ hb))
              (fun i hi2 => by simpa using hesc (i + 2) (by simpa using hi2))
              { a with cur := a.cur ++ [92, d'], pos := a.pos + 2 } hm]
          simp [Nat.add_assoc, Nat.add_comm 2]
      · have hs : a.step ifs c = { a with cur := a.cur ++ [c], pos := a.pos + 1 } := by
          simp [Lex.step, hm, hsep, h34, h39, h92]
        rw [run_cons, hs,
          ih w hlen1 hw1 (fun i hi2 => by simpa using hesc (i + 1) (by simpa using hi2))
            { a with cur := a.cur ++ [c], pos := a.pos + 1 } hm]
        simp [Nat.add_assoc, Nat.add_comm 1]

theorem escaped_word_finish (ifs w : List Nat) (hne : w ≠ [])
    (hw : ∀ b ∈ w, b ≠ 0 ∧ b ∉ ifs ∧ b ≠ 34 ∧ b ≠ 39)
    (hesc : ∀ i, w[i]? = some 92 → ∃ c, w[i + 1]? = some c ∧ c ≠ 34 ∧ c ≠ 39 ∧ c ∉ ifs) :
    nargv_parse ifs (some w) = some (success [w]) := by
  rw [nargv_parse_finish ifs w hne fun b hb => (hw b hb).1]
  cases w with
  | nil => exact absurd rfl hne
  | cons c w =>
    obtain ⟨h0, hi, _, _⟩ := hw c (List.mem_cons_self _ _)
    have hsep : nargv_field_seperator ifs c = false := (sep_eq_false_iff ifs c).mpr ⟨h0, hi⟩
    rw [run_cons, idle_step ifs Lex.init c rfl hsep, ← run_cons,
      escaped_word_run ifs _ (c :: w) (Nat.le_refl _) hw hesc _ rfl]
    simp [Lex.finish, Lex.init]

/-- C9: a non-empty word without separator and quote bytes, in which every back
slash is followed by a byte that is neither a quote nor a separator (nor the end
of the input), parses with error code 0 to one argument, the word itself. -/
theorem word_identity (ifs w : List Nat) (hne : w ≠ [])
    (hw : ∀ b ∈ w, b ≠ 0 ∧ b ∉ ifs ∧ b ≠ 34 ∧ b ≠ 39)
    (hesc : ∀ i, w[i]? = some 92 → ∃ c, w[i + 1]? = some c ∧ c ≠ 34 ∧ c ≠ 39 ∧ c ∉ ifs) :
    ∃ r, nargv_parse ifs (some w) = some r ∧ r.error_code = 0 ∧ r.arguments = some [w] := by
  refine ⟨_, escaped_word_finish ifs w hne hw hesc, rfl, ?_⟩
  apply arguments_success
  intro t ht h0
  rw [List.mem_singleton.mp ht] at h0
  exact (hw 0 h0).1 rfl

theorem word_identity_witness :
    ([97, 92, 92, 98] : List Nat) ≠ [] ∧
    ∃ r, nargv_parse NARGV_DEFAULT_IFS (some [97, 92, 92, 98]) = some r ∧ r.error_code = 0 ∧
      r.arguments = some [[97, 92, 92, 98]] :=
  ⟨by decide, word_identity NARGV_DEFAULT_IFS [97, 92, 92, 98] (by decide) (by decide)
    (fun i hi =>
      match i, hi with
      | 0, h => absurd h (by decide)
      | 1, _ => ⟨92, rfl, by decide, by decide, by decide⟩
      | 2, _ => ⟨98, rfl, by decide, by decide, by decide⟩
      | 3, h => absurd h (by decide)
      | n + 4, h => absurd h (by simp))⟩

/-! ## Separator configuration -/

theorem nargv_ifs_eq (cur : List Nat) (nifs : Option (List Nat)) :
    nargv_ifs cur nifs = match nifs with
      | none => [32, 9, 10]
      | some s => s := by
  cases nifs with
  | none => rfl
  | some s =>
    by_cases h : cur = s
    · simp [nargv_ifs, h]
    · simp [nargv_ifs, h]

/-- C10: after any sequence of `nargv_ifs` calls the separator set is the one
given by the last call: space, tab, newline for `NULL`, the bytes of the string
otherwise; `nargv_field_seperator` is true for NUL and for the bytes of the
active set and false for all other bytes. After `nargv_ifs(",")` the input
`a,b, c` gives `a`, `b`, ` c`; after a following `nargv_ifs(NULL)` it gives
`a,b,` and `c`. -/
theorem separator_configuration :
    (∀ (cur : List Nat) (calls : List (Option (List Nat))) (last : Option (List Nat)),
      (calls ++ [last]).foldl nargv_ifs cur = match last with
        | none => [32, 9, 10]
        | some s => s) ∧
    (∀ (ifs : List Nat) (c : Nat), nargv_field_seperator ifs c = true ↔ c = 0 ∨ c ∈ ifs) ∧
    (∃ r, nargv_parse (nargv_ifs NARGV_DEFAULT_IFS (some [44])) (some [97, 44, 98, 44, 32, 99])
        = some r ∧ r.error_code = 0 ∧ r.arguments = some [[97], [98], [32, 99]]) ∧
    (∃ r, nargv_parse (nargv_ifs (nargv_ifs NARGV_DEFAULT_IFS (some [44])) none)
        (some [97, 44, 98, 44, 32, 99])
        = some r ∧ r.error_code = 0 ∧ r.arguments = some [[97, 44, 98, 44], [99]]) := by
  refine ⟨?_, sep_eq_true_iff, ?_, ?_⟩
  · intro cur calls last
    rw [List.foldl_append, List.foldl_cons, List.foldl_nil, nargv_ifs_eq]
  · refine ⟨success [[97], [98], [32, 99]], ?_, rfl, arguments_success _ (by decide)⟩
    rw [nargv_parse_finish _ _ (by decide) (by decide)]; rfl
  · refine ⟨success [[97, 44, 98, 44], [99]], ?_, rfl, arguments_success _ (by decide)⟩
    rw [nargv_parse_finish _ _ (by decide) (by decide)]; rfl

/-! ## The grammar `Outside` describes the positions of the main loop -/

theorem outside_shape (ifs : List Nat) (p : List Nat) :
    (∀ c ∈ p, c ≠ 0) →
    ((Lex.init.run ifs p).mode = Mode.idle ∨ (Lex.init.run ifs p).mode = Mode.word →
      Outside ifs p) ∧
    ((Lex.init.run ifs p).mode = Mode.esc →
      ∃ q, p = q ++ [92] ∧ Outside ifs q ∧ nargv_field_seperator ifs 92 = false) ∧
    ((Lex.init.run ifs p).mode = Mode.dq →
      ∃ q b, p = q ++ 34 :: b ∧ Outside ifs q ∧ nargv_field_seperator ifs 34 = false ∧
        DqBody b) ∧
    ((Lex.init.run ifs p).mode = Mode.dqesc →
      ∃ q b, p = q ++ 34 :: (b ++ [92]) ∧ Outside ifs q ∧
        nargv_field_seperator ifs 34 = false ∧ DqBody b) ∧
    ((Lex.init.run ifs p).mode = Mode.sq →
      ∃ q b, p = q ++ 39 :: b ∧ Outside ifs q ∧ nargv_field_seperator ifs 39 = false ∧
        39 ∉ b) := by
  induction p using List.reverseRecOn with
  | nil =>
    intro _
    refine ⟨fun _ => Outside.nil, ?_, ?_, ?_, ?_⟩ <;> intro h <;> simp [run_nil, Lex.init] at h
  | append_singleton p c ih =>
    intro hz
    have hc0 : c ≠ 0 := hz c (by simp)
    obtain ⟨ho, he, hd, hde, hs⟩ := ih fun d hd => hz d (List.mem_append_left _ hd)
    rw [run_append, run_cons, run_nil]
    generalize Lex.init.run ifs p = a at ho he hd hde hs
    cases hm : a.mode
    · have hout := ho (Or.inl hm)
      by_cases hsep : nargv_field_seperator ifs c = true
      · have hstep : (a.step ifs c).mode = Mode.idle := by simp [Lex.step, hm, hsep]
        simp only [hstep]
        exact ⟨fun _ => Outside.sep p c hout hsep, by simp, by simp, by simp, by simp⟩
      · have hsep' : nargv_field_seperator ifs c = false := by simpa using hsep
        by_cases h92 : c = 92
        · subst h92
          have hstep : (a.step ifs 92).mode = Mode.esc := by simp [Lex.step, hm, hsep]
          simp only [hstep]
          exact ⟨by simp, fun _ => ⟨p, rfl, hout, hsep'⟩, by simp, by simp, by simp⟩
        · by_cases h34 : c = 34
          · subst h34
            have hstep : (a.step ifs 34).mode = Mode.dq := by simp [Lex.step, hm, hsep]
            simp only [hstep]
            exact ⟨by simp, by simp, fun _ => ⟨p, [], rfl, hout, hsep', DqBody.nil⟩, by simp,
              by simp⟩
          · by_cases h39 : c = 39
            · subst h39
              have hstep : (a.step ifs 39).mode = Mode.sq := by simp [Lex.step, hm, hsep]
              simp only [hstep]
              exact ⟨by simp, by simp, by simp, by simp,
                fun _ => ⟨p, [], rfl, hout, hsep', List.not_mem_nil _⟩⟩
            · have hstep : (a.step ifs c).mode = Mode.word := by
                simp [Lex.step, hm, hsep, h92, h34, h39]
              simp only [hstep]
              exact ⟨fun _ => Outside.byte p c hout hsep' h92 h34 h39, by simp, by simp, by simp,
                by simp⟩
    · have hout := ho (Or.inr hm)
      by_cases hsep : nargv_field_seperator ifs c = true
      · have hstep : (a.step ifs c).mode = Mode.idle := by simp [Lex.step, hm, hsep]
        simp only [hstep]
        exact ⟨fun _ => Outside.sep p c hout hsep, by simp, by simp, by simp, by simp⟩
      · have hsep' : nargv_field_seperator ifs c = false := by simpa using hsep
        by_cases h92 : c = 92
        · subst h92
          have hstep : (a.step ifs 92).mode = Mode.esc := by simp [Lex.step, hm, hsep]
          simp only [hstep]
          exact ⟨by simp, fun _ => ⟨p, rfl, hout, hsep'⟩, by simp, by simp, by simp⟩
        · by_cases h34 : c = 34
          · subst h34
            have hstep : (a.step ifs 34).mode = Mode.dq := by simp [Lex.step, hm, hsep]
            simp only [hstep]
            exact ⟨by simp, by simp, fun _ => ⟨p, [], rfl, hout, hsep', DqBody.nil⟩, by simp,
              by simp⟩
          · by_cases h39 : c = 39
            · subst h39
              have hstep : (a.step ifs 39).mode = Mode.sq := by simp [Lex.step, hm, hsep]
              simp only [hstep]
              exact ⟨by simp, by simp, by simp, by simp,
                fun _ => ⟨p, [], rfl, hout, hsep', List.not_mem_nil _⟩⟩
            · have hstep : (a.step ifs c).mode = Mode.word := by
                simp [Lex.step, hm, hsep, h92, h34, h39]
              simp only [hstep]
              exact ⟨fun _ => Outside.byte p c hout hsep' h92 h34 h39, by simp, by simp, by simp,
                by simp⟩
    · obtain ⟨q, hp, hq, hsep⟩ := he hm
      have hstep : (a.step ifs c).mode = Mode.word := by
        by_cases hc : c = 34 ∨ c = 39 ∨ nargv_field_seperator ifs c = true <;>
          simp [Lex.step, hm, hc]
      have hout : Outside ifs (p ++ [c]) := by
        have := Outside.escape q c hq hsep
        rw [hp]; simpa using this
      simp only [hstep]
      exact ⟨fun _ => hout, by simp, by simp, by simp, by simp⟩
    · obtain ⟨q, b, hp, hq, hsep, hb⟩ := hd hm
      by_cases h34 : c = 34
      · subst h34
        have hstep : (a.step ifs 34).mode = Mode.word := by simp [Lex.step, hm]
        have hout : Outside ifs (p ++ [34]) := by
          have := Outside.dquoted q b hq hsep hb
          rw [hp]; simpa using this
        simp only [hstep]
        exact ⟨fun _ => hout, by simp, by simp, by simp, by simp⟩
      · by_cases h92 : c = 92
        · subst h92
          have hstep : (a.step ifs 92).mode = Mode.dqesc := by simp [Lex.step, hm]
          simp only [hstep]
          exact ⟨by simp, by simp, by simp, fun _ => ⟨q, b, by simp [hp], hq, hsep, hb⟩,
            by simp⟩
        · have hstep : (a.step ifs c).mode = Mode.dq := by simp [Lex.step, hm, h34, h92, hc0]
          simp only [hstep]
          exact ⟨by simp, by simp,
            fun _ => ⟨q, b ++ [c], by simp [hp], hq, hsep, DqBody.byte b c hb h34 h92⟩, by simp,
            by simp⟩
    · obtain ⟨q, b, hp, hq, hsep, hb⟩ := hde hm
      have hstep : (a.step ifs c).mode = Mode.dq := by
        by_cases hc : c = 34 <;> simp [Lex.step, hm, hc]
      simp only [hstep]
      exact ⟨by simp, by simp,
        fun _ => ⟨q, b ++ [92, c], by simp [hp], hq, hsep, DqBody.escape b c hb⟩, by simp,
        by simp⟩
    · obtain ⟨q, b, hp, hq, hsep, hb⟩ := hs hm
      by_cases h39 : c = 39
      · subst h39
        have hstep : (a.step ifs 39).mode = Mode.word := by simp [Lex.step, hm]
        have hout : Outside ifs (p ++ [39]) := by
          have := Outside.squoted q b hq hsep hb
          rw [hp]; simpa using this
        simp only [hstep]
        exact ⟨fun _ => hout, by simp, by simp, by simp, by simp⟩
      · have hstep : (a.step ifs c).mode = Mode.sq := by simp [Lex.step, hm, h39, hc0]
        simp only [hstep]
        exact ⟨by simp, by simp, by simp, by simp,
          fun _ => ⟨q, b ++ [c], by simp [hp], hq, hsep, by
            simp only [List.mem_append, List.mem_singleton, not_or]
            exact ⟨hb, fun e => h39 e.symm⟩⟩⟩
    · have hstep : (a.step ifs c).mode = Mode.err3 := by simp [Lex.step, hm]
      simp only [hstep]
      exact ⟨by simp, by simp, by simp, by simp, by simp⟩
    · have hstep : (a.step ifs c).mode = Mode.err4 := by simp [Lex.step, hm]
      simp only [hstep]
      exact ⟨by simp, by simp, by simp, by simp, by simp⟩

/-- On NUL free text the grammar `Outside` holds exactly when the scan of the
text ends in the main loop, outside any quote and with no escape pending. -/
theorem outside_iff (ifs : List Nat) (p : List Nat) (hz : ∀ c ∈ p, c ≠ 0) :
    Outside ifs p ↔
      ((Lex.init.run ifs p).mode = Mode.idle ∨ (Lex.init.run ifs p).mode = Mode.word) :=
  ⟨fun h => (outside_run ifs Lex.init (Or.inl rfl) p h hz).1, (outside_shape ifs p hz).1⟩

/-- The same in terms of the first pass: run over the text alone, the loop of
the first pass reaches its exit exactly when the text is in `Outside`. -/
theorem outside_iff_pass1 (ifs : List Nat) (p : List Nat) (hz : ∀ c ∈ p, c ≠ 0) :
    Outside ifs p ↔ ∃ c nvp, pass1 ifs p 0 false NARGV.zero = Pass1.completed c nvp := by
  have h := (pass1_run ifs _ p (Nat.le_refl _) Lex.init NARGV.zero).1 rfl rfl
  have e : pass1 ifs p 0 false NARGV.zero = (Lex.init.run ifs p).outcome NARGV.zero := h
  rw [outside_iff ifs p hz, e]
  cases hm : (Lex.init.run ifs p).mode <;> simp [Lex.outcome, hm]

/-! ## Bounds on the counters -/

theorem step_bounds (ifs : List Nat) (a : Lex) (c : Nat) (hc : c ≠ 0)
    (h : a.written.length + (if a.mode = Mode.esc ∨ a.mode = Mode.dqesc then 1 else 0) ≤ a.pos ∧
      a.nargs ≤ a.pos) :
    (a.step ifs c).written.length +
        (if (a.step ifs c).mode = Mode.esc ∨ (a.step ifs c).mode = Mode.dqesc then 1 else 0)
      ≤ (a.step ifs c).pos ∧
    (a.step ifs c).nargs ≤ (a.step ifs c).pos ∧ (a.step ifs c).pos ≤ a.pos + 1 := by
  obtain ⟨h1, h2⟩ := h
  cases hm : a.mode <;> simp only [Lex.step, hm] <;> (try split_ifs) <;>
    simp_all [Lex.written, Lex.nargs, layout_snoc] <;> omega

theorem run_bounds (ifs : List Nat) (s : List Nat) :
    (∀ c ∈ s, c ≠ 0) → ∀ a : Lex,
    a.written.length + (if a.mode = Mode.esc ∨ a.mode = Mode.dqesc then 1 else 0) ≤ a.pos ∧
      a.nargs ≤ a.pos →
    (a.run ifs s).written.length +
        (if (a.run ifs s).mode = Mode.esc ∨ (a.run ifs s).mode = Mode.dqesc then 1 else 0)
      ≤ (a.run ifs s).pos ∧
    (a.run ifs s).nargs ≤ (a.run ifs s).pos ∧ (a.run ifs s).pos ≤ a.pos + s.length := by
  induction s with
  | nil => intro _ a h; exact ⟨h.1, h.2, Nat.le_refl _⟩
  | cons c s ih =>
    intro hz a h
    obtain ⟨h1, h2, h3⟩ := step_bounds ifs a c (hz c (List.mem_cons_self _ _)) h
    obtain ⟨k1, k2, k3⟩ := ih (fun d hd => hz d (List.mem_cons_of_mem _ hd)) _ ⟨h1, h2⟩
    rw [run_cons]
    refine ⟨k1, k2, ?_⟩
    simp only [List.length_cons]
    omega

/-- The counters of a result never exceed the input length plus one, so on
inputs shorter than `2^31` bytes no C counter of `nargv_parse` wraps. -/
theorem counters_bounded (ifs s : List Nat) (r : NARGV) (hz : ∀ c ∈ s, c ≠ 0)
    (h : nargv_parse ifs (some s) = some r) :
    r.argc ≤ s.length ∧ r.data_length ≤ s.length + 1 := by
  by_cases hs : s = []
  · subst hs
    simp [nargv_parse, NARGV.zero] at h
    subst h
    simp
  · rw [nargv_parse_finish ifs s hs hz] at h
    obtain ⟨k1, k2,
      k3⟩ := run_bounds ifs s hz Lex.init (by simp [Lex.init, Lex.written, Lex.nargs, layout])
    have hidle := (run_ok ifs s Lex.init hz init_ok).1
    have hp0 : Lex.init.pos = 0 := rfl
    rw [hp0, Nat.zero_add] at k3
    generalize Lex.init.run ifs s = a at h k1 k2 k3 hidle
    cases hm : a.mode <;> simp only [Lex.finish, hm] at h <;>
      simp only [hm, Lex.written, Lex.nargs] at k1 k2 <;>
      (try cases h) <;>
      simp_all [success, failure, layout_snoc, Lex.written] <;> omega

/-! ## Errors leave no buffers -/

/-- C12: when `nargv_parse` returns a non-zero error code, `argv` and `data` are
both `NULL`, and the error is either one of the two early returns or the
structure returned from inside the first pass; when it returns error code 0 the
error index is 0. -/
theorem error_atomicity (ifs : List Nat) (input : Option (List Nat)) (r : NARGV)
    (h : nargv_parse ifs input = some r) :
    (r.error_code ≠ 0 →
      r.argv = none ∧ r.data = none ∧
      (input = none ∨ input = some [] ∨
        ∃ s, input = some s ∧ pass1 ifs (s ++ [0]) 0 false NARGV.zero = Pass1.returned r)) ∧
    (r.error_code = 0 → r.error_index = 0) := by
  cases input with
  | none =>
    simp [nargv_parse, NARGV.zero] at h
    subst h
    simp
  | some s =>
    by_cases hs : s = []
    · subst hs
      simp [nargv_parse, NARGV.zero] at h
      subst h
      simp
    · have hp1 := pass1_input ifs s
      generalize hb : (Lex.init.run ifs s).step ifs 0 = b at hp1
      by_cases hmode : b.mode = Mode.idle ∨ b.mode = Mode.word
      · rw [parse_completed ifs s hs b hb hmode] at h
        cases h
        simp
      · have hmode' : b.mode ≠ Mode.idle ∧ b.mode ≠ Mode.word := by
          constructor
          · exact fun e => hmode (Or.inl e)
          · exact fun e => hmode (Or.inr e)
        rw [parse_other ifs s hs b hb hmode'] at h
        cases hm : b.mode <;> simp only [Lex.outcome, hm] at h hp1 <;>
          first
          | exact absurd hm hmode'.1
          | exact absurd hm hmode'.2
          | (cases h; done)
          | (cases h
             exact ⟨fun _ => ⟨rfl, rfl, Or.inr (Or.inr ⟨s, rfl, hp1⟩)⟩, fun e => by simp at e⟩)

theorem error_atomicity_witness :
    ∃ r, nargv_parse NARGV_DEFAULT_IFS (some [97, 32, 39, 98]) = some r ∧
      (r.error_code ≠ 0 →
        r.argv = none ∧ r.data = none ∧
        ((some [97, 32, 39, 98] : Option (List Nat)) = none ∨
          (some [97, 32, 39, 98] : Option (List Nat)) = some [] ∨
          ∃ s, (some [97, 32, 39, 98] : Option (List Nat)) = some s ∧
            pass1 NARGV_DEFAULT_IFS (s ++ [0]) 0 false NARGV.zero = Pass1.returned r)) ∧
      (r.error_code = 0 → r.error_index = 0) ∧ r.error_code = 4 :=
  have hp : nargv_parse NARGV_DEFAULT_IFS (some [97, 32, 39, 98]) =
      some (failure 4 "unterminated single quote" 2 2 3) := by
    rw [nargv_parse_finish _ _ (by decide) (by decide)]; rfl
  ⟨_, hp, (error_atomicity NARGV_DEFAULT_IFS (some [97, 32, 39, 98]) _ hp).1,
    (error_atomicity NARGV_DEFAULT_IFS (some [97, 32, 39, 98]) _ hp).2, rfl⟩

/-! ## Inputs made of separators only -/

theorem separators_run (ifs : List Nat) (s : List Nat) :
    (∀ c ∈ s, c ∈ ifs) → ∀ a : Lex, a.mode = Mode.idle →
    a.run ifs s = { a with pos := a.pos + s.length } := by
  induction s with
  | nil => intro _ a _; simp [run_nil]
  | cons c s ih =>
    intro h a hm
    have hsep : nargv_field_seperator ifs c = true :=
      (sep_eq_true_iff ifs c).mpr (Or.inr (h c (List.mem_cons_self _ _)))
    have hs : a.step ifs c = { a with pos := a.pos + 1 } := by simp [Lex.step, hm, hsep]
    rw [run_cons, hs, ih (fun d hd => h d (List.mem_cons_of_mem _ hd))
      { a with pos := a.pos + 1 } hm]
    simp [Nat.add_assoc, Nat.add_comm 1]

/-- C20: a non-empty input made only of bytes of the separator set parses with
error code 0, `argc = 0`, `data_length = 0` and an `argv` table that holds just
the `NULL` sentinel, whereas the empty input gives error code 2. -/
theorem separators_only (ifs s : List Nat) (hne : s ≠ []) (hz : ∀ c ∈ s, c ≠ 0)
    (hs : ∀ c ∈ s, c ∈ ifs) :
    (∃ r, nargv_parse ifs (some s) = some r ∧ r.error_code = 0 ∧ r.argc = 0 ∧
      r.data_length = 0 ∧ r.argv = some [none]) ∧
    (∃ r, nargv_parse ifs (some []) = some r ∧ r.error_code = 2) := by
  refine ⟨⟨success [], ?_, rfl, rfl, rfl, rfl⟩, ⟨_, rfl, rfl⟩⟩
  rw [nargv_parse_finish ifs s hne hz, separators_run ifs s hs Lex.init rfl]
  rfl

theorem separators_only_witness :
    ([32, 9, 32] : List Nat) ≠ [] ∧
    (∃ r, nargv_parse NARGV_DEFAULT_IFS (some [32, 9, 32]) = some r ∧ r.error_code = 0 ∧
      r.argc = 0 ∧ r.data_length = 0 ∧ r.argv = some [none]) ∧
    (∃ r, nargv_parse NARGV_DEFAULT_IFS (some []) = some r ∧ r.error_code = 2) :=
  ⟨by decide,
    separators_only NARGV_DEFAULT_IFS [32, 9, 32] (by decide) (by decide) (by decide)⟩

/-! ## Back slash inside double quotes -/

theorem dq_escape_plain (s : List Nat) (h : ∀ c ∈ s, c ≠ 34) : dq_escape s = s := by
  induction s with
  | nil => rfl
  | cons c s ih =>
    have hc : c ≠ 34 := h c (List.mem_cons_self _ _)
    have e : dq_escape (c :: s) = (if c = 34 then [92, 34] else [c]) ++ dq_escape s := by
      simp [dq_escape]
    rw [e, ih fun d hd => h d (List.mem_cons_of_mem _ hd)]
    simp [hc]

theorem dq_plain_run (ifs : List Nat) (s : List Nat)
    (h : ∀ c ∈ s, c ≠ 34 ∧ c ≠ 92 ∧ c ≠ 0) (a : Lex) (hm : a.mode = Mode.dq) :
    a.run ifs s = { a with cur := a.cur ++ s, pos := a.pos + s.length } := by
  have e := dq_escape_run ifs s (fun c hc => ⟨(h c hc).2.1, (h c hc).2.2⟩) a hm
  rw [dq_escape_plain s fun c hc => (h c hc).1] at e
  exact e

theorem finish_dquote_backslash (ifs s1 s2 : List Nat) (c : Nat) (h34 : 34 ∉ ifs)
    (h1 : ∀ b ∈ s1, b ≠ 34 ∧ b ≠ 92 ∧ b ≠ 0)
    (h2 : ∀ b ∈ s2, b ≠ 34 ∧ b ≠ 92 ∧ b ≠ 0)
    (hc : c ≠ 34) (hc0 : c ≠ 0) :
    nargv_parse ifs (some (34 :: (s1 ++ 92 :: c :: (s2 ++ [34])))) =
      some (success [s1 ++ 92 :: c :: s2]) := by
  have hz : ∀ b ∈ 34 :: (s1 ++ 92 :: c :: (s2 ++ [34])), b ≠ 0 := by
    intro b hb
    simp only [List.mem_cons, List.mem_append, List.not_mem_nil, or_false] at hb
    rcases hb with hb | hb | hb | hb | hb | hb <;>
      first
      | exact (h1 b hb).2.2
      | exact (h2 b hb).2.2
      | (rw [hb]; exact hc0)
      | omega
  have hsep : nargv_field_seperator ifs 34 = false := (sep_eq_false_iff ifs 34).mpr ⟨by omega, h34⟩
  have e1 : Lex.init.step ifs 34 = { Lex.init with mode := Mode.dq, pos := 1 } := by
    simp [Lex.step, Lex.init, hsep]
  rw [nargv_parse_finish ifs _ (by simp) hz, run_cons, e1, run_append,
    dq_plain_run ifs s1 h1 _ rfl, run_cons, run_cons]
  have e2 : (({ ({ Lex.init with mode := Mode.dq, pos := 1 } : Lex) with
      cur := ({ Lex.init with mode := Mode.dq, pos := 1 } : Lex).cur ++ s1,
      pos := ({ Lex.init with mode := Mode.dq, pos := 1 } : Lex).pos + s1.length } : Lex).step
        ifs 92).step ifs c =
      { Lex.init with mode := Mode.dq, cur := s1 ++ [92, c], pos := 1 + s1.length + 2 } := by
    simp [Lex.step, Lex.init, hc]
  rw [e2, run_append, dq_plain_run ifs s2 h2 _ rfl]
  simp [run_cons, run_nil, Lex.step, Lex.finish, Lex.init]

/-- C15: for a separator set without the double quote, NUL free strings `s1` and
`s2` without back slash and double quote, and a byte `c` other than the double
quote and NUL, the input double quote, `s1`, back slash, `c`, `s2`, double quote
parses with error code 0 to the one argument `s1`, back slash, `c`, `s2`. -/
theorem dquote_backslash_kept (ifs s1 s2 : List Nat) (c : Nat) (h34 : 34 ∉ ifs)
    (h1 : ∀ b ∈ s1, b ≠ 34 ∧ b ≠ 92 ∧ b ≠ 0)
    (h2 : ∀ b ∈ s2, b ≠ 34 ∧ b ≠ 92 ∧ b ≠ 0)
    (hc : c ≠ 34) (hc0 : c ≠ 0) :
    ∃ r, nargv_parse ifs (some (34 :: (s1 ++ 92 :: c :: (s2 ++ [34])))) = some r ∧
      r.error_code = 0 ∧ r.arguments = some [s1 ++ 92 :: c :: s2] := by
  refine ⟨_, finish_dquote_backslash ifs s1 s2 c h34 h1 h2 hc hc0, rfl, ?_⟩
  apply arguments_success
  intro t ht h0
  rw [List.mem_singleton.mp ht] at h0
  simp only [List.mem_append, List.mem_cons] at h0
  rcases h0 with h0 | h0 | h0 | h0 <;>
    first
    | exact (h1 0 h0).2.2 rfl
    | exact (h2 0 h0).2.2 rfl
    | exact hc0 h0.symm
    | omega

theorem dquote_backslash_kept_witness :
    (34 ∉ NARGV_DEFAULT_IFS) ∧
    ∃ r, nargv_parse NARGV_DEFAULT_IFS (some [34, 97, 92, 32, 39, 34]) = some r ∧
      r.error_code = 0 ∧ r.arguments = some [[97, 92, 32, 39]] :=
  ⟨by decide, dquote_backslash_kept NARGV_DEFAULT_IFS [97] [39] 32 (by decide) (by decide)
    (by decide) (by decide) (by decide)⟩

/-! ## A back slash at the end of the input -/

theorem trailing_backslash_run (ifs w : List Nat) (h92 : 92 ∉ ifs)
    (hw : ∀ b ∈ w, b ≠ 0 ∧ b ∉ ifs ∧ b ≠ 34 ∧ b ≠ 39 ∧ b ≠ 92) :
    Lex.init.run ifs (w ++ [92]) =
      { Lex.init with mode := Mode.esc, cur := w, pos := w.length + 1 } := by
  have hsep : nargv_field_seperator ifs 92 = false := (sep_eq_false_iff ifs 92).mpr ⟨by omega, h92⟩
  obtain ⟨m, hm, _, hrun⟩ := word_run_begin ifs w hw Lex.init (Or.inl rfl)
  have hmode : (Lex.init.run ifs w).mode = Mode.idle ∨ (Lex.init.run ifs w).mode = Mode.word := by
    rw [hrun]; exact hm
  rw [run_append, run_cons, run_nil, backslash_step ifs _ hmode hsep, hrun]
  simp [Lex.init]

/-- C16: for a separator set without the back slash and a word `w` without
separator, quote and back slash bytes, the input `w`, back slash parses with
error code 0, `argc = 1` and `data_length = len(w) + 1`; the data buffer is `w`
followed by one NUL, the argument reads back as `w`, and the first pass leaves
its loop still composing, so the NUL is the escaped terminator and no closing
terminator is counted. -/
theorem trailing_backslash (ifs w : List Nat) (h92 : 92 ∉ ifs)
    (hw : ∀ b ∈ w, b ≠ 0 ∧ b ∉ ifs ∧ b ≠ 34 ∧ b ≠ 39 ∧ b ≠ 92) :
    (∃ r, nargv_parse ifs (some (w ++ [92])) = some r ∧ r.error_code = 0 ∧ r.argc = 1 ∧
      r.data_length = w.length + 1 ∧ r.data = some (w ++ [0]) ∧ r.arguments = some [w]) ∧
    pass1 ifs (w ++ [92, 0]) 0 false NARGV.zero =
      Pass1.completed true { NARGV.zero with argc := 1, data_length := w.length + 1 } := by
  have hz : ∀ b ∈ w ++ [92], b ≠ 0 := by
    intro b hb
    rcases List.mem_append.mp hb with hb | hb
    · exact (hw b hb).1
    · rw [List.mem_singleton.mp hb]; omega
  constructor
  · refine ⟨success [w], ?_, rfl, rfl, ?_, ?_, ?_⟩
    · rw [nargv_parse_finish ifs _ (by simp) hz, trailing_backslash_run ifs w h92 hw]
      simp [Lex.finish, Lex.init]
    · simp [success, layout]
    · simp [success, layout]
    · apply arguments_success
      intro t ht h0
      rw [List.mem_singleton.mp ht] at h0
      exact (hw 0 h0).1 rfl
  · have h := pass1_input ifs (w ++ [92])
    rw [trailing_backslash_run ifs w h92 hw] at h
    have e : (w ++ [92]) ++ [0] = w ++ [92, 0] := by simp
    rw [e] at h
    rw [h]
    simp [Lex.step, sep_zero, Lex.outcome, Lex.counted, Lex.nargs, Lex.written, Lex.init, layout,
      NARGV.zero]

theorem trailing_backslash_witness :
    (92 ∉ NARGV_DEFAULT_IFS) ∧
    (∃ r, nargv_parse NARGV_DEFAULT_IFS (some [97, 98, 92]) = some r ∧ r.error_code = 0 ∧
      r.argc = 1 ∧ r.data_length = 3 ∧ r.data = some [97, 98, 0] ∧
      r.arguments = some [[97, 98]]) ∧
    pass1 NARGV_DEFAULT_IFS [97, 98, 92, 0] 0 false NARGV.zero =
      Pass1.completed true { NARGV.zero with argc := 1, data_length := 3 } :=
  ⟨by decide, trailing_backslash NARGV_DEFAULT_IFS [97, 98] (by decide) (by decide)⟩

/-! ## Quoted spans inside a word -/

theorem dquote_open_step (ifs : List Nat) (a : Lex)
    (hm : a.mode = Mode.idle ∨ a.mode = Mode.word)
    (hsep : nargv_field_seperator ifs 34 = false) :
    a.step ifs 34 = { a with mode := Mode.dq, quote := a.pos, pos := a.pos + 1 } := by
  rcases hm with hm | hm <;> simp [Lex.step, hm, hsep]

theorem dquote_close_step (ifs : List Nat) (a : Lex) (hm : a.mode = Mode.dq) :
    a.step ifs 34 = { a with mode := Mode.word, pos := a.pos + 1 } := by
  simp [Lex.step, hm]

theorem squote_open_step (ifs : List Nat) (a : Lex)
    (hm : a.mode = Mode.idle ∨ a.mode = Mode.word)
    (hsep : nargv_field_seperator ifs 39 = false) :
    a.step ifs 39 = { a with mode := Mode.sq, quote := a.pos, pos := a.pos + 1 } := by
  rcases hm with hm | hm <;> simp [Lex.step, hm, hsep]

theorem squote_close_step (ifs : List Nat) (a : Lex) (hm : a.mode = Mode.sq) :
    a.step ifs 39 = { a with mode := Mode.word, pos := a.pos + 1 } := by
  simp [Lex.step, hm]

theorem finish_dquote_inside (ifs u s v : List Nat) (h34 : 34 ∉ ifs)
    (hu : ∀ b ∈ u, b ≠ 0 ∧ b ∉ ifs ∧ b ≠ 34 ∧ b ≠ 39 ∧ b ≠ 92)
    (hv : ∀ b ∈ v, b ≠ 0 ∧ b ∉ ifs ∧ b ≠ 34 ∧ b ≠ 39 ∧ b ≠ 92)
    (hs : ∀ b ∈ s, b ≠ 34 ∧ b ≠ 92 ∧ b ≠ 0) :
    nargv_parse ifs (some (u ++ 34 :: (s ++ 34 :: v))) = some (success [u ++ (s ++ v)]) := by
  have hz : ∀ b ∈ u ++ 34 :: (s ++ 34 :: v), b ≠ 0 := by
    intro b hb
    simp only [List.mem_cons, List.mem_append] at hb
    rcases hb with hb | hb | hb | hb | hb <;>
      first
      | exact (hu b hb).1
      | exact (hv b hb).1
      | exact (hs b hb).2.2
      | omega
  have hsep : nargv_field_seperator ifs 34 = false := (sep_eq_false_iff ifs 34).mpr ⟨by omega, h34⟩
  obtain ⟨m, hm, _, hrun⟩ := word_run_begin ifs u hu Lex.init (Or.inl rfl)
  have hmode : (Lex.init.run ifs u).mode = Mode.idle ∨ (Lex.init.run ifs u).mode = Mode.word := by
    rw [hrun]; exact hm
  rw [nargv_parse_finish ifs _ (by simp) hz, run_append, run_cons,
    dquote_open_step ifs _ hmode hsep, run_append, dq_plain_run ifs s hs _ rfl, run_cons,
    dquote_close_step ifs _ rfl, word_run ifs v hv _ rfl, hrun]
  simp [Lex.finish, Lex.init]

theorem finish_squote_inside (ifs u s v : List Nat) (h39 : 39 ∉ ifs)
    (hu : ∀ b ∈ u, b ≠ 0 ∧ b ∉ ifs ∧ b ≠ 34 ∧ b ≠ 39 ∧ b ≠ 92)
    (hv : ∀ b ∈ v, b ≠ 0 ∧ b ∉ ifs ∧ b ≠ 34 ∧ b ≠ 39 ∧ b ≠ 92)
    (hs : ∀ b ∈ s, b ≠ 39 ∧ b ≠ 0) :
    nargv_parse ifs (some (u ++ 39 :: (s ++ 39 :: v))) = some (success [u ++ (s ++ v)]) := by
  have hz : ∀ b ∈ u ++ 39 :: (s ++ 39 :: v), b ≠ 0 := by
    intro b hb
    simp only [List.mem_cons, List.mem_append] at hb
    rcases hb with hb | hb | hb | hb | hb <;>
      first
      | exact (hu b hb).1
      | exact (hv b hb).1
      | exact (hs b hb).2
      | omega
  have hsep : nargv_field_seperator ifs 39 = false := (sep_eq_false_iff ifs 39).mpr ⟨by omega, h39⟩
  obtain ⟨m, hm, _, hrun⟩ := word_run_begin ifs u hu Lex.init (Or.inl rfl)
  have hmode : (Lex.init.run ifs u).mode = Mode.idle ∨ (Lex.init.run ifs u).mode = Mode.word := by
    rw [hrun]; exact hm
  rw [nargv_parse_finish ifs _ (by simp) hz, run_append, run_cons,
    squote_open_step ifs _ hmode hsep, run_append, squote_run ifs s hs _ rfl, run_cons,
    squote_close_step ifs _ rfl, word_run ifs v hv _ rfl, hrun]
  simp [Lex.finish, Lex.init]

/-- C19: under the default separators, for words `u` and `v` without separator,
quote and back slash bytes and a NUL free string `s` without quote and back
slash bytes, the inputs `u`, double quote, `s`, double quote, `v` and `u`,
single quote, `s`, single quote, `v` both parse with error code 0 to the one
argument `u`, `s`, `v`. -/
theorem quoted_span_inside_word (u s v : List Nat)
    (hu : ∀ b ∈ u, b ≠ 0 ∧ b ∉ NARGV_DEFAULT_IFS ∧ b ≠ 34 ∧ b ≠ 39 ∧ b ≠ 92)
    (hv : ∀ b ∈ v, b ≠ 0 ∧ b ∉ NARGV_DEFAULT_IFS ∧ b ≠ 34 ∧ b ≠ 39 ∧ b ≠ 92)
    (hs : ∀ b ∈ s, b ≠ 0 ∧ b ≠ 34 ∧ b ≠ 39 ∧ b ≠ 92) :
    (∃ r, nargv_parse NARGV_DEFAULT_IFS (some (u ++ 34 :: (s ++ 34 :: v))) = some r ∧
      r.error_code = 0 ∧ r.arguments = some [u ++ (s ++ v)]) ∧
    (∃ r, nargv_parse NARGV_DEFAULT_IFS (some (u ++ 39 :: (s ++ 39 :: v))) = some r ∧
      r.error_code = 0 ∧ r.arguments = some [u ++ (s ++ v)]) := by
  have hargs : (success [u ++ (s ++ v)]).arguments = some [u ++ (s ++ v)] := by
    apply arguments_success
    intro t ht h0
    rw [List.mem_singleton.mp ht] at h0
    simp only [List.mem_append] at h0
    rcases h0 with h0 | h0 | h0
    · exact (hu 0 h0).1 rfl
    · exact (hs 0 h0).1 rfl
    · exact (hv 0 h0).1 rfl
  exact ⟨⟨_, finish_dquote_inside NARGV_DEFAULT_IFS u s v (by decide) hu hv
      (fun b hb => ⟨(hs b hb).2.1, (hs b hb).2.2.2, (hs b hb).1⟩), rfl, hargs⟩,
    ⟨_, finish_squote_inside NARGV_DEFAULT_IFS u s v (by decide) hu hv
      (fun b hb => ⟨(hs b hb).2.2.1, (hs b hb).1⟩), rfl, hargs⟩⟩

theorem quoted_span_inside_word_witness :
    (∃ r, nargv_parse NARGV_DEFAULT_IFS (some [97, 34, 32, 98, 34, 99]) = some r ∧
      r.error_code = 0 ∧ r.arguments = some [[97, 32, 98, 99]]) ∧
    (∃ r, nargv_parse NARGV_DEFAULT_IFS (some [97, 39, 32, 98, 39, 99]) = some r ∧
      r.error_code = 0 ∧ r.arguments = some [[97, 32, 98, 99]]) :=
  quoted_span_inside_word [97] [32, 98] [99] (by decide) (by decide) (by decide)

/-! ## Layout of the data buffer and of the argument table -/

theorem starts_next (args : List (List Nat)) :
    ∀ base i, i + 1 < args.length →
      ∃ o a, (starts base args)[i]? = some o ∧ args[i]? = some a ∧
        (starts base args)[i + 1]? = some (o + a.length + 1) := by
  induction args with
  | nil => intro _ i h; simp at h
  | cons t ts ih =>
    intro base i h
    cases ts with
    | nil => simp at h
    | cons t2 ts2 =>
      cases i with
      | zero => exact ⟨base, t, by simp [starts], by simp, by simp [starts]⟩
      | succ j =>
        have hj : j + 1 < (t2 :: ts2).length := by simpa using h
        obtain ⟨o, a, h1, h2, h3⟩ := ih (base + t.length + 1) j hj
        refine ⟨o, a, ?_, ?_, ?_⟩
        · simpa [starts] using h1
        · simpa using h2
        · simpa [starts] using h3

theorem layout_last (args : List (List Nat)) (h : args ≠ []) :
    (layout args)[(layout args).length - 1]? = some 0 := by
  rcases List.eq_nil_or_concat args with e | ⟨xs, t, e⟩
  · exact absurd e h
  · subst e
    have e2 : layout (xs.concat t) = (layout xs ++ t) ++ [0] := by
      rw [List.concat_eq_append, layout_snoc]; simp
    have e3 : (layout xs ++ t ++ [0]).length - 1 = (layout xs ++ t).length := by simp
    rw [e2, e3]
    exact List.getElem?_concat_length _ _

theorem success_layout (args : List (List Nat)) (h : ∀ t ∈ args, 0 ∉ t) :
    ∃ (as : List (List Nat)) (data offs : List Nat),
      (success args).arguments = some as ∧ as.length = (success args).argc ∧
      (success args).data = some data ∧ data.length = (success args).data_length ∧
      data = (as.map fun a => a ++ [0]).flatten ∧
      (success args).argv = some (offs.map some ++ [none]) ∧
      offs.length = (success args).argc ∧
      (0 < (success args).argc → offs[0]? = some 0) ∧
      (∀ i, i + 1 < (success args).argc →
        ∃ o a, offs[i]? = some o ∧ as[i]? = some a ∧ offs[i + 1]? = some (o + a.length + 1)) ∧
      (0 < (success args).argc → data[(success args).data_length - 1]? = some 0) ∧
      ((success args).argc = 0 → (success args).data_length = 0) := by
  refine ⟨args, layout args, starts 0 args, arguments_success args h, rfl, rfl, rfl, rfl, rfl,
    starts_length args 0, ?_, ?_, ?_, ?_⟩
  · intro hpos
    cases args with
    | nil => simp [success] at hpos
    | cons t ts => simp [starts]
  · intro i hi
    exact starts_next args 0 i hi
  · intro hpos
    apply layout_last
    intro e
    subst e
    simp [success] at hpos
  · intro h0
    have : args = [] := List.length_eq_zero.mp h0
    subst this
    rfl

/-- Where the scan stays inside the string: when `nargv_parse` over a NUL free
string alone returns a result with error code 0, `data` has `data_length` bytes
and is the concatenation, in order, of each argument followed by one NUL;
`argv[0]` points at offset 0, `argv[i + 1]` points `len(argument i) + 1` bytes
after `argv[i]`, the last byte of `data` is a NUL, and `data_length` is 0 when
`argc` is 0. -/
theorem data_layout (ifs : List Nat) (input : Option (List Nat)) (r : NARGV)
    (hz : ∀ s, input = some s → ∀ c ∈ s, c ≠ 0)
    (h : nargv_parse ifs input = some r) (he : r.error_code = 0) :
    ∃ (args : List (List Nat)) (data offs : List Nat),
      r.arguments = some args ∧ args.length = r.argc ∧
      r.data = some data ∧ data.length = r.data_length ∧
      data = (args.map fun a => a ++ [0]).flatten ∧
      r.argv = some (offs.map some ++ [none]) ∧ offs.length = r.argc ∧
      (0 < r.argc → offs[0]? = some 0) ∧
      (∀ i, i + 1 < r.argc →
        ∃ o a, offs[i]? = some o ∧ args[i]? = some a ∧ offs[i + 1]? = some (o + a.length + 1)) ∧
      (0 < r.argc → data[r.data_length - 1]? = some 0) ∧
      (r.argc = 0 → r.data_length = 0) := by
  cases input with
  | none =>
    simp [nargv_parse, NARGV.zero] at h
    subst h
    simp at he
  | some s =>
    by_cases hs : s = []
    · subst hs
      simp [nargv_parse, NARGV.zero] at h
      subst h
      simp at he
    · have hz' := hz s rfl
      rw [nargv_parse_finish ifs s hs hz'] at h
      obtain ⟨h1, h2, h3, h4, h5⟩ := run_ok ifs s Lex.init hz' init_ok
      have h45 : ∀ t ∈ (Lex.init.run ifs s).toks ++ [(Lex.init.run ifs s).cur], 0 ∉ t := by
        intro t ht
        rcases List.mem_append.mp ht with ht | ht
        · exact h4 t ht
        · rw [List.mem_singleton.mp ht]; exact h5
      cases hm : (Lex.init.run ifs s).mode <;> simp only [Lex.finish, hm] at h
      · cases h; exact success_layout _ h4
      · cases h; exact success_layout _ h45
      · cases h; exact success_layout _ h45
      · cases h; simp [failure] at he
      · cases h
      · cases h; simp [failure] at he
      · cases h
      · cases h

theorem data_layout_witness :
    ∃ r, nargv_parse NARGV_DEFAULT_IFS (some [97, 32, 39, 98, 32, 99, 39]) = some r ∧
      r.error_code = 0 ∧
      ∃ (args : List (List Nat)) (data offs : List Nat),
      r.arguments = some args ∧ args.length = r.argc ∧
        r.data = some data ∧ data.length = r.data_length ∧
        data = (args.map fun a => a ++ [0]).flatten ∧
        r.argv = some (offs.map some ++ [none]) ∧ offs.length = r.argc ∧
        (0 < r.argc → offs[0]? = some 0) ∧
        (∀ i, i + 1 < r.argc →
          ∃ o a, offs[i]? = some o ∧ args[i]? = some a ∧
            offs[i + 1]? = some (o + a.length + 1)) ∧
        (0 < r.argc → data[r.data_length - 1]? = some 0) ∧
        (r.argc = 0 → r.data_length = 0) :=
  have hp : nargv_parse NARGV_DEFAULT_IFS (some [97, 32, 39, 98, 32, 99, 39]) =
      some (success [[97], [98, 32, 99]]) := by
    rw [nargv_parse_finish _ _ (by decide) (by decide)]; rfl
  ⟨success [[97], [98, 32, 99]], hp, rfl,
    data_layout NARGV_DEFAULT_IFS (some [97, 32, 39, 98, 32, 99, 39]) _
      (by intro s hs; cases hs; decide) hp rfl⟩

/-! ## Concatenation across a separator -/

theorem finish_success (a : Lex) (hok : a.ok) (r : NARGV) (h : a.finish = some r)
    (he : r.error_code = 0) :
    ∃ A, r = success A ∧ (∀ t ∈ A, 0 ∉ t) ∧
      ((a.mode = Mode.idle ∧ A = a.toks) ∨
        ((a.mode = Mode.word ∨ a.mode = Mode.esc) ∧ A = a.toks ++ [a.cur])) := by
  obtain ⟨h1, h2, h3, h4, h5⟩ := hok
  have h45 : ∀ t ∈ a.toks ++ [a.cur], 0 ∉ t := by
    intro t ht
    rcases List.mem_append.mp ht with ht | ht
    · exact h4 t ht
    · rw [List.mem_singleton.mp ht]; exact h5
  cases hm : a.mode <;> simp only [Lex.finish, hm] at h
  · cases h; exact ⟨_, rfl, h4, Or.inl ⟨rfl, rfl⟩⟩
  · cases h; exact ⟨_, rfl, h45, Or.inr ⟨Or.inl rfl, rfl⟩⟩
  · cases h; exact ⟨_, rfl, h45, Or.inr ⟨Or.inr rfl, rfl⟩⟩
  · cases h; simp [failure] at he
  · cases h
  · cases h; simp [failure] at he
  · cases h
  · cases h

theorem pass1_traced_nil (ifs : List Nat) (index : Nat) (composing_argument : Bool) (nvp : NARGV) :
    pass1_traced ifs [] index composing_argument nvp =
      (Pass1.completed composing_argument nvp, []) := rfl

theorem pass1_traced_cons (ifs : List Nat) (c : Nat) (rest : List Nat)
    (index : Nat) (composing_argument : Bool) (nvp : NARGV) :
    pass1_traced ifs (c :: rest) index composing_argument nvp =
      visit index (
        if nargv_field_seperator ifs c then
          if composing_argument then
            pass1_traced ifs rest (index + 1) false { nvp with data_length := nvp.data_length + 1 }
          else
            pass1_traced ifs rest (index + 1) composing_argument nvp
        else
          let nvp := if !composing_argument then { nvp with argc := nvp.argc + 1 } else nvp
          if c = 92 then
            visit (index + 1) (
              match rest with
              | [] => (Pass1.fault, [])
              | look_ahead :: rest2 =>
                if look_ahead = 34 ∨ look_ahead = 39 ∨ nargv_field_seperator ifs look_ahead then
                  pass1_traced ifs rest2 (index + 2) true
                    { nvp with data_length := nvp.data_length + 1 }
                else
                  pass1_traced ifs rest2 (index + 2) true
                    { nvp with data_length := nvp.data_length + 1 + 1 })
          else if c = 34 then
            pass1_dquote_traced ifs rest index (index + 1) nvp
          else if c = 39 then
            pass1_squote_traced ifs rest index (index + 1) nvp
          else
            pass1_traced ifs rest (index + 1) true { nvp with data_length := nvp.data_length + 1 }) := by
  cases rest <;> rfl

theorem pass1_dquote_traced_nil (ifs : List Nat) (quote index : Nat) (nvp : NARGV) :
    pass1_dquote_traced ifs [] quote index nvp = (Pass1.fault, [index]) := rfl

theorem pass1_dquote_traced_cons (ifs : List Nat) (c : Nat) (rest : List Nat)
    (quote index : Nat) (nvp : NARGV) :
    pass1_dquote_traced ifs (c :: rest) quote index nvp =
      visit index (
        if c = 34 then
          pass1_traced ifs rest (index + 1) true nvp
        else if c = 0 then
          (Pass1.returned { nvp with error_index := quote + 1, error_code := 3,
                                     error_message := some "unterminated double quote" }, [])
        else if c = 92 then
          visit (index + 1) (
            match rest with
            | [] => (Pass1.fault, [])
            | look_ahead :: rest2 =>
              if look_ahead = 34 then
                pass1_dquote_traced ifs rest2 quote (index + 2)
                  { nvp with data_length := nvp.data_length + 1 }
              else
                pass1_dquote_traced ifs rest2 quote (index + 2)
                  { nvp with data_length := nvp.data_length + 1 + 1 })
        else
          pass1_dquote_traced ifs rest quote (index + 1)
            { nvp with data_length := nvp.data_length + 1 }) := by
  cases rest <;> rfl

theorem pass1_squote_traced_nil (ifs : List Nat) (quote index : Nat) (nvp : NARGV) :
    pass1_squote_traced ifs [] quote index nvp = (Pass1.fault, [index]) := rfl

theorem pass1_squote_traced_cons (ifs : List Nat) (c : Nat) (rest : List Nat)
    (quote index : Nat) (nvp : NARGV) :
    pass1_squote_traced ifs (c :: rest) quote index nvp =
      visit index (
        if c = 39 then
          pass1_traced ifs rest (index + 1) true nvp
        else if c = 0 then
          (Pass1.returned { nvp with error_index := quote + 1, error_code := 4,
                                     error_message := some "unterminated single quote" }, [])
        else
          pass1_squote_traced ifs rest quote (index + 1)
            { nvp with data_length := nvp.data_length + 1 }) := by
  cases rest <;> rfl

theorem pass2_traced_nil (ifs : List Nat) (index : Nat) (composing_argument : Bool) (st : Pass2) :
    pass2_traced ifs [] index composing_argument st = (some st, []) := rfl

theorem pass2_traced_cons (ifs : List Nat) (c : Nat) (rest : List Nat)
    (index : Nat) (composing_argument : Bool) (st : Pass2) :
    pass2_traced ifs (c :: rest) index composing_argument st =
      visit index (
        if nargv_field_seperator ifs c then
          if composing_argument then
            after_write (st.put 0) fun st => pass2_traced ifs rest (index + 1) false st
          else
            pass2_traced ifs rest (index + 1) composing_argument st
        else
          after_write (if !composing_argument then st.mark else some st) fun st =>
          if c = 92 then
            visit (index + 1) (
              match rest with
              | [] => (none, [])
              | look_ahead :: rest2 =>
                if look_ahead = 34 ∨ look_ahead = 39 ∨ nargv_field_seperator ifs look_ahead then
                  after_write (st.put look_ahead) fun st =>
                    pass2_traced ifs rest2 (index + 2) true st
                else
                  after_write (st.put c) fun st =>
                    after_write (st.put look_ahead) fun st =>
                      pass2_traced ifs rest2 (index + 2) true st)
          else if c = 34 then
            pass2_dquote_traced ifs rest (index + 1) st
          else if c = 39 then
            pass2_squote_traced ifs rest (index + 1) st
          else
            after_write (st.put c) fun st => pass2_traced ifs rest (index + 1) true st) := by
  cases rest <;> rfl

theorem pass2_dquote_traced_nil (ifs : List Nat) (index : Nat) (st : Pass2) :
    pass2_dquote_traced ifs [] index st = (none, [index]) := rfl

theorem pass2_dquote_traced_cons (ifs : List Nat) (c : Nat) (rest : List Nat)
    (index : Nat) (st : Pass2) :
    pass2_dquote_traced ifs (c :: rest) index st =
      visit index (
        if c = 34 then
          pass2_traced ifs rest (index + 1) true st
        else if c = 92 then
          visit (index + 1) (
            match rest with
            | [] => (none, [])
            | look_ahead :: rest2 =>
              if look_ahead = 34 then
                after_write (st.put look_ahead) fun st =>
                  pass2_dquote_traced ifs rest2 (index + 2) st
              else
                after_write (st.put c) fun st =>
                  after_write (st.put look_ahead) fun st =>
                    pass2_dquote_traced ifs rest2 (index + 2) st)
        else
          after_write (st.put c) fun st => pass2_dquote_traced ifs rest (index + 1) st) := by
  cases rest <;> rfl

theorem pass2_squote_traced_nil (ifs : List Nat) (index : Nat) (st : Pass2) :
    pass2_squote_traced ifs [] index st = (none, [index]) := rfl

theorem pass2_squote_traced_cons (ifs : List Nat) (c : Nat) (rest : List Nat)
    (index : Nat) (st : Pass2) :
    pass2_squote_traced ifs (c :: rest) index st =
      visit index (
        if c = 39 then
          pass2_traced ifs rest (index + 1) true st
        else
          after_write (st.put c) fun st => pass2_squote_traced ifs rest (index + 1) st) := by
  cases rest <;> rfl

theorem visit_fst {α : Type} (index : Nat) (r : α × List Nat) : (visit index r).1 = r.1 := rfl

theorem visit_snd {α : Type} (index : Nat) (r : α × List Nat) :
    (visit index r).2 = index :: r.2 := rfl

theorem pass1_traced_fst (ifs : List Nat) (n : Nat) :
    ∀ rest : List Nat, rest.length ≤ n →
    (∀ i c nvp, (pass1_traced ifs rest i c nvp).1 = pass1 ifs rest i c nvp) ∧
    (∀ q i nvp, (pass1_dquote_traced ifs rest q i nvp).1 = pass1_dquote ifs rest q i nvp) ∧
    (∀ q i nvp, (pass1_squote_traced ifs rest q i nvp).1 = pass1_squote ifs rest q i nvp) := by
  induction n with
  | zero =>
    intro rest hlen
    have : rest = [] := List.length_eq_zero.mp (Nat.le_zero.mp hlen)
    subst this
    exact ⟨fun _ _ _ => rfl, fun _ _ _ => rfl, fun _ _ _ => rfl⟩
  | succ n ih =>
    intro rest hlen
    cases rest with
    | nil => exact ⟨fun _ _ _ => rfl, fun _ _ _ => rfl, fun _ _ _ => rfl⟩
    | cons c rest =>
      have hlen1 : rest.length ≤ n := by simpa using hlen
      obtain ⟨k1, k2, k3⟩ := ih rest hlen1
      refine ⟨?_, ?_, ?_⟩
      · intro i c' nvp
        rw [pass1_traced_cons, pass1_cons, visit_fst]
        cases rest with
        | nil => split_ifs <;> rfl
        | cons la rest2 =>
          have hlen2 : rest2.length ≤ n := by simp only [List.length_cons] at hlen1; omega
          obtain ⟨j1, _, _⟩ := ih rest2 hlen2
          split_ifs <;>
            first
            | exact k1 _ _ _
            | exact k2 _ _ _
            | exact k3 _ _ _
            | (simp only [visit_fst]; split_ifs <;> exact j1 _ _ _)
      · intro q i nvp
        rw [pass1_dquote_traced_cons, pass1_dquote_cons, visit_fst]
        cases rest with
        | nil => split_ifs <;> rfl
        | cons la rest2 =>
          have hlen2 : rest2.length ≤ n := by simp only [List.length_cons] at hlen1; omega
          obtain ⟨_, j2, _⟩ := ih rest2 hlen2
          split_ifs <;>
            first
            | rfl
            | exact k1 _ _ _
            | exact k2 _ _ _
            | (simp only [visit_fst]; split_ifs <;> exact j2 _ _ _)
      · intro q i nvp
        rw [pass1_squote_traced_cons, pass1_squote_cons, visit_fst]
        split_ifs <;> first | rfl | exact k1 _ _ _ | exact k3 _ _ _

theorem after_write_fst (w : Option Pass2) (f : Pass2 → Option Pass2 × List Nat) :
    (after_write w f).1 = w.bind fun st => (f st).1 := by
  cases w <;> rfl

theorem pass2_traced_fst (ifs : List Nat) (n : Nat) :
    ∀ rest : List Nat, rest.length ≤ n →
    (∀ i c st, (pass2_traced ifs rest i c st).1 = pass2 ifs rest c st) ∧
    (∀ i st, (pass2_dquote_traced ifs rest i st).1 = pass2_dquote ifs rest st) ∧
    (∀ i st, (pass2_squote_traced ifs rest i st).1 = pass2_squote ifs rest st) := by
  induction n with
  | zero =>
    intro rest hlen
    have : rest = [] := List.length_eq_zero.mp (Nat.le_zero.mp hlen)
    subst this
    exact ⟨fun _ _ _ => rfl, fun _ _ => rfl, fun _ _ => rfl⟩
  | succ n ih =>
    intro rest hlen
    cases rest with
    | nil => exact ⟨fun _ _ _ => rfl, fun _ _ => rfl, fun _ _ => rfl⟩
    | cons c rest =>
      have hlen1 : rest.length ≤ n := by simpa using hlen
      obtain ⟨k1, k2, k3⟩ := ih rest hlen1
      refine ⟨?_, ?_, ?_⟩
      · intro i c' st
        rw [pass2_traced_cons, pass2_cons, visit_fst]
        cases rest with
        | nil =>
          split_ifs <;> simp only [after_write_fst, visit_fst, k1, k2, k3, apply_ite Prod.fst]
        | cons la rest2 =>
          have hlen2 : rest2.length ≤ n := by simp only [List.length_cons] at hlen1; omega
          obtain ⟨j1, _, _⟩ := ih rest2 hlen2
          split_ifs <;> simp only [after_write_fst, visit_fst, k1, k2, k3, j1, apply_ite Prod.fst]
      · intro i st
        rw [pass2_dquote_traced_cons, pass2_dquote_cons, visit_fst]
        cases rest with
        | nil => split_ifs <;> simp only [after_write_fst, visit_fst, k1, k2, k3]
        | cons la rest2 =>
          have hlen2 : rest2.length ≤ n := by simp only [List.length_cons] at hlen1; omega
          obtain ⟨_, j2, _⟩ := ih rest2 hlen2
          split_ifs <;> simp only [after_write_fst, visit_fst, k1, k2, k3, j2, apply_ite Prod.fst]
      · intro i st
        rw [pass2_squote_traced_cons, pass2_squote_cons, visit_fst]
        split_ifs <;> simp only [after_write_fst, visit_fst, k1, k2, k3]

theorem after_write_cases (w : Option Pass2) (f : Pass2 → Option Pass2 × List Nat) (k : Pass2)
    (h : (after_write w f).1 = some k) : ∃ st, w = some st ∧ after_write w f = f st := by
  cases w with
  | none => cases h
  | some st => exact ⟨st, rfl, rfl⟩

theorem reads_agree (ifs : List Nat) (n : Nat) :
    ∀ rest : List Nat, rest.length ≤ n →
    (∀ i c nvp st b nvp' k, (pass1_traced ifs rest i c nvp).1 = Pass1.completed b nvp' →
      (pass2_traced ifs rest i c st).1 = some k →
      (pass2_traced ifs rest i c st).2 = (pass1_traced ifs rest i c nvp).2) ∧
    (∀ q i nvp st b nvp' k, (pass1_dquote_traced ifs rest q i nvp).1 = Pass1.completed b nvp' →
      (pass2_dquote_traced ifs rest i st).1 = some k →
      (pass2_dquote_traced ifs rest i st).2 = (pass1_dquote_traced ifs rest q i nvp).2) ∧
    (∀ q i nvp st b nvp' k, (pass1_squote_traced ifs rest q i nvp).1 = Pass1.completed b nvp' →
      (pass2_squote_traced ifs rest i st).1 = some k →
      (pass2_squote_traced ifs rest i st).2 = (pass1_squote_traced ifs rest q i nvp).2) := by
  induction n with
  | zero =>
    intro rest hlen
    have : rest = [] := List.length_eq_zero.mp (Nat.le_zero.mp hlen)
    subst this
    exact ⟨fun _ _ _ _ _ _ _ _ _ => rfl, fun _ _ _ _ _ _ _ _ _ => rfl,
      fun _ _ _ _ _ _ _ _ _ => rfl⟩
  | succ n ih =>
    intro rest hlen
    cases rest with
    | nil =>
      exact ⟨fun _ _ _ _ _ _ _ _ _ => rfl, fun _ _ _ _ _ _ _ _ _ => rfl,
        fun _ _ _ _ _ _ _ _ _ => rfl⟩
    | cons c rest =>
      have hlen1 : rest.length ≤ n := by simpa using hlen
      obtain ⟨k1, k2, k3⟩ := ih rest hlen1
      refine ⟨?_, ?_, ?_⟩
      · intro i c' nvp st b nvp' k h1 h2
        rw [pass1_traced_cons] at h1 ⊢
        rw [pass2_traced_cons] at h2 ⊢
        rw [visit_fst] at h1 h2
        rw [visit_snd, visit_snd]
        congr 1
        by_cases hsep : nargv_field_seperator ifs c = true
        · simp only [hsep, if_true] at h1 h2 ⊢
          cases c' with
          | false =>
            simp only [Bool.false_eq_true, if_false] at h1 h2 ⊢
            exact k1 _ _ _ _ _ _ _ h1 h2
          | true =>
            simp only [if_true] at h1 h2 ⊢
            obtain ⟨st1, _, e⟩ := after_write_cases _ _ _ h2
            rw [e] at h2 ⊢
            exact k1 _ _ _ _ _ _ _ h1 h2
        · simp only [hsep, Bool.false_eq_true, if_false] at h1 h2 ⊢
          obtain ⟨st1, _, e⟩ := after_write_cases _ _ _ h2
          rw [e] at h2 ⊢
          by_cases h92 : c = 92
          · subst h92
            simp only [if_true] at h1 h2 ⊢
            rw [visit_fst] at h1 h2
            rw [visit_snd, visit_snd]
            congr 1
            cases rest with
            | nil => cases h1
            | cons la rest2 =>
              have hlen2 : rest2.length ≤ n := by simp only [List.length_cons] at hlen1; omega
              obtain ⟨j1, _, _⟩ := ih rest2 hlen2
              simp only [] at h1 h2 ⊢
              by_cases hla : la = 34 ∨ la = 39 ∨ nargv_field_seperator ifs la = true
              · simp only [if_pos hla] at h1 h2 ⊢
                obtain ⟨st2, _, e2⟩ := after_write_cases _ _ _ h2
                rw [e2] at h2 ⊢
                exact j1 _ _ _ _ _ _ _ h1 h2
              · simp only [if_neg hla] at h1 h2 ⊢
                obtain ⟨st2, _, e2⟩ := after_write_cases _ _ _ h2
                rw [e2] at h2 ⊢
                obtain ⟨st3, _, e3⟩ := after_write_cases _ _ _ h2
                rw [e3] at h2 ⊢
                exact j1 _ _ _ _ _ _ _ h1 h2
          · simp only [h92, if_false] at h1 h2 ⊢
            by_cases h34 : c = 34
            · simp only [h34, if_true] at h1 h2 ⊢
              exact k2 _ _ _ _ _ _ _ h1 h2
            · simp only [h34, if_false] at h1 h2 ⊢
              by_cases h39 : c = 39
              · simp only [h39, if_true] at h1 h2 ⊢
                exact k3 _ _ _ _ _ _ _ h1 h2
              · simp only [h39, if_false] at h1 h2 ⊢
                obtain ⟨st2, _, e2⟩ := after_write_cases _ _ _ h2
                rw [e2] at h2 ⊢
                exact k1 _ _ _ _ _ _ _ h1 h2
      · intro q i nvp st b nvp' k h1 h2
        rw [pass1_dquote_traced_cons] at h1 ⊢
        rw [pass2_dquote_traced_cons] at h2 ⊢
        rw [visit_fst] at h1 h2
        rw [visit_snd, visit_snd]
        congr 1
        by_cases h34 : c = 34
        · simp only [h34, if_true] at h1 h2 ⊢
          exact k1 _ _ _ _ _ _ _ h1 h2
        · simp only [h34, if_false] at h1 h2 ⊢
          by_cases h0 : c = 0
          · simp only [h0, if_true] at h1
            cases h1
          · simp only [h0, if_false] at h1 ⊢
            by_cases h92 : c = 92
            · subst h92
              simp only [if_true] at h1 h2 ⊢
              rw [visit_fst] at h1 h2
              rw [visit_snd, visit_snd]
              congr 1
              cases rest with
              | nil => cases h1
              | cons la rest2 =>
                have hlen2 : rest2.length ≤ n := by
                  simp only [List.length_cons] at hlen1; omega
                obtain ⟨_, j2, _⟩ := ih rest2 hlen2
                simp only [] at h1 h2 ⊢
                by_cases hla : la = 34
                · simp only [if_pos hla] at h1 h2 ⊢
                  obtain ⟨st2, _, e2⟩ := after_write_cases _ _ _ h2
                  rw [e2] at h2 ⊢
                  exact j2 _ _ _ _ _ _ _ h1 h2
                · simp only [if_neg hla] at h1 h2 ⊢
                  obtain ⟨st2, _, e2⟩ := after_write_cases _ _ _ h2
                  rw [e2] at h2 ⊢
                  obtain ⟨st3, _, e3⟩ := after_write_cases _ _ _ h2
                  rw [e3] at h2 ⊢
                  exact j2 _ _ _ _ _ _ _ h1 h2
            · simp only [h92, if_false] at h1 h2 ⊢
              obtain ⟨st2, _, e2⟩ := after_write_cases _ _ _ h2
              rw [e2] at h2 ⊢
              exact k2 _ _ _ _ _ _ _ h1 h2
      · intro q i nvp st b nvp' k h1 h2
        rw [pass1_squote_traced_cons] at h1 ⊢
        rw [pass2_squote_traced_cons] at h2 ⊢
        rw [visit_fst] at h1 h2
        rw [visit_snd, visit_snd]
        congr 1
        by_cases h39 : c = 39
        · simp only [h39, if_true] at h1 h2 ⊢
          exact k1 _ _ _ _ _ _ _ h1 h2
        · simp only [h39, if_false] at h1 h2 ⊢
          by_cases h0 : c = 0
          · simp only [h0, if_true] at h1
            cases h1
          · simp only [h0, if_false] at h1 ⊢
            obtain ⟨st2, _, e2⟩ := after_write_cases _ _ _ h2
            rw [e2] at h2 ⊢
            exact k3 _ _ _ _ _ _ _ h1 h2

/-! ## The two passes agree -/

theorem pass2_input_tight (ifs s : List Nat) (b : Lex)
    (hb : (Lex.init.run ifs s).step ifs 0 = b)
    (hmode : b.mode = Mode.idle ∨ b.mode = Mode.word) :
    pass2 ifs (s ++ [0]) false
        { argv := List.replicate b.nargs none, data := List.replicate b.written.length 0,
          data_index := 0, arg_index := 0 }
      = some { argv := b.marks.map some, data := b.written,
               data_index := b.written.length, arg_index := b.nargs } := by
  have hrun : Lex.init.run ifs (s ++ [0]) = b := by rw [run_append, run_cons, run_nil, hb]
  have h := (pass2_run ifs b.nargs b.written.length _ (s ++ [0]) (Nat.le_refl _) Lex.init
    (by rw [hrun]; exact hmode) (by rw [hrun]) (by rw [hrun])).1 rfl rfl
  rw [hrun] at h
  have e1 : Lex.init.filled b.nargs b.written.length =
      { argv := List.replicate b.nargs none, data := List.replicate b.written.length 0,
        data_index := 0, arg_index := 0 } := by
    simp [Lex.filled, fill, Lex.init, Lex.marks, Lex.written, starts, layout]
  have e2 : b.filled b.nargs b.written.length =
      { argv := b.marks.map some, data := b.written,
        data_index := b.written.length, arg_index := b.nargs } := by
    simp [Lex.filled, fill, marks_length]
  rw [e1, e2] at h
  exact h

/-- C13: when the first pass completes with counters `argc` and `data_length`,
the second pass, run on buffers of `argc + 1` slots and `data_length` bytes,
completes without a write out of bounds, ends with `arg_index = argc` and
`data_index = data_length`, and leaves slot `argc` `NULL`; it completes as well
when `argv` has only `argc` slots, so every pointer is stored at a slot below
`argc`; and it reads the same positions of the input, in the same order, as the
first pass. -/
theorem passes_agree (ifs s : List Nat) (b : Bool) (nvp : NARGV)
    (h : pass1 ifs (s ++ [0]) 0 false NARGV.zero = Pass1.completed b nvp) :
    (∃ st, pass2 ifs (s ++ [0]) false
        { argv := List.replicate (nvp.argc + 1) none, data := List.replicate nvp.data_length 0,
          data_index := 0, arg_index := 0 } = some st ∧
      st.arg_index = nvp.argc ∧ st.data_index = nvp.data_length ∧
      st.argv.length = nvp.argc + 1 ∧ st.data.length = nvp.data_length ∧
      st.argv[nvp.argc]? = some none) ∧
    (∃ st, pass2 ifs (s ++ [0]) false
        { argv := List.replicate nvp.argc none, data := List.replicate nvp.data_length 0,
          data_index := 0, arg_index := 0 } = some st ∧
      st.arg_index = nvp.argc ∧ st.data_index = nvp.data_length) ∧
    (pass2_traced ifs (s ++ [0]) 0 false
        { argv := List.replicate (nvp.argc + 1) none, data := List.replicate nvp.data_length 0,
          data_index := 0, arg_index := 0 }).2 =
      (pass1_traced ifs (s ++ [0]) 0 false NARGV.zero).2 := by
  have hp1 := pass1_input ifs s
  rw [h] at hp1
  generalize hc : (Lex.init.run ifs s).step ifs 0 = a at hp1
  have hmode : a.mode = Mode.idle ∨ a.mode = Mode.word := by
    cases hm : a.mode <;> simp [Lex.outcome, hm] at hp1 <;> simp
  have hnvp : nvp = a.counted NARGV.zero := by
    rcases hmode with hm | hm <;> simp [Lex.outcome, hm] at hp1 <;> exact hp1.2
  have hargc : nvp.argc = a.nargs := by rw [hnvp]; rfl
  have hdl : nvp.data_length = a.written.length := by rw [hnvp]; rfl
  have h2 := pass2_input ifs s a hc hmode
  have h3 := pass2_input_tight ifs s a hc hmode
  rw [hargc, hdl]
  refine ⟨⟨_, h2, rfl, rfl, ?_, rfl, ?_⟩, ⟨_, h3, rfl, rfl⟩, ?_⟩
  · simp [marks_length]
  · simp [List.getElem?_append_right, marks_length]
  · apply (reads_agree ifs _ (s ++ [0]) (Nat.le_refl _)).1 0 false NARGV.zero _ b nvp
    · rw [(pass1_traced_fst ifs _ (s ++ [0]) (Nat.le_refl _)).1, h]
    · rw [(pass2_traced_fst ifs _ (s ++ [0]) (Nat.le_refl _)).1, h2]

theorem passes_agree_witness :
    (∃ st, pass2 NARGV_DEFAULT_IFS ([97, 92, 32, 39, 98, 39] ++ [0]) false
        { argv := List.replicate (1 + 1) none, data := List.replicate 4 0,
          data_index := 0, arg_index := 0 } = some st ∧
      st.arg_index = 1 ∧ st.data_index = 4 ∧
      st.argv.length = 1 + 1 ∧ st.data.length = 4 ∧ st.argv[1]? = some none) ∧
    (∃ st, pass2 NARGV_DEFAULT_IFS ([97, 92, 32, 39, 98, 39] ++ [0]) false
        { argv := List.replicate 1 none, data := List.replicate 4 0,
          data_index := 0, arg_index := 0 } = some st ∧
      st.arg_index = 1 ∧ st.data_index = 4) ∧
    (pass2_traced NARGV_DEFAULT_IFS ([97, 92, 32, 39, 98, 39] ++ [0]) 0 false
        { argv := List.replicate (1 + 1) none, data := List.replicate 4 0,
          data_index := 0, arg_index := 0 }).2 =
      (pass1_traced NARGV_DEFAULT_IFS ([97, 92, 32, 39, 98, 39] ++ [0]) 0 false NARGV.zero).2 :=
  passes_agree NARGV_DEFAULT_IFS [97, 92, 32, 39, 98, 39] false
    { NARGV.zero with argc := 1, data_length := 4 }
    (by rw [pass1_input]; rfl)

/-! ## Reads past the terminator -/

/-- C14 (defect in the code): on the two byte input double quote, back slash the
first pass reads the positions 0, 1, 2 and then 3, one past the terminator at
position 2, and `nargv_parse` is a fault. -/
theorem scan_reads_past_terminator :
    pass1_traced NARGV_DEFAULT_IFS ([34, 92] ++ [0]) 0 false NARGV.zero =
      (Pass1.fault, [0, 1, 2, 3]) ∧
    nargv_parse NARGV_DEFAULT_IFS (some [34, 92]) = none :=
  ⟨by rfl, by rfl⟩

/-! ## Empty arguments -/

theorem step_esc_byte (ifs : List Nat) (a : Lex) (c : Nat)
    (h : (a.step ifs c).mode = Mode.esc) : c = 92 ∨ a.mode = Mode.err3 ∨ a.mode = Mode.err4 := by
  cases hm : a.mode <;> simp only [Lex.step, hm] at h <;> (try split_ifs at h) <;> simp_all

theorem run_esc_last (ifs : List Nat) (s : List Nat) (hz : ∀ c ∈ s, c ≠ 0)
    (h : (Lex.init.run ifs s).mode = Mode.esc) : s.getLast? = some 92 := by
  rcases List.eq_nil_or_concat s with e | ⟨p, c, e⟩
  · subst e; simp [run_nil, Lex.init] at h
  · subst e
    rw [List.concat_eq_append] at h hz ⊢
    rw [run_append, run_cons, run_nil] at h
    have hok := run_ok ifs p Lex.init (fun d hd => hz d (List.mem_append_left _ hd)) init_ok
    rcases step_esc_byte ifs _ c h with hc | hc | hc
    · simp [hc]
    · exact absurd hc hok.2.1
    · exact absurd hc hok.2.2.1

theorem step_nonempty (ifs : List Nat) (a : Lex) (c : Nat) (hc : c ≠ 34 ∧ c ≠ 39)
    (h : (∀ t ∈ a.toks, t ≠ []) ∧ (a.mode = Mode.word → a.cur ≠ []) ∧
      (a.mode = Mode.idle ∨ a.mode = Mode.word ∨ a.mode = Mode.esc)) :
    (∀ t ∈ (a.step ifs c).toks, t ≠ []) ∧
      ((a.step ifs c).mode = Mode.word → (a.step ifs c).cur ≠ []) ∧
      ((a.step ifs c).mode = Mode.idle ∨ (a.step ifs c).mode = Mode.word ∨
        (a.step ifs c).mode = Mode.esc) := by
  obtain ⟨h1, h2, h3⟩ := h
  obtain ⟨c34, c39⟩ := hc
  rcases h3 with hm | hm | hm <;> simp only [Lex.step, hm] <;> split_ifs <;>
    simp_all [List.mem_append]
  intro t ht
  rcases ht with ht | ht
  · exact h1 t ht
  · subst ht; exact h2

theorem run_nonempty (ifs : List Nat) (s : List Nat) :
    (∀ c ∈ s, c ≠ 34 ∧ c ≠ 39) → ∀ a : Lex,
    ((∀ t ∈ a.toks, t ≠ []) ∧ (a.mode = Mode.word → a.cur ≠ []) ∧
      (a.mode = Mode.idle ∨ a.mode = Mode.word ∨ a.mode = Mode.esc)) →
    (∀ t ∈ (a.run ifs s).toks, t ≠ []) ∧
      ((a.run ifs s).mode = Mode.word → (a.run ifs s).cur ≠ []) ∧
      ((a.run ifs s).mode = Mode.idle ∨ (a.run ifs s).mode = Mode.word ∨
        (a.run ifs s).mode = Mode.esc) := by
  induction s with
  | nil => intro _ a h; exact h
  | cons c s ih =>
    intro hs a h
    rw [run_cons]
    exact ih (fun d hd => hs d (List.mem_cons_of_mem _ hd)) _
      (step_nonempty ifs a c (hs c (List.mem_cons_self _ _)) h)

/-- C11, the claim as stated fails: the input of one back slash holds no quote
byte and parses, under the default separators, with error code 0 to one
argument that is the empty string. -/
theorem empty_argument_without_quote :
    (∀ c ∈ ([92] : List Nat), c ≠ 34 ∧ c ≠ 39) ∧
    ∃ r args, nargv_parse NARGV_DEFAULT_IFS (some [92]) = some r ∧ r.error_code = 0 ∧
      r.argc = 1 ∧ r.arguments = some args ∧ [] ∈ args := by
  refine ⟨by decide, success [[]], [[]], ?_, rfl, rfl, arguments_success _ (by decide), by simp⟩
  rw [nargv_parse_finish _ _ (by decide) (by decide)]
  rfl

theorem step_esc_from (ifs : List Nat) (a : Lex) (c : Nat)
    (hm : a.mode = Mode.idle ∨ a.mode = Mode.word ∨ a.mode = Mode.esc)
    (h : (a.step ifs c).mode = Mode.esc) :
    (a.mode = Mode.idle ∨ a.mode = Mode.word) ∧ c = 92 ∧
      nargv_field_seperator ifs 92 = false ∧ (a.step ifs c).cur = a.cur := by
  rcases hm with hm | hm | hm <;> simp only [Lex.step, hm] at h ⊢ <;> split_ifs at h ⊢ <;>
    simp_all

theorem step_idle_from (ifs : List Nat) (a : Lex) (c : Nat)
    (hm : a.mode = Mode.idle ∨ a.mode = Mode.word ∨ a.mode = Mode.esc)
    (h : (a.step ifs c).mode = Mode.idle) :
    (a.mode = Mode.idle ∨ a.mode = Mode.word) ∧ nargv_field_seperator ifs c = true := by
  rcases hm with hm | hm | hm <;> simp only [Lex.step, hm] at h ⊢ <;> split_ifs at h ⊢ <;>
    simp_all

/-- On text without NUL and quote bytes the scan ends on a pending escape with
nothing composed yet exactly when the text ends in a back slash that begins an
argument: the back slash is no separator and it is the whole text or follows a
separator that is read with no escape pending. -/
theorem run_esc_empty_iff (ifs s : List Nat) (hz : ∀ c ∈ s, c ≠ 0)
    (hq : ∀ c ∈ s, c ≠ 34 ∧ c ≠ 39) :
    ((Lex.init.run ifs s).mode = Mode.esc ∧ (Lex.init.run ifs s).cur = []) ↔
      (nargv_field_seperator ifs 92 = false ∧
        (s = [92] ∨ ∃ p c, s = p ++ [c, 92] ∧ Outside ifs p ∧
          nargv_field_seperator ifs c = true)) := by
  have hinit : (∀ t ∈ Lex.init.toks, t ≠ []) ∧ (Lex.init.mode = Mode.word → Lex.init.cur ≠ []) ∧
      (Lex.init.mode = Mode.idle ∨ Lex.init.mode = Mode.word ∨ Lex.init.mode = Mode.esc) := by
    simp [Lex.init]
  constructor
  · rintro ⟨hm, hcur⟩
    rcases List.eq_nil_or_concat s with e | ⟨pre, x, e⟩
    · subst e; simp [run_nil, Lex.init] at hm
    · subst e
      rw [List.concat_eq_append] at hm hcur hz hq ⊢
      rw [run_append, run_cons, run_nil] at hm hcur
      have hzpre : ∀ d ∈ pre, d ≠ 0 := fun d hd => hz d (List.mem_append_left _ hd)
      have hqpre : ∀ d ∈ pre, d ≠ 34 ∧ d ≠ 39 := fun d hd => hq d (List.mem_append_left _ hd)
      obtain ⟨_, n2, n3⟩ := run_nonempty ifs pre hqpre Lex.init hinit
      obtain ⟨hmode, hx, h92, hc⟩ := step_esc_from ifs _ x n3 hm
      rw [hc] at hcur
      have hidle : (Lex.init.run ifs pre).mode = Mode.idle := by
        rcases hmode with h | h
        · exact h
        · exact absurd hcur (n2 h)
      subst hx
      refine ⟨h92, ?_⟩
      rcases List.eq_nil_or_concat pre with e | ⟨p, c, e⟩
      · subst e; exact Or.inl rfl
      · subst e
        rw [List.concat_eq_append] at hidle hzpre hqpre ⊢
        rw [run_append, run_cons, run_nil] at hidle
        have hzp : ∀ d ∈ p, d ≠ 0 := fun d hd => hzpre d (List.mem_append_left _ hd)
        have hqp : ∀ d ∈ p, d ≠ 34 ∧ d ≠ 39 := fun d hd => hqpre d (List.mem_append_left _ hd)
        obtain ⟨_, _, m3⟩ := run_nonempty ifs p hqp Lex.init hinit
        obtain ⟨hmp, hsep⟩ := step_idle_from ifs _ c m3 hidle
        exact Or.inr ⟨p, c, by simp, (outside_iff ifs p hzp).mpr hmp, hsep⟩
  · rintro ⟨h92, hs | ⟨p, c, hs, hout, hsep⟩⟩
    · subst hs
      simp [Lex.run, Lex.step, Lex.init, h92]
    · subst hs
      have hzp : ∀ d ∈ p, d ≠ 0 := fun d hd => hz d (List.mem_append_left _ hd)
      have hmp := (outside_iff ifs p hzp).mp hout
      have hok := run_ok ifs p Lex.init hzp init_ok
      rw [run_append, run_cons, run_cons, run_nil]
      generalize Lex.init.run ifs p = a at hmp hok
      obtain ⟨h1, _⟩ := hok
      rcases hmp with hm | hm
      · simp [Lex.step, hm, hsep, h92, h1 hm]
      · simp [Lex.step, hm, hsep, h92]

/-- C11, amended: under the default separators the inputs of two double quotes
and of two single quotes parse with error code 0, `argc = 1`, `data_length = 1`
and one empty argument; and for every separator set, when a NUL free input that
holds no quote byte parses with error code 0, no argument but the last is empty,
and an argument is empty exactly when the input ends in a back slash that begins
an argument: the back slash is no separator, and it is the whole input or it
follows a separator byte before which the text leaves no escape pending. -/
theorem empty_arguments_from_quotes :
    (∃ r, nargv_parse NARGV_DEFAULT_IFS (some [34, 34]) = some r ∧ r.error_code = 0 ∧
      r.argc = 1 ∧ r.data_length = 1 ∧ r.arguments = some [[]]) ∧
    (∃ r, nargv_parse NARGV_DEFAULT_IFS (some [39, 39]) = some r ∧ r.error_code = 0 ∧
      r.argc = 1 ∧ r.data_length = 1 ∧ r.arguments = some [[]]) ∧
    (∀ (ifs s : List Nat) (r : NARGV) (args : List (List Nat)),
      (∀ c ∈ s, c ≠ 0) → (∀ c ∈ s, c ≠ 34 ∧ c ≠ 39) →
      nargv_parse ifs (some s) = some r → r.error_code = 0 → r.arguments = some args →
      (∀ t ∈ args.dropLast, t ≠ []) ∧
      ([] ∈ args ↔
        (nargv_field_seperator ifs 92 = false ∧
          (s = [92] ∨ ∃ p c, s = p ++ [c, 92] ∧ Outside ifs p ∧
            nargv_field_seperator ifs c = true)))) := by
  refine ⟨⟨success [[]], ?_, rfl, rfl, rfl, arguments_success _ (by decide)⟩,
    ⟨success [[]], ?_, rfl, rfl, rfl, arguments_success _ (by decide)⟩, ?_⟩
  · rw [nargv_parse_finish _ _ (by decide) (by decide)]; rfl
  · rw [nargv_parse_finish _ _ (by decide) (by decide)]; rfl
  · intro ifs s r args hz hq hp he hargs
    by_cases hs : s = []
    · subst hs
      simp [nargv_parse, NARGV.zero] at hp
      subst hp
      simp at he
    · rw [nargv_parse_finish ifs s hs hz] at hp
      have hok := run_ok ifs s Lex.init hz init_ok
      obtain ⟨A, hr, hA0, hA⟩ := finish_success _ hok r hp he
      obtain ⟨n1, n2, _⟩ := run_nonempty ifs s hq Lex.init (by simp [Lex.init])
      rw [hr, arguments_success A hA0] at hargs
      cases hargs
      constructor
      · intro t ht
        rcases hA with ⟨_, hA⟩ | ⟨_, hA⟩
        · subst hA; exact n1 t (List.mem_of_mem_dropLast ht)
        · subst hA
          rw [List.dropLast_concat] at ht
          exact n1 t ht
      · rw [← run_esc_empty_iff ifs s hz hq]
        constructor
        · intro hmem
          rcases hA with ⟨_, hA⟩ | ⟨hm | hm, hA⟩
          · subst hA; exact absurd rfl (n1 [] hmem)
          · subst hA
            rcases List.mem_append.mp hmem with hmem | hmem
            · exact absurd rfl (n1 [] hmem)
            · exact absurd (List.mem_singleton.mp hmem).symm (n2 hm)
          · subst hA
            rcases List.mem_append.mp hmem with hmem | hmem
            · exact absurd rfl (n1 [] hmem)
            · exact ⟨hm, (List.mem_singleton.mp hmem).symm⟩
        · rintro ⟨hm, hcur⟩
          rcases hA with ⟨hi, _⟩ | ⟨hw | _, hA⟩
          · rw [hm] at hi; cases hi
          · rw [hm] at hw; cases hw
          · subst hA
            rw [hcur]
            simp

theorem empty_arguments_from_quotes_witness :
    (∀ c ∈ ([97, 32, 92] : List Nat), c ≠ 0) ∧
    (∀ c ∈ ([97, 32, 92] : List Nat), c ≠ 34 ∧ c ≠ 39) ∧
    nargv_parse NARGV_DEFAULT_IFS (some [97, 32, 92]) = some (success [[97], []]) ∧
    (∀ t ∈ ([[97], []] : List (List Nat)).dropLast, t ≠ []) ∧
    ([] ∈ ([[97], []] : List (List Nat)) ↔
      (nargv_field_seperator NARGV_DEFAULT_IFS 92 = false ∧
        (([97, 32, 92] : List Nat) = [92] ∨ ∃ p c, ([97, 32, 92] : List Nat) = p ++ [c, 92] ∧
          Outside NARGV_DEFAULT_IFS p ∧ nargv_field_seperator NARGV_DEFAULT_IFS c = true))) :=
  have hp : nargv_parse NARGV_DEFAULT_IFS (some [97, 32, 92]) =
      some (success [[97], []]) := by
    rw [nargv_parse_finish _ _ (by decide) (by decide)]; rfl
  ⟨by decide, by decide, hp,
    empty_arguments_from_quotes.2.2 NARGV_DEFAULT_IFS [97, 32, 92] _ _ (by decide)
      (by decide) hp rfl (arguments_success _ (by decide))⟩

/-! ## Reads stay inside the input unless the scan faults -/

theorem reads_in_bounds (ifs : List Nat) (n : Nat) :
    ∀ rest : List Nat, rest.length ≤ n →
    (∀ i c nvp, (pass1_traced ifs rest i c nvp).1 ≠ Pass1.fault →
      ∀ p ∈ (pass1_traced ifs rest i c nvp).2, p < i + rest.length) ∧
    (∀ q i nvp, (pass1_dquote_traced ifs rest q i nvp).1 ≠ Pass1.fault →
      ∀ p ∈ (pass1_dquote_traced ifs rest q i nvp).2, p < i + rest.length) ∧
    (∀ q i nvp, (pass1_squote_traced ifs rest q i nvp).1 ≠ Pass1.fault →
      ∀ p ∈ (pass1_squote_traced ifs rest q i nvp).2, p < i + rest.length) := by
  induction n with
  | zero =>
    intro rest hlen
    have : rest = [] := List.length_eq_zero.mp (Nat.le_zero.mp hlen)
    subst this
    refine ⟨?_, ?_, ?_⟩
    · intro i c nvp _ p hp; simp [pass1_traced_nil] at hp
    · intro q i nvp h; exact absurd rfl h
    · intro q i nvp h; exact absurd rfl h
  | succ n ih =>
    intro rest hlen
    cases rest with
    | nil =>
      refine ⟨?_, ?_, ?_⟩
      · intro i c nvp _ p hp; simp [pass1_traced_nil] at hp
      · intro q i nvp h; exact absurd rfl h
      · intro q i nvp h; exact absurd rfl h
    | cons c rest =>
      have hlen1 : rest.length ≤ n := by simpa using hlen
      obtain ⟨k1, k2, k3⟩ := ih rest hlen1
      refine ⟨?_, ?_, ?_⟩
      · intro i c' nvp h p hp
        rw [pass1_traced_cons] at h hp
        rw [visit_fst] at h
        rw [visit_snd, List.mem_cons] at hp
        simp only [List.length_cons]
        rcases hp with hp | hp
        · omega
        · by_cases hsep : nargv_field_seperator ifs c = true
          · simp only [hsep, if_true] at h hp
            cases c' with
            | false =>
              simp only [Bool.false_eq_true, if_false] at h hp
              have := k1 _ _ _ h p hp
              omega
            | true =>
              simp only [if_true] at h hp
              have := k1 _ _ _ h p hp
              omega
          · simp only [hsep, Bool.false_eq_true, if_false] at h hp
            by_cases h92 : c = 92
            · simp only [h92, if_true] at h hp
              rw [visit_fst] at h
              rw [visit_snd, List.mem_cons] at hp
              cases rest with
              | nil => exact absurd rfl h
              | cons la rest2 =>
                have hlen2 : rest2.length ≤ n := by
                  simp only [List.length_cons] at hlen1; omega
                obtain ⟨j1, _, _⟩ := ih rest2 hlen2
                simp only [List.length_cons]
                rcases hp with hp | hp
                · omega
                · simp only [] at h hp
                  by_cases hla : la = 34 ∨ la = 39 ∨ nargv_field_seperator ifs la = true
                  · simp only [if_pos hla] at h hp
                    have := j1 _ _ _ h p hp
                    omega
                  · simp only [if_neg hla] at h hp
                    have := j1 _ _ _ h p hp
                    omega
            · simp only [h92, if_false] at h hp
              by_cases h34 : c = 34
              · simp only [h34, if_true] at h hp
                have := k2 _ _ _ h p hp
                omega
              · simp only [h34, if_false] at h hp
                by_cases h39 : c = 39
                · simp only [h39, if_true] at h hp
                  have := k3 _ _ _ h p hp
                  omega
                · simp only [h39, if_false] at h hp
                  have := k1 _ _ _ h p hp
                  omega
      · intro q i nvp h p hp
        rw [pass1_dquote_traced_cons] at h hp
        rw [visit_fst] at h
        rw [visit_snd, List.mem_cons] at hp
        simp only [List.length_cons]
        rcases hp with hp | hp
        · omega
        · by_cases h34 : c = 34
          · simp only [h34, if_true] at h hp
            have := k1 _ _ _ h p hp
            omega
          · simp only [h34, if_false] at h hp
            by_cases h0 : c = 0
            · simp only [h0, if_true] at hp
              simp at hp
            · simp only [h0, if_false] at h hp
              by_cases h92 : c = 92
              · simp only [h92, if_true] at h hp
                rw [visit_fst] at h
                rw [visit_snd, List.mem_cons] at hp
                cases rest with
                | nil => exact absurd rfl h
                | cons la rest2 =>
                  have hlen2 : rest2.length ≤ n := by
                    simp only [List.length_cons] at hlen1; omega
                  obtain ⟨_, j2, _⟩ := ih rest2 hlen2
                  simp only [List.length_cons]
                  rcases hp with hp | hp
                  · omega
                  · simp only [] at h hp
                    by_cases hla : la = 34
                    · simp only [if_pos hla] at h hp
                      have := j2 _ _ _ h p hp
                      omega
                    · simp only [if_neg hla] at h hp
                      have := j2 _ _ _ h p hp
                      omega
              · simp only [h92, if_false] at h hp
                have := k2 _ _ _ h p hp
                omega
      · intro q i nvp h p hp
        rw [pass1_squote_traced_cons] at h hp
        rw [visit_fst] at h
        rw [visit_snd, List.mem_cons] at hp
        simp only [List.length_cons]
        rcases hp with hp | hp
        · omega
        · by_cases h39 : c = 39
          · simp only [h39, if_true] at h hp
            have := k1 _ _ _ h p hp
            omega
          · simp only [h39, if_false] at h hp
            by_cases h0 : c = 0
            · simp only [h0, if_true] at hp
              simp at hp
            · simp only [h0, if_false] at h hp
              have := k3 _ _ _ h p hp
              omega

/-- Whenever `nargv_parse` returns a result, every position the first pass reads
is at most the length of the input, the position of the terminator. -/
theorem reads_bounded_of_result (ifs s : List Nat) (r : NARGV) (hs : s ≠ [])
    (h : nargv_parse ifs (some s) = some r) :
    ∀ p ∈ (pass1_traced ifs (s ++ [0]) 0 false NARGV.zero).2, p ≤ s.length := by
  intro p hp
  have hne : (pass1_traced ifs (s ++ [0]) 0 false NARGV.zero).1 ≠ Pass1.fault := by
    rw [(pass1_traced_fst ifs _ (s ++ [0]) (Nat.le_refl _)).1]
    intro hf
    have hlen : s.length ≠ 0 := fun e => hs (List.length_eq_zero.mp e)
    simp [nargv_parse, hlen, hf] at h
  have := (reads_in_bounds ifs _ (s ++ [0]) (Nat.le_refl _)).1 0 false NARGV.zero hne p hp
  simp only [List.length_append, List.length_singleton] at this
  omega

/-! ## The scan over the array that holds the input -/

theorem pass1_mem_nil (ifs : List Nat) (n index : Nat) (composing_argument : Bool)
    (nvp : NARGV) :
    pass1_mem ifs n [] index composing_argument nvp =
      if index ≤ n then Pass1.fault else Pass1.completed composing_argument nvp := rfl

theorem pass1_mem_cons (ifs : List Nat) (n : Nat) (c : Nat) (rest : List Nat)
    (index : Nat) (composing_argument : Bool) (nvp : NARGV) :
    pass1_mem ifs n (c :: rest) index composing_argument nvp =
      if index ≤ n then
        if nargv_field_seperator ifs c then
          if composing_argument then
            pass1_mem ifs n rest (index + 1) false
              { nvp with data_length := nvp.data_length + 1 }
          else
            pass1_mem ifs n rest (index + 1) composing_argument nvp
        else
          let nvp := if !composing_argument then { nvp with argc := nvp.argc + 1 } else nvp
          if c = 92 then
            match rest with
            | [] => Pass1.fault
            | look_ahead :: rest2 =>
              if look_ahead = 34 ∨ look_ahead = 39 ∨ nargv_field_seperator ifs look_ahead then
                pass1_mem ifs n rest2 (index + 2) true
                  { nvp with data_length := nvp.data_length + 1 }
              else
                pass1_mem ifs n rest2 (index + 2) true
                  { nvp with data_length := nvp.data_length + 1 + 1 }
          else if c = 34 then
            pass1_dquote_mem ifs n rest index (index + 1) nvp
          else if c = 39 then
            pass1_squote_mem ifs n rest index (index + 1) nvp
          else
            pass1_mem ifs n rest (index + 1) true
              { nvp with data_length := nvp.data_length + 1 }
      else Pass1.completed composing_argument nvp := by
  cases rest <;> rfl

theorem pass1_dquote_mem_nil (ifs : List Nat) (n quote index : Nat) (nvp : NARGV) :
    pass1_dquote_mem ifs n [] quote index nvp = Pass1.fault := rfl

theorem pass1_dquote_mem_cons (ifs : List Nat) (n : Nat) (c : Nat) (rest : List Nat)
    (quote index : Nat) (nvp : NARGV) :
    pass1_dquote_mem ifs n (c :: rest) quote index nvp =
      if c = 34 then
        pass1_mem ifs n rest (index + 1) true nvp
      else if c = 0 then
        Pass1.returned { nvp with error_index := quote + 1, error_code := 3,
                                  error_message := some "unterminated double quote" }
      else if c = 92 then
        match rest with
        | [] => Pass1.fault
        | look_ahead :: rest2 =>
          if look_ahead = 34 then
            pass1_dquote_mem ifs n rest2 quote (index + 2)
              { nvp with data_length := nvp.data_length + 1 }
          else
            pass1_dquote_mem ifs n rest2 quote (index + 2)
              { nvp with data_length := nvp.data_length + 1 + 1 }
      else
        pass1_dquote_mem ifs n rest quote (index + 1)
          { nvp with data_length := nvp.data_length + 1 } := by
  cases rest <;> rfl

theorem pass1_squote_mem_nil (ifs : List Nat) (n quote index : Nat) (nvp : NARGV) :
    pass1_squote_mem ifs n [] quote index nvp = Pass1.fault := rfl

theorem pass1_squote_mem_cons (ifs : List Nat) (n : Nat) (c : Nat) (rest : List Nat)
    (quote index : Nat) (nvp : NARGV) :
    pass1_squote_mem ifs n (c :: rest) quote index nvp =
      if c = 39 then
        pass1_mem ifs n rest (index + 1) true nvp
      else if c = 0 then
        Pass1.returned { nvp with error_index := quote + 1, error_code := 4,
                                  error_message := some "unterminated single quote" }
      else
        pass1_squote_mem ifs n rest quote (index + 1)
          { nvp with data_length := nvp.data_length + 1 } := by
  cases rest <;> rfl

theorem pass2_mem_nil (ifs : List Nat) (n index : Nat) (composing_argument : Bool)
    (st : Pass2) :
    pass2_mem ifs n [] index composing_argument st =
      if index ≤ n then none else some st := rfl

theorem pass2_mem_cons (ifs : List Nat) (n : Nat) (c : Nat) (rest : List Nat)
    (index : Nat) (composing_argument : Bool) (st : Pass2) :
    pass2_mem ifs n (c :: rest) index composing_argument st =
      if index ≤ n then
        if nargv_field_seperator ifs c then
          if composing_argument then
            (st.put 0).bind fun st => pass2_mem ifs n rest (index + 1) false st
          else
            pass2_mem ifs n rest (index + 1) composing_argument st
        else
          (if !composing_argument then st.mark else some st).bind fun st =>
          if c = 92 then
            match rest with
            | [] => none
            | look_ahead :: rest2 =>
              if look_ahead = 34 ∨ look_ahead = 39 ∨ nargv_field_seperator ifs look_ahead then
                (st.put look_ahead).bind fun st => pass2_mem ifs n rest2 (index + 2) true st
              else
                (st.put c).bind fun st => (st.put look_ahead).bind fun st =>
                  pass2_mem ifs n rest2 (index + 2) true st
          else if c = 34 then
            pass2_dquote_mem ifs n rest (index + 1) st
          else if c = 39 then
            pass2_squote_mem ifs n rest (index + 1) st
          else
            (st.put c).bind fun st => pass2_mem ifs n rest (index + 1) true st
      else some st := by
  cases rest <;> rfl

theorem pass2_dquote_mem_nil (ifs : List Nat) (n index : Nat) (st : Pass2) :
    pass2_dquote_mem ifs n [] index st = none := rfl

theorem pass2_dquote_mem_cons (ifs : List Nat) (n : Nat) (c : Nat) (rest : List Nat)
    (index : Nat) (st : Pass2) :
    pass2_dquote_mem ifs n (c :: rest) index st =
      if c = 34 then
        pass2_mem ifs n rest (index + 1) true st
      else if c = 92 then
        match rest with
        | [] => none
        | look_ahead :: rest2 =>
          if look_ahead = 34 then
            (st.put look_ahead).bind fun st => pass2_dquote_mem ifs n rest2 (index + 2) st
          else
            (st.put c).bind fun st => (st.put look_ahead).bind fun st =>
              pass2_dquote_mem ifs n rest2 (index + 2) st
      else
        (st.put c).bind fun st => pass2_dquote_mem ifs n rest (index + 1) st := by
  cases rest <;> rfl

theorem pass2_squote_mem_nil (ifs : List Nat) (n index : Nat) (st : Pass2) :
    pass2_squote_mem ifs n [] index st = none := rfl

theorem pass2_squote_mem_cons (ifs : List Nat) (n : Nat) (c : Nat) (rest : List Nat)
    (index : Nat) (st : Pass2) :
    pass2_squote_mem ifs n (c :: rest) index st =
      if c = 39 then
        pass2_mem ifs n rest (index + 1) true st
      else
        (st.put c).bind fun st => pass2_squote_mem ifs n rest (index + 1) st := by
  cases rest <;> rfl

theorem pass1_mem_done (ifs : List Nat) (n : Nat) (mem : List Nat) (index : Nat)
    (composing_argument : Bool) (nvp : NARGV) (h : n < index) :
    pass1_mem ifs n mem index composing_argument nvp =
      Pass1.completed composing_argument nvp := by
  cases mem with
  | nil => rw [pass1_mem_nil, if_neg (by omega)]
  | cons c rest => rw [pass1_mem_cons, if_neg (by omega)]

theorem pass2_mem_done (ifs : List Nat) (n : Nat) (mem : List Nat) (index : Nat)
    (composing_argument : Bool) (st : Pass2) (h : n < index) :
    pass2_mem ifs n mem index composing_argument st = some st := by
  cases mem with
  | nil => rw [pass2_mem_nil, if_neg (by omega)]
  | cons c rest => rw [pass2_mem_cons, if_neg (by omega)]

theorem strlen_append (s tail : List Nat) (hz : ∀ c ∈ s, c ≠ 0) :
    strlen (s ++ 0 :: tail) = some s.length := by
  induction s with
  | nil => simp [strlen]
  | cons c s ih =>
    have hc : c ≠ 0 := hz c (List.mem_cons_self _ _)
    simp [strlen, hc, ih fun d hd => hz d (List.mem_cons_of_mem _ hd)]

/-- Where the first pass over the string alone does not read behind the
terminator, the first pass over an array that starts with the string and its
terminator returns the same. -/
theorem pass1_mem_inside (ifs : List Nat) (n : Nat) (tail : List Nat) (k : Nat) :
    ∀ rest : List Nat, rest.length ≤ k →
    (∀ i c nvp, i + rest.length = n + 1 → pass1 ifs rest i c nvp ≠ Pass1.fault →
      pass1_mem ifs n (rest ++ tail) i c nvp = pass1 ifs rest i c nvp) ∧
    (∀ q i nvp, i + rest.length = n + 1 → pass1_dquote ifs rest q i nvp ≠ Pass1.fault →
      pass1_dquote_mem ifs n (rest ++ tail) q i nvp = pass1_dquote ifs rest q i nvp) ∧
    (∀ q i nvp, i + rest.length = n + 1 → pass1_squote ifs rest q i nvp ≠ Pass1.fault →
      pass1_squote_mem ifs n (rest ++ tail) q i nvp = pass1_squote ifs rest q i nvp) := by
  induction k with
  | zero =>
    intro rest hlen
    have : rest = [] := List.length_eq_zero.mp (Nat.le_zero.mp hlen)
    subst this
    refine ⟨?_, ?_, ?_⟩
    · intro i c nvp hi _
      simp only [List.length_nil, Nat.add_zero] at hi
      rw [List.nil_append, pass1_mem_done ifs n tail i c nvp (by omega), pass1_nil]
    · intro q i nvp _ h; exact absurd (pass1_dquote_nil ifs q i nvp) h
    · intro q i nvp _ h; exact absurd (pass1_squote_nil ifs q i nvp) h
  | succ k ih =>
    intro rest hlen
    cases rest with
    | nil =>
      refine ⟨?_, ?_, ?_⟩
      · intro i c nvp hi _
        simp only [List.length_nil, Nat.add_zero] at hi
        rw [List.nil_append, pass1_mem_done ifs n tail i c nvp (by omega), pass1_nil]
      · intro q i nvp _ h; exact absurd (pass1_dquote_nil ifs q i nvp) h
      · intro q i nvp _ h; exact absurd (pass1_squote_nil ifs q i nvp) h
    | cons c rest =>
      have hlen1 : rest.length ≤ k := by simpa using hlen
      obtain ⟨k1, k2, k3⟩ := ih rest hlen1
      refine ⟨?_, ?_, ?_⟩
      · intro i c' nvp hi hne
        simp only [List.length_cons] at hi
        rw [List.cons_append, pass1_mem_cons, if_pos (by omega), pass1_cons]
        rw [pass1_cons] at hne
        cases rest with
        | nil =>
          simp only [List.length_nil] at hi
          split_ifs at hne ⊢ <;>
            first
            | exact absurd rfl hne
            | exact k1 _ _ _ (by simp; omega) hne
        | cons la rest2 =>
          have hlen2 : rest2.length ≤ k := by simp only [List.length_cons] at hlen1; omega
          obtain ⟨j1, _, _⟩ := ih rest2 hlen2
          simp only [List.length_cons] at hi
          simp only [List.cons_append]
          split_ifs at hne ⊢ <;>
            first
            | exact k1 _ _ _ (by simp only [List.length_cons]; omega) hne
            | exact k2 _ _ _ (by simp only [List.length_cons]; omega) hne
            | exact k3 _ _ _ (by simp only [List.length_cons]; omega) hne
            | (dsimp only at hne ⊢; split_ifs at hne ⊢; exact j1 _ _ _ (by omega) hne)
      · intro q i nvp hi hne
        simp only [List.length_cons] at hi
        rw [List.cons_append, pass1_dquote_mem_cons, pass1_dquote_cons]
        rw [pass1_dquote_cons] at hne
        cases rest with
        | nil =>
          simp only [List.length_nil] at hi
          split_ifs at hne ⊢ <;>
            first
            | rfl
            | exact absurd rfl hne
            | exact k1 _ _ _ (by simp; omega) hne
        | cons la rest2 =>
          have hlen2 : rest2.length ≤ k := by simp only [List.length_cons] at hlen1; omega
          obtain ⟨_, j2, _⟩ := ih rest2 hlen2
          simp only [List.length_cons] at hi
          simp only [List.cons_append]
          split_ifs at hne ⊢ <;>
            first
            | rfl
            | exact k1 _ _ _ (by simp only [List.length_cons]; omega) hne
            | exact k2 _ _ _ (by simp only [List.length_cons]; omega) hne
            | (dsimp only at hne ⊢; split_ifs at hne ⊢; exact j2 _ _ _ (by omega) hne)
      · intro q i nvp hi hne
        simp only [List.length_cons] at hi
        rw [List.cons_append, pass1_squote_mem_cons, pass1_squote_cons]
        rw [pass1_squote_cons] at hne
        split_ifs at hne ⊢ <;>
          first
          | rfl
          | exact k1 _ _ _ (by omega) hne
          | exact k3 _ _ _ (by omega) hne


theorem bind_eq_of_ne_none {α β : Type} (w : Option α) (f g : α → Option β)
    (h : ∀ a, g a ≠ none → f a = g a) (hne : w.bind g ≠ none) : w.bind f = w.bind g := by
  cases w with
  | none => rfl
  | some a => exact h a hne

/-- Where the second pass over the string alone returns buffers, the second pass
over an array that starts with the string and its terminator returns the same
buffers. -/
theorem pass2_mem_inside (ifs : List Nat) (n : Nat) (tail : List Nat) (k : Nat) :
    ∀ rest : List Nat, rest.length ≤ k →
    (∀ i c st, i + rest.length = n + 1 → pass2 ifs rest c st ≠ none →
      pass2_mem ifs n (rest ++ tail) i c st = pass2 ifs rest c st) ∧
    (∀ i st, i + rest.length = n + 1 → pass2_dquote ifs rest st ≠ none →
      pass2_dquote_mem ifs n (rest ++ tail) i st = pass2_dquote ifs rest st) ∧
    (∀ i st, i + rest.length = n + 1 → pass2_squote ifs rest st ≠ none →
      pass2_squote_mem ifs n (rest ++ tail) i st = pass2_squote ifs rest st) := by
  induction k with
  | zero =>
    intro rest hlen
    have : rest = [] := List.length_eq_zero.mp (Nat.le_zero.mp hlen)
    subst this
    refine ⟨?_, ?_, ?_⟩
    · intro i c st hi _
      simp only [List.length_nil, Nat.add_zero] at hi
      rw [List.nil_append, pass2_mem_done ifs n tail i c st (by omega), pass2_nil]
    · intro i st _ h; exact absurd (pass2_dquote_nil ifs st) h
    · intro i st _ h; exact absurd (pass2_squote_nil ifs st) h
  | succ k ih =>
    intro rest hlen
    cases rest with
    | nil =>
      refine ⟨?_, ?_, ?_⟩
      · intro i c st hi _
        simp only [List.length_nil, Nat.add_zero] at hi
        rw [List.nil_append, pass2_mem_done ifs n tail i c st (by omega), pass2_nil]
      · intro i st _ h; exact absurd (pass2_dquote_nil ifs st) h
      · intro i st _ h; exact absurd (pass2_squote_nil ifs st) h
    | cons c rest =>
      have hlen1 : rest.length ≤ k := by simpa using hlen
      obtain ⟨k1, k2, k3⟩ := ih rest hlen1
      refine ⟨?_, ?_, ?_⟩
      · intro i c' st hi hne
        simp only [List.length_cons] at hi
        rw [List.cons_append, pass2_mem_cons, if_pos (by omega), pass2_cons]
        rw [pass2_cons] at hne
        by_cases hsep : nargv_field_seperator ifs c = true
        · simp only [hsep, if_true] at hne ⊢
          split_ifs at hne ⊢
          · exact bind_eq_of_ne_none _ _ _ (fun st h => k1 _ _ st (by omega) h) hne
          · exact k1 _ _ _ (by omega) hne
        · simp only [hsep, if_false] at hne ⊢
          refine bind_eq_of_ne_none _ _ _ ?_ hne
          intro st1 hne1
          cases rest with
          | nil =>
            simp only [List.length_nil] at hi
            split_ifs at hne1 ⊢ <;>
              first
              | exact absurd rfl hne1
              | exact bind_eq_of_ne_none _ _ _ (fun st h => k1 _ _ st (by simp; omega) h) hne1
          | cons la rest2 =>
            have hlen2 : rest2.length ≤ k := by simp only [List.length_cons] at hlen1; omega
            obtain ⟨j1, _, _⟩ := ih rest2 hlen2
            simp only [List.length_cons] at hi
            simp only [List.cons_append]
            split_ifs at hne1 ⊢ <;>
              first
              | exact k2 _ _ (by simp only [List.length_cons]; omega) hne1
              | exact k3 _ _ (by simp only [List.length_cons]; omega) hne1
              | exact bind_eq_of_ne_none _ _ _
                  (fun st h => k1 _ _ st (by simp only [List.length_cons]; omega) h) hne1
              | (dsimp only at hne1 ⊢; split_ifs at hne1 ⊢
                 first
                 | exact bind_eq_of_ne_none _ _ _ (fun st h => j1 _ _ st (by omega) h) hne1
                 | exact bind_eq_of_ne_none _ _ _ (fun st h => bind_eq_of_ne_none _ _ _
                     (fun st h => j1 _ _ st (by omega) h) h) hne1)
      · intro i st hi hne
        simp only [List.length_cons] at hi
        rw [List.cons_append, pass2_dquote_mem_cons, pass2_dquote_cons]
        rw [pass2_dquote_cons] at hne
        cases rest with
        | nil =>
          simp only [List.length_nil] at hi
          split_ifs at hne ⊢ <;>
            first
            | exact absurd rfl hne
            | exact k1 _ _ _ (by simp; omega) hne
            | exact bind_eq_of_ne_none _ _ _ (fun st h => k2 _ st (by simp; omega) h) hne
        | cons la rest2 =>
          have hlen2 : rest2.length ≤ k := by simp only [List.length_cons] at hlen1; omega
          obtain ⟨_, j2, _⟩ := ih rest2 hlen2
          simp only [List.length_cons] at hi
          simp only [List.cons_append]
          split_ifs at hne ⊢ <;>
            first
            | exact k1 _ _ _ (by simp only [List.length_cons]; omega) hne
            | exact bind_eq_of_ne_none _ _ _
                (fun st h => k2 _ st (by simp only [List.length_cons]; omega) h) hne
            | (dsimp only at hne ⊢; split_ifs at hne ⊢
               first
               | exact bind_eq_of_ne_none _ _ _ (fun st h => j2 _ st (by omega) h) hne
               | exact bind_eq_of_ne_none _ _ _ (fun st h => bind_eq_of_ne_none _ _ _
                   (fun st h => j2 _ st (by omega) h) h) hne)
      · intro i st hi hne
        simp only [List.length_cons] at hi
        rw [List.cons_append, pass2_squote_mem_cons, pass2_squote_cons]
        rw [pass2_squote_cons] at hne
        split_ifs at hne ⊢
        · exact k1 _ _ _ (by omega) hne
        · exact bind_eq_of_ne_none _ _ _ (fun st h => k3 _ st (by omega) h) hne

/-- Where `nargv_parse` over the string alone returns a result, that is, where
the scan stays inside the string, `nargv_parse` over an array that holds the
string, its terminator and any bytes behind it returns the same result. -/
theorem nargv_parse_mem_inside (ifs s tail : List Nat) (r : NARGV) (hz : ∀ c ∈ s, c ≠ 0)
    (h : nargv_parse ifs (some s) = some r) :
    nargv_parse_mem ifs (some (s ++ 0 :: tail)) = some r := by
  have hl := strlen_append s tail hz
  have e : s ++ 0 :: tail = (s ++ [0]) ++ tail := by simp
  by_cases hs : s.length = 0
  · simp only [nargv_parse, hs, if_true] at h
    simp only [nargv_parse_mem, hl, hs, if_true]
    exact h
  · simp only [nargv_parse, hs, if_false] at h
    simp only [nargv_parse_mem, hl, hs, if_false]
    rw [e]
    have hp1 : pass1 ifs (s ++ [0]) 0 false NARGV.zero ≠ Pass1.fault := by
      intro hf
      rw [hf] at h
      cases h
    rw [(pass1_mem_inside ifs s.length tail _ (s ++ [0]) (Nat.le_refl _)).1 0 false NARGV.zero
      (by simp) hp1]
    cases hp : pass1 ifs (s ++ [0]) 0 false NARGV.zero with
    | fault => exact absurd hp hp1
    | returned nvp => rw [hp] at h; exact h
    | completed b nvp =>
      rw [hp] at h
      simp only at h ⊢
      have hp2 : pass2 ifs (s ++ [0]) false
          { argv := List.replicate (nvp.argc + 1) none,
            data := List.replicate nvp.data_length 0, data_index := 0, arg_index := 0 }
            ≠ none := by
        intro hf
        rw [hf] at h
        cases h
      rw [(pass2_mem_inside ifs s.length tail _ (s ++ [0]) (Nat.le_refl _)).1 0 false _
        (by simp) hp2]
      exact h

/-- C2 (defect in the code): the array of the seven bytes double quote, back
slash, NUL, `a`, double quote, newline, NUL holds the two byte string double
quote, back slash, as `line_in` of the test driver does when that line is read
after a longer one.  Under the default separators
`nargv_parse` returns error code 0 on it with `argc = 1` and `data_length = 3`,
while its one argument is the single back slash: the lengths of the arguments
plus one terminator each add up to 2, not to `data_length`.  The scan has read
behind the terminator; on the string alone it is a fault. -/
theorem counts_broken_behind_terminator :
    strlen [34, 92, 0, 97, 34, 10, 0] = some 2 ∧
    nargv_parse NARGV_DEFAULT_IFS (some [34, 92]) = none ∧
    ∃ r args, nargv_parse_mem NARGV_DEFAULT_IFS (some [34, 92, 0, 97, 34, 10, 0]) = some r ∧
      r.error_code = 0 ∧ r.argc = 1 ∧ r.data_length = 3 ∧
      r.argv = some [some 0, none] ∧
      r.arguments = some args ∧ args = [[92]] ∧ args.length = r.argc ∧
      (args.map fun a => a.length + 1).sum = 2 ∧
      (args.map fun a => a.length + 1).sum ≠ r.data_length :=
  ⟨by rfl, by rfl,
    { argv := some [some 0, none], data := some [92, 0, 97], error_message := none,
      argc := 1, data_length := 3, error_index := 0, error_code := 0 },
    [[92]], by rfl, rfl, rfl, rfl, rfl, by rfl, rfl, rfl, by rfl, by decide⟩

/-- C17 (defect in the code): on the array of the seven bytes double quote, back
slash, NUL, `a`, double quote, newline, NUL, which holds the two byte string
double quote, back slash, `nargv_parse` returns error code 0 under the default
separators with the one argument back slash and the
data buffer back slash, NUL, `a` of length `data_length = 3`: the buffer is not
the concatenation of argument and terminator, and the byte at offset
`data_length - 1` is `a`, not a terminator.  The scan has read behind the
terminator; on the string alone it is a fault. -/
theorem data_broken_behind_terminator :
    strlen [34, 92, 0, 97, 34, 10, 0] = some 2 ∧
    nargv_parse NARGV_DEFAULT_IFS (some [34, 92]) = none ∧
    ∃ (r : NARGV) (args : List (List Nat)) (data : List Nat),
      nargv_parse_mem NARGV_DEFAULT_IFS (some [34, 92, 0, 97, 34, 10, 0]) = some r ∧
      r.error_code = 0 ∧ r.argc = 1 ∧ r.arguments = some args ∧ args = [[92]] ∧
      r.data = some data ∧ data = [92, 0, 97] ∧ data.length = r.data_length ∧
      data ≠ (args.map fun a => a ++ [0]).flatten ∧
      data[r.data_length - 1]? = some 97 :=
  ⟨by rfl, by rfl,
    { argv := some [some 0, none], data := some [92, 0, 97], error_message := none,
      argc := 1, data_length := 3, error_index := 0, error_code := 0 },
    [[92]], [92, 0, 97], by rfl, rfl, rfl, by rfl, rfl, rfl, rfl, rfl, by decide, by rfl⟩

/-- A non-empty NUL free input without quote bytes parses with error code 0, and
the result is the same whatever bytes lie behind its terminator: without a
double quote the scan never leaves the string. -/
theorem quote_free_parses (ifs s tail : List Nat) (hs : s ≠ []) (hz : ∀ c ∈ s, c ≠ 0)
    (hq : ∀ c ∈ s, c ≠ 34 ∧ c ≠ 39) :
    ∃ r, nargv_parse ifs (some s) = some r ∧
      nargv_parse_mem ifs (some (s ++ 0 :: tail)) = some r ∧ r.error_code = 0 := by
  have h : ∃ r, nargv_parse ifs (some s) = some r ∧ r.error_code = 0 := by
    rw [nargv_parse_finish ifs s hs hz]
    obtain ⟨_, _, n3⟩ := run_nonempty ifs s hq Lex.init (by simp [Lex.init])
    rcases n3 with h | h | h <;> simp [Lex.finish, h, success]
  obtain ⟨r, hr, he⟩ := h
  exact ⟨r, hr, nargv_parse_mem_inside ifs s tail r hz hr, he⟩

end Nargv
